import Mathlib

/-! # Sentinel: portfolio position engine and execution accounting engine

Shallow embedding of `internal/services/portfolio_service.go` and
`internal/services/execution_service.go` together with the records of
`internal/models` and the repository interfaces of `internal/repository`.

Conventions of the embedding:

* `float64` fields are rationals (`ℚ`): arithmetic is exact, NaN and
  infinities are outside the model; where a property depends on rounding, the
  function is given a second time with every `float64` operation rounded
  (`float64.round`, `AddOrUpdateHoldingRounded`, `GetUserExecutionStatsRounded`);
* `uuid.UUID` is a natural number and `uuid.Nil` is `0`;
* `time.Time` is an instant (nanoseconds since the zero time) with the zone
  offset that `Format` uses;
* a Go `error` result is `Option GoError` (`none` is `nil`), a `(*T, error)`
  result is `Except GoError T`;
* a repository is a record of functions over an abstract store state `σ`; every
  service function returns the store it leaves behind together with the list
  of repository calls it made, in order;
* what a store writes back into a record through the pointer it is handed
  (a generated ID, the automatic timestamps) is not tracked in the record the
  service holds; the services read none of it;
* `time.Now()` and `uuid.New()` are arguments of the service functions.
-/

namespace Sentinel

/-! ## Basic types -/

/-- Identifiers, `uuid.UUID`. -/
abbrev UUID := Nat

/-- The nil identifier, `uuid.Nil`. -/
def uuid.Nil : UUID := 0

/-- A `time.Time`: `instant` counts nanoseconds since the zero time
(January 1, year 1, 00:00:00 UTC), `zoneOffset` is the offset of the value's
location in nanoseconds east of UTC. -/
structure Time where
  instant : Int
  zoneOffset : Int
  deriving DecidableEq, Repr

/-- `time.Duration`, a count of nanoseconds. -/
abbrev Duration := Int

/-- `t.IsZero()`: the instant is the zero time. -/
def Time.IsZero (t : Time) : Bool := decide (t.instant = 0)

/-- `t.After(u)`: the instant of `t` is strictly later than that of `u`. -/
def Time.After (t u : Time) : Bool := decide (u.instant < t.instant)

/-- `t.Add(d)`. -/
def Time.Add (t : Time) (d : Duration) : Time := { t with instant := t.instant + d }

/-- Errors of the services and repositories. The named constructors are the
package-level sentinel errors; `other` is any other failure a store reports and
`wrap` an error wrapping a cause. -/
inductive GoError where
  /-- `services.ErrInvalidExecution` -/
  | ErrInvalidExecution
  /-- `services.ErrRuleNotFound` -/
  | ServiceErrRuleNotFound
  /-- `services.ErrPortfolioExists` -/
  | ErrPortfolioExists
  /-- `repository.ErrPortfolioNotFound` -/
  | ErrPortfolioNotFound
  /-- `repository.ErrHoldingNotFound` -/
  | ErrHoldingNotFound
  /-- `repository.ErrExecutionNotFound` -/
  | ErrExecutionNotFound
  /-- `repository.ErrRuleNotFound` -/
  | ErrRuleNotFound
  | other (msg : String)
  | wrap (msg : String) (cause : GoError)
  deriving DecidableEq, Repr

/-- `errors.Is(err, target)`: `err` or an error it wraps equals `target`. -/
def errors.Is : GoError → GoError → Bool
  | .wrap msg cause, target =>
      decide (GoError.wrap msg cause = target) || errors.Is cause target
  | err, target => decide (err = target)

/-! ## Records of `internal/models` -/

/-- `models.Portfolio` (the soft-delete marker and the `User` relation are left out). -/
structure Portfolio where
  ID : UUID
  UserID : UUID
  TotalValue : ℚ
  CashBalance : ℚ
  CreatedAt : Time
  UpdatedAt : Time
  deriving DecidableEq, Repr

/-- `models.PortfolioHolding` (the soft-delete marker and the `Portfolio`
relation are left out). -/
structure PortfolioHolding where
  ID : UUID
  PortfolioID : UUID
  Symbol : String
  Quantity : ℚ
  AverageCost : ℚ
  CurrentPrice : ℚ
  LastUpdated : Time
  CreatedAt : Time
  UpdatedAt : Time
  deriving DecidableEq, Repr

/-- The zero value of `time.Time`. -/
def Time.zero : Time := ⟨0, 0⟩

/-! ## `repository.PortfolioRepository` -/

/-- The interface `repository.PortfolioRepository` over a store state `σ`.
Lookups read the store; the other methods return the new store and the error. -/
structure PortfolioRepository (σ : Type) where
  CreatePortfolio : σ → Portfolio → σ × Option GoError
  GetPortfolioByUserID : σ → UUID → Except GoError Portfolio
  UpdatePortfolio : σ → Portfolio → σ × Option GoError
  CreateHolding : σ → PortfolioHolding → σ × Option GoError
  GetHolding : σ → UUID → String → Except GoError PortfolioHolding
  GetAllHoldings : σ → UUID → Except GoError (List PortfolioHolding)
  UpdateHolding : σ → PortfolioHolding → σ × Option GoError
  DeleteHolding : σ → UUID → σ × Option GoError

/-- One call of a method of `repository.PortfolioRepository`, with its arguments. -/
inductive PortfolioCall where
  | CreatePortfolio (portfolio : Portfolio)
  | GetPortfolioByUserID (userID : UUID)
  | UpdatePortfolio (portfolio : Portfolio)
  | CreateHolding (holding : PortfolioHolding)
  | GetHolding (portfolioID : UUID) (symbol : String)
  | GetAllHoldings (portfolioID : UUID)
  | UpdateHolding (holding : PortfolioHolding)
  | DeleteHolding (id : UUID)
  deriving DecidableEq, Repr

/-- Whether a call changes the holdings store. -/
def PortfolioCall.isHoldingMutation : PortfolioCall → Bool
  | .CreateHolding _ => true
  | .UpdateHolding _ => true
  | .DeleteHolding _ => true
  | _ => false

/-- What a service call leaves behind: the store, the repository calls made
(in order) and the returned value. -/
structure Outcome (σ κ α : Type) where
  store : σ
  calls : List κ
  ret : α

/-! ## `portfolioService` -/

/-- `portfolioService.CreatePortfolio`. -/
def CreatePortfolio {σ : Type} (repo : PortfolioRepository σ) (s : σ)
    (userID : UUID) (initialBalance : ℚ) :
    Outcome σ PortfolioCall (Except GoError Portfolio) :=
  let lookup := repo.GetPortfolioByUserID s userID
  let create : Outcome σ PortfolioCall (Except GoError Portfolio) :=
    let portfolio : Portfolio :=
      { ID := uuid.Nil, UserID := userID, TotalValue := initialBalance,
        CashBalance := initialBalance, CreatedAt := Time.zero, UpdatedAt := Time.zero }
    match repo.CreatePortfolio s portfolio with
    | (s', some err) =>
        ⟨s', [.GetPortfolioByUserID userID, .CreatePortfolio portfolio], .error err⟩
    | (s', none) =>
        ⟨s', [.GetPortfolioByUserID userID, .CreatePortfolio portfolio], .ok portfolio⟩
  match lookup with
  | .ok _ => ⟨s, [.GetPortfolioByUserID userID], .error .ErrPortfolioExists⟩
  | .error err =>
      if errors.Is err .ErrPortfolioNotFound then create
      else ⟨s, [.GetPortfolioByUserID userID], .error err⟩

/-- `portfolioService.AddOrUpdateHolding`; `now` is the value of `time.Now()`. -/
def AddOrUpdateHolding {σ : Type} (repo : PortfolioRepository σ) (now : Time) (s : σ)
    (userID : UUID) (symbol : String) (quantity price : ℚ) :
    Outcome σ PortfolioCall (Option GoError) :=
  match repo.GetPortfolioByUserID s userID with
  | .error err => ⟨s, [.GetPortfolioByUserID userID], some err⟩
  | .ok portfolio =>
    -- Check if holding already exists
    match repo.GetHolding s portfolio.ID symbol with
    | .error err =>
      if errors.Is err .ErrHoldingNotFound then
        -- Create new holding
        let newHolding : PortfolioHolding :=
          { ID := uuid.Nil, PortfolioID := portfolio.ID, Symbol := symbol,
            Quantity := quantity, AverageCost := price, CurrentPrice := price,
            LastUpdated := now, CreatedAt := Time.zero, UpdatedAt := Time.zero }
        let r := repo.CreateHolding s newHolding
        ⟨r.1, [.GetPortfolioByUserID userID, .GetHolding portfolio.ID symbol,
                .CreateHolding newHolding], r.2⟩
      else
        ⟨s, [.GetPortfolioByUserID userID, .GetHolding portfolio.ID symbol], some err⟩
    | .ok holding =>
      let totalValue := holding.AverageCost * holding.Quantity + price * quantity
      let totalQuantity := holding.Quantity + quantity
      if totalQuantity ≤ 0 then
        -- Remove holding if quantity is zero or negative
        let r := repo.DeleteHolding s holding.ID
        ⟨r.1, [.GetPortfolioByUserID userID, .GetHolding portfolio.ID symbol,
                .DeleteHolding holding.ID], r.2⟩
      else
        let updated : PortfolioHolding :=
          { holding with Quantity := totalQuantity, AverageCost := totalValue / totalQuantity,
                         CurrentPrice := price, LastUpdated := now }
        let r := repo.UpdateHolding s updated
        ⟨r.1, [.GetPortfolioByUserID userID, .GetHolding portfolio.ID symbol,
                .UpdateHolding updated], r.2⟩

/-- `portfolioService.RemoveHolding`. -/
def RemoveHolding {σ : Type} (repo : PortfolioRepository σ) (s : σ)
    (userID : UUID) (symbol : String) : Outcome σ PortfolioCall (Option GoError) :=
  match repo.GetPortfolioByUserID s userID with
  | .error err => ⟨s, [.GetPortfolioByUserID userID], some err⟩
  | .ok portfolio =>
    match repo.GetHolding s portfolio.ID symbol with
    | .error err =>
        ⟨s, [.GetPortfolioByUserID userID, .GetHolding portfolio.ID symbol], some err⟩
    | .ok holding =>
        let r := repo.DeleteHolding s holding.ID
        ⟨r.1, [.GetPortfolioByUserID userID, .GetHolding portfolio.ID symbol,
                .DeleteHolding holding.ID], r.2⟩

/-! ## `PortfolioHandler.AddHolding` -/

/-- `handlers.addHoldingRequest`: the decoded JSON body of the add-holding
request. -/
structure addHoldingRequest where
  Symbol : String
  Quantity : ℚ
  Price : ℚ
  deriving DecidableEq, Repr

/-- The binding tags of `addHoldingRequest` as the request validator reads
them: `required` (on `symbol`, `quantity` and `price`) rejects the zero value
of the field, `gt=0` (on `price`) rejects a value that is not above 0. -/
def addHoldingRequest.bindingOK (req : addHoldingRequest) : Bool :=
  decide (req.Symbol ≠ "") && decide (req.Quantity ≠ 0) &&
    (decide (req.Price ≠ 0) && decide (req.Price > 0))

/-- `http.StatusOK`. -/
def http.StatusOK : Nat := 200

/-- `http.StatusBadRequest`. -/
def http.StatusBadRequest : Nat := 400

/-- `http.StatusUnauthorized`. -/
def http.StatusUnauthorized : Nat := 401

/-- `http.StatusInternalServerError`. -/
def http.StatusInternalServerError : Nat := 500

/-- `PortfolioHandler.AddHolding`. `body` is the decoded request body (`none`
when it does not decode), `userID` the value the context holds under
"userID", if any; the value returned is the status of the response. -/
def AddHolding {σ : Type} (repo : PortfolioRepository σ) (now : Time) (s : σ)
    (body : Option addHoldingRequest) (userID : Option UUID) :
    Outcome σ PortfolioCall Nat :=
  match body with
  | none => ⟨s, [], http.StatusBadRequest⟩
  | some req =>
    if req.bindingOK = false then ⟨s, [], http.StatusBadRequest⟩
    else
      match userID with
      | none => ⟨s, [], http.StatusUnauthorized⟩
      | some userID =>
        let r := AddOrUpdateHolding repo now s userID req.Symbol req.Quantity req.Price
        match r.ret with
        | some _ => ⟨r.store, r.calls, http.StatusInternalServerError⟩
        | none => ⟨r.store, r.calls, http.StatusOK⟩

/-! ## The repository over in-memory tables

`internal/repository/portfolio_repo.go` runs each method as one statement
against the tables `portfolios` and `portfolio_holdings`. Here the tables are
lists of rows; `fresh` is the identifier the `BeforeCreate` hook of
`models/portfolio.go` hands to a row created with the nil identifier. -/

/-- The tables behind `portfolioRepository`. -/
structure Tables where
  portfolios : List Portfolio
  holdings : List PortfolioHolding
  fresh : UUID
  deriving DecidableEq, Repr

/-- The repository `portfolioRepository` of `portfolio_repo.go` over `Tables`. -/
def portfolioRepository : PortfolioRepository Tables where
  CreatePortfolio := fun db p =>
    let row := if p.ID = uuid.Nil then { p with ID := db.fresh } else p
    if db.portfolios.any (fun x => decide (x.ID = row.ID)) then
      (db, some (.other "duplicate key"))
    else ({ db with portfolios := db.portfolios ++ [row], fresh := db.fresh + 1 }, none)
  GetPortfolioByUserID := fun db userID =>
    match db.portfolios.find? (fun x => decide (x.UserID = userID)) with
    | some p => .ok p
    | none => .error .ErrPortfolioNotFound
  UpdatePortfolio := fun db p =>
    if db.portfolios.any (fun x => decide (x.ID = p.ID)) then
      ({ db with portfolios := db.portfolios.map (fun x => if x.ID = p.ID then p else x) }, none)
    else (db, some .ErrPortfolioNotFound)
  CreateHolding := fun db h =>
    let row := if h.ID = uuid.Nil then { h with ID := db.fresh } else h
    if db.holdings.any (fun x => decide (x.ID = row.ID)) then
      (db, some (.other "duplicate key"))
    else ({ db with holdings := db.holdings ++ [row], fresh := db.fresh + 1 }, none)
  GetHolding := fun db portfolioID symbol =>
    match db.holdings.find? (fun x => decide (x.PortfolioID = portfolioID ∧ x.Symbol = symbol)) with
    | some h => .ok h
    | none => .error .ErrHoldingNotFound
  GetAllHoldings := fun db portfolioID =>
    .ok (db.holdings.filter (fun x => decide (x.PortfolioID = portfolioID)))
  UpdateHolding := fun db h =>
    if db.holdings.any (fun x => decide (x.ID = h.ID)) then
      ({ db with holdings := db.holdings.map (fun x => if x.ID = h.ID then h else x) }, none)
    else (db, some .ErrHoldingNotFound)
  DeleteHolding := fun db id =>
    if db.holdings.any (fun x => decide (x.ID = id)) then
      ({ db with holdings := db.holdings.filter (fun x => decide (x.ID ≠ id)) }, none)
    else (db, some .ErrHoldingNotFound)

/-! ## Execution records and their repositories -/

/-- `models.Execution` (the soft-delete marker and the `User` and `Rule`
relations are left out). `RuleID` is the optional originating rule. -/
structure Execution where
  ID : UUID
  RuleID : Option UUID
  UserID : UUID
  Symbol : String
  ExecutionType : String
  Quantity : ℚ
  Price : ℚ
  TotalAmount : ℚ
  Status : String
  ExecutionTime : Time
  Exchange : String
  ExternalOrderID : String
  CreatedAt : Time
  UpdatedAt : Time
  deriving DecidableEq, Repr

/-- `models.TradingRule` (the soft-delete marker and the `User` relation are
left out). `Conditions` and `Actions` are the serialized blobs. -/
structure TradingRule where
  ID : UUID
  UserID : UUID
  Name : String
  Description : String
  Symbol : String
  RuleType : String
  Conditions : List UInt8
  Actions : List UInt8
  Status : String
  IsAIManaged : Bool
  CreatedAt : Time
  UpdatedAt : Time
  deriving DecidableEq, Repr

/-- The interface `repository.ExecutionRepository` over a store state `σ`. -/
structure ExecutionRepository (σ : Type) where
  Create : σ → Execution → σ × Option GoError
  GetByID : σ → UUID → Except GoError Execution
  GetByUserID : σ → UUID → Int → Int → Except GoError (List Execution)
  GetByRuleID : σ → UUID → Except GoError (List Execution)
  GetRecentExecutions : σ → Int → Except GoError (List Execution)
  Update : σ → Execution → σ × Option GoError
  CountByUserID : σ → UUID → Except GoError Int

/-- The interface `repository.RuleRepository` over a store state `σ`. -/
structure RuleRepository (σ : Type) where
  Create : σ → TradingRule → σ × Option GoError
  GetByID : σ → UUID → Except GoError TradingRule
  GetByUserID : σ → UUID → Except GoError (List TradingRule)
  GetActiveRules : σ → Except GoError (List TradingRule)
  Update : σ → TradingRule → σ × Option GoError
  Delete : σ → UUID → σ × Option GoError

/-- The struct `executionService`: the two repositories it holds, over one store. -/
structure executionService (σ : Type) where
  executionRepo : ExecutionRepository σ
  ruleRepo : RuleRepository σ

/-- One repository call made by `executionService`, with its arguments; the
first group are methods of `executionRepo`, the second of `ruleRepo`. -/
inductive ExecutionCall where
  | Create (execution : Execution)
  | GetByID (id : UUID)
  | GetByUserID (userID : UUID) (limit offset : Int)
  | GetByRuleID (ruleID : UUID)
  | GetRecentExecutions (limit : Int)
  | Update (execution : Execution)
  | CountByUserID (userID : UUID)
  | RuleGetByID (id : UUID)
  | RuleUpdate (rule : TradingRule)
  deriving DecidableEq, Repr

/-- What a call that receives `execution *models.Execution` leaves behind: the
store, the repository calls made, the record behind the pointer and the
returned error. -/
structure ExecOutcome (σ : Type) where
  store : σ
  calls : List ExecutionCall
  execution : Execution
  ret : Option GoError

/-! ## `executionService` -/

/-- The validation that opens `CreateExecution` and `ProcessExecution`: the
condition under which they return `ErrInvalidExecution`. -/
def invalidExecution (execution : Execution) : Bool :=
  decide (execution.UserID = uuid.Nil) || decide (execution.Symbol = "") ||
    decide (execution.Quantity ≤ 0) || decide (execution.Price ≤ 0)

/-- `executionService.CreateExecution`; `now` is the value of `time.Now()` and
`newID` the value of `uuid.New()`. -/
def CreateExecution {σ : Type} (svc : executionService σ) (now : Time) (newID : UUID)
    (s : σ) (execution : Execution) : ExecOutcome σ :=
  -- Validate required fields
  if invalidExecution execution then
    ⟨s, [], execution, some .ErrInvalidExecution⟩
  else
    -- Set ID if not provided
    let execution := if execution.ID = uuid.Nil then { execution with ID := newID } else execution
    -- Calculate total amount if not already set
    let execution :=
      if execution.TotalAmount = 0 then
        { execution with TotalAmount := execution.Price * execution.Quantity }
      else execution
    -- Set execution time to now if not provided
    let execution :=
      if execution.ExecutionTime.IsZero then { execution with ExecutionTime := now }
      else execution
    let r := svc.executionRepo.Create s execution
    ⟨r.1, [.Create execution], execution, r.2⟩

/-- `executionService.updateRuleExecutionTime`: the body is `return nil`. -/
def updateRuleExecutionTime {σ : Type} (_svc : executionService σ) (s : σ)
    (_rule : TradingRule) (_executionTime : Time) :
    Outcome σ ExecutionCall (Option GoError) :=
  ⟨s, [], none⟩

/-- `executionService.ProcessExecution`; `now` is the value of `time.Now()`. -/
def ProcessExecution {σ : Type} (svc : executionService σ) (now : Time)
    (s : σ) (execution : Execution) : ExecOutcome σ :=
  -- Validate the execution
  if invalidExecution execution then
    ⟨s, [], execution, some .ErrInvalidExecution⟩
  else
    -- Calculate total amount if not set
    let execution :=
      if execution.TotalAmount = 0 then
        { execution with TotalAmount := execution.Price * execution.Quantity }
      else execution
    -- Set execution time to now if not provided
    let execution :=
      if execution.ExecutionTime.IsZero then { execution with ExecutionTime := now }
      else execution
    -- Create the execution record
    let r := svc.executionRepo.Create s execution
    match r.2 with
    | some err => ⟨r.1, [.Create execution], execution, some err⟩
    | none =>
      -- If this execution is associated with a rule, update the rule's last execution time
      match execution.RuleID with
      | none => ⟨r.1, [.Create execution], execution, none⟩
      | some ruleID =>
        match svc.ruleRepo.GetByID r.1 ruleID with
        | .error err => ⟨r.1, [.Create execution, .RuleGetByID ruleID], execution, some err⟩
        | .ok rule =>
          let u := updateRuleExecutionTime svc r.1 rule execution.ExecutionTime
          ⟨u.store, [.Create execution, .RuleGetByID ruleID] ++ u.calls, execution, u.ret⟩

/-- Specification of the defaulting step shared by `CreateExecution` and
`ProcessExecution`, used to state what reaches the store: `TotalAmount` 0 is
replaced by `Price * Quantity`, a zero `ExecutionTime` by the clock reading,
every other field is kept. -/
def withDefaults (now : Time) (e : Execution) : Execution :=
  { e with
    TotalAmount := if e.TotalAmount = 0 then e.Price * e.Quantity else e.TotalAmount
    ExecutionTime := if e.ExecutionTime.IsZero = true then now else e.ExecutionTime }

/-! ## Go maps -/

/-- A Go map as the list of its entries, one per key, in order of first insertion. -/
abbrev GoMap (κ ν : Type) := List (κ × ν)

/-- The comma-ok lookup `v, ok := m[k]`. -/
def GoMap.get? {κ ν : Type} [DecidableEq κ] : GoMap κ ν → κ → Option ν
  | [], _ => none
  | (k', v) :: m, k => if k' = k then some v else GoMap.get? m k

/-- The lookup `m[k]`, which gives the zero value `z` for an absent key. -/
def GoMap.getD {κ ν : Type} [DecidableEq κ] (m : GoMap κ ν) (k : κ) (z : ν) : ν :=
  (GoMap.get? m k).getD z

/-- The assignment `m[k] = v`. -/
def GoMap.set {κ ν : Type} [DecidableEq κ] : GoMap κ ν → κ → ν → GoMap κ ν
  | [], k, v => [(k, v)]
  | (k', v') :: m, k, v => if k' = k then (k', v) :: m else (k', v') :: GoMap.set m k v

/-- The keys of a map. -/
def GoMap.keys {κ ν : Type} (m : GoMap κ ν) : List κ := m.map Prod.fst

/-! ## Execution statistics -/

/-- `services.DailyActivity`. -/
structure DailyActivity where
  Date : Time
  Count : Nat
  deriving DecidableEq, Repr

/-- `services.SymbolStat`. -/
structure SymbolStat where
  Symbol : String
  Count : Nat
  Volume : ℚ
  BuyCount : Nat
  SellCount : Nat
  deriving DecidableEq, Repr

/-- `services.ExecutionStats`. -/
structure ExecutionStats where
  TotalExecutions : Nat
  BuyCount : Nat
  SellCount : Nat
  TotalVolume : ℚ
  AverageTradeSize : ℚ
  SymbolBreakdown : GoMap String Nat
  ExecutionsByDay : List DailyActivity
  TopSymbols : List SymbolStat
  RecentExecutions : List Execution
  deriving DecidableEq, Repr

/-- Wrap-around of an integer into the range of `int64`. -/
def int64 (x : Int) : Int := (x + 2 ^ 63) % 2 ^ 64 - 2 ^ 63

/-- Nanoseconds in a day. -/
def nanosPerDay : Int := 86400 * 1000000000

/-- The calendar date of `t` in its own location, as a count of days since the
zero time. It stands for the string `t.Format("2006-01-02")`: two times have
the same string exactly when they have the same day count. -/
def dateKey (t : Time) : Int := Int.fdiv (t.instant + t.zoneOffset) nanosPerDay

/-- Whether the date with day count `d` is of the years 0 to 9999, the dates
whose `2006-01-02` string parses: day `-366` is January 1 of the year 0, a leap
year of 366 days, and day `3652058` is December 31 of the year 9999, the years
1 to 9999 having 9999 * 365 + 2424 = 3652059 days. -/
def yearInRange (d : Int) : Bool := decide (-366 ≤ d) && decide (d ≤ 3652058)

/-- The value `date` of `date, _ := time.Parse("2006-01-02", dateStr)` for the
date with day count `d`: midnight UTC of that date when the date is of the
years 0 to 9999; the string of any other date does not parse, and the code,
which drops the error, is left with the zero time. -/
def parseDate (d : Int) : Time := if yearInRange d then ⟨d * nanosPerDay, 0⟩ else Time.zero

/-- The order in which the runtime ranges over the two maps of
`GetUserExecutionStats`; Go leaves it unspecified, any rearrangement of the
entries may occur. -/
structure RangeOrder where
  dailyActivity : GoMap Int Nat → List (Int × Nat)
  symbolStats : GoMap String SymbolStat → List (String × SymbolStat)

/-- The range order that visits entries in order of first insertion. -/
def RangeOrder.insertion : RangeOrder := ⟨id, id⟩

/-- The variables the filtering loop of `GetUserExecutionStats` updates. -/
structure StatsLoop where
  filtered : List Execution
  stats : ExecutionStats
  symbolStats : GoMap String SymbolStat
  dailyActivity : GoMap Int Nat
  deriving DecidableEq, Repr

/-- The variables before the loop: empty slices and maps, zero counters. -/
def StatsLoop.init : StatsLoop :=
  { filtered := [],
    stats := { TotalExecutions := 0, BuyCount := 0, SellCount := 0, TotalVolume := 0,
               AverageTradeSize := 0, SymbolBreakdown := [], ExecutionsByDay := [],
               TopSymbols := [], RecentExecutions := [] },
    symbolStats := [],
    dailyActivity := [] }

/-- `startTime := time.Now().Add(-timeRange)`. -/
def startTime (now : Time) (timeRange : Duration) : Time := now.Add (int64 (-timeRange))

/-- One iteration of `for _, exec := range executions`. -/
def statsStep (start : Time) (acc : StatsLoop) (exec : Execution) : StatsLoop :=
  if exec.ExecutionTime.After start then
    let filtered := acc.filtered ++ [exec]
    -- Count by symbol
    let breakdown := GoMap.set acc.stats.SymbolBreakdown exec.Symbol
      (GoMap.getD acc.stats.SymbolBreakdown exec.Symbol 0 + 1)
    -- Track daily activity
    let key := dateKey exec.ExecutionTime
    let dailyActivity := GoMap.set acc.dailyActivity key (GoMap.getD acc.dailyActivity key 0 + 1)
    -- Track symbol statistics
    let symbolStat : SymbolStat :=
      match GoMap.get? acc.symbolStats exec.Symbol with
      | some st => st
      | none => { Symbol := exec.Symbol, Count := 0, Volume := 0, BuyCount := 0, SellCount := 0 }
    let symbolStat :=
      { symbolStat with Count := symbolStat.Count + 1, Volume := symbolStat.Volume + exec.TotalAmount }
    let isBuy := decide (exec.ExecutionType = "buy")
    let isSell := !isBuy && decide (exec.ExecutionType = "sell")
    let symbolStat :=
      if isBuy then { symbolStat with BuyCount := symbolStat.BuyCount + 1 }
      else if isSell then { symbolStat with SellCount := symbolStat.SellCount + 1 }
      else symbolStat
    let stats :=
      { acc.stats with
        SymbolBreakdown := breakdown,
        BuyCount := if isBuy then acc.stats.BuyCount + 1 else acc.stats.BuyCount,
        SellCount := if isSell then acc.stats.SellCount + 1 else acc.stats.SellCount,
        TotalVolume := acc.stats.TotalVolume + exec.TotalAmount }
    { filtered := filtered, stats := stats,
      symbolStats := GoMap.set acc.symbolStats exec.Symbol symbolStat,
      dailyActivity := dailyActivity }
  else acc

/-- The inner loop of the bubble sort, `for j := 0; j < bound; j++`, started
at the head of the list: an adjacent pair is swapped when the earlier `Count`
is smaller. -/
def bubbleInner : Nat → List SymbolStat → List SymbolStat
  | 0, l => l
  | _ + 1, [] => []
  | _ + 1, [x] => [x]
  | bound + 1, x :: y :: rest =>
      if x.Count < y.Count then y :: bubbleInner bound (x :: rest)
      else x :: bubbleInner bound (y :: rest)

/-- The bubble sort: for `i` from `0` to `len - 2` run the inner loop with
bound `len - i - 1`. -/
def bubbleSort (l : List SymbolStat) : List SymbolStat :=
  (List.range (l.length - 1)).foldl (fun a i => bubbleInner (a.length - i - 1) a) l

/-- `executionService.GetUserExecutionStats`; `now` is the value of
`time.Now()` and `order` the order in which the two maps are ranged over. -/
def GetUserExecutionStats {σ : Type} (svc : executionService σ) (now : Time)
    (order : RangeOrder) (s : σ) (userID : UUID) (timeRange : Duration) :
    Outcome σ ExecutionCall (Except GoError ExecutionStats) :=
  let start := startTime now timeRange
  match svc.executionRepo.GetByUserID s userID 1000 0 with
  | .error err => ⟨s, [.GetByUserID userID 1000 0], .error err⟩
  | .ok executions =>
    let acc := executions.foldl (statsStep start) StatsLoop.init
    let filtered := acc.filtered
    let stats := acc.stats
    -- Set summary statistics
    let stats := { stats with TotalExecutions := filtered.length }
    let stats :=
      if stats.TotalExecutions > 0 then
        { stats with AverageTradeSize := stats.TotalVolume / (stats.TotalExecutions : ℚ) }
      else stats
    -- Convert daily activity map to slice
    let byDay : List DailyActivity :=
      (order.dailyActivity acc.dailyActivity).map
        (fun (kv : Int × Nat) => { Date := parseDate kv.1, Count := kv.2 })
    let stats := { stats with ExecutionsByDay := byDay }
    -- Convert symbol stats map to slice and sort by count
    let top := bubbleSort ((order.symbolStats acc.symbolStats).map Prod.snd)
    -- Limit to top 5 symbols
    let stats := { stats with TopSymbols := if top.length > 5 then top.take 5 else top }
    -- Get most recent executions
    let stats :=
      { stats with RecentExecutions := if filtered.length > 5 then filtered.take 5 else filtered }
    ⟨s, [.GetByUserID userID 1000 0], .ok stats⟩

/-- The executions of a batch that `GetUserExecutionStats` keeps: those whose
`ExecutionTime` is after `startTime`. -/
def inWindow (now : Time) (timeRange : Duration) (executions : List Execution) :
    List Execution :=
  executions.filter (fun e => e.ExecutionTime.After (startTime now timeRange))

/-! ## JSON documents and the rule blobs -/

/-- A JSON document, the form in which `encoding/json` reads and writes the
values of a program. Numbers are rationals, like every `float64` here. -/
inductive Json where
  | null
  | bool (b : Bool)
  | num (q : ℚ)
  | str (s : String)
  | arr (items : List Json)
  | obj (fields : List (String × Json))

/-- `services.RuleCondition`; the field `Type` is written `Type_`. `Params` is the `interface{}` field: `none` is
the nil interface. -/
structure RuleCondition where
  Type_ : String
  Symbol : String
  Operator : String
  Value : ℚ
  TimeFrame : String
  Params : Option Json

/-- `services.RuleAction`; the field `Type` is written `Type_`. -/
structure RuleAction where
  Type_ : String
  Symbol : String
  Quantity : ℚ
  OrderType : String
  Limit : ℚ
  Stop : ℚ
  deriving DecidableEq, Repr

/-- The document of a `RuleCondition` under its field tags: `type`, `symbol`,
`operator` and `value` always, `time_frame` and `params` only when they are
not empty (`omitempty`). -/
def RuleCondition.toJson (c : RuleCondition) : Json :=
  .obj ([("type", .str c.Type_), ("symbol", .str c.Symbol), ("operator", .str c.Operator),
         ("value", .num c.Value)] ++
        (if c.TimeFrame = "" then [] else [("time_frame", .str c.TimeFrame)]) ++
        (match c.Params with
         | none => []
         | some p => [("params", p)]))

/-- The document of a `RuleAction` under its field tags: `type`, `symbol`,
`quantity` and `order_type` always, `limit` and `stop` only when they are not
zero (`omitempty`). -/
def RuleAction.toJson (a : RuleAction) : Json :=
  .obj ([("type", .str a.Type_), ("symbol", .str a.Symbol), ("quantity", .num a.Quantity),
         ("order_type", .str a.OrderType)] ++
        (if a.Limit = 0 then [] else [("limit", .num a.Limit)]) ++
        (if a.Stop = 0 then [] else [("stop", .num a.Stop)]))

/-- The error `Unmarshal` reports for a value that does not fit its target. -/
def unmarshalTypeError : GoError := .other "json: cannot unmarshal value into Go value"

/-- Reading a document into a `string` field: a string is stored, `null`
leaves the field as it is, anything else is an error. -/
def setString (v : Json) (old : String) : Except GoError String :=
  match v with
  | .str s => .ok s
  | .null => .ok old
  | _ => .error unmarshalTypeError

/-- Reading a document into a `float64` field: a number is stored, `null`
leaves the field as it is, anything else is an error. -/
def setFloat (v : Json) (old : ℚ) : Except GoError ℚ :=
  match v with
  | .num q => .ok q
  | .null => .ok old
  | _ => .error unmarshalTypeError

/-- Reading one member of an object into a `RuleCondition`: the key selects
the field by its tag, a key that is no tag is skipped. Keys are compared
exactly; `encoding/json` also accepts a key that differs from the tag in case
only, which a document written by `toJson` never has. -/
def RuleCondition.setField (c : RuleCondition) (key : String) (v : Json) :
    Except GoError RuleCondition :=
  if key = "type" then (setString v c.Type_).map (fun x => { c with Type_ := x })
  else if key = "symbol" then (setString v c.Symbol).map (fun x => { c with Symbol := x })
  else if key = "operator" then (setString v c.Operator).map (fun x => { c with Operator := x })
  else if key = "value" then (setFloat v c.Value).map (fun x => { c with Value := x })
  else if key = "time_frame" then
    (setString v c.TimeFrame).map (fun x => { c with TimeFrame := x })
  else if key = "params" then
    match v with
    | .null => .ok c
    | p => .ok { c with Params := some p }
  else .ok c

/-- Reading one member of an object into a `RuleAction`. -/
def RuleAction.setField (a : RuleAction) (key : String) (v : Json) : Except GoError RuleAction :=
  if key = "type" then (setString v a.Type_).map (fun x => { a with Type_ := x })
  else if key = "symbol" then (setString v a.Symbol).map (fun x => { a with Symbol := x })
  else if key = "quantity" then (setFloat v a.Quantity).map (fun x => { a with Quantity := x })
  else if key = "order_type" then
    (setString v a.OrderType).map (fun x => { a with OrderType := x })
  else if key = "limit" then (setFloat v a.Limit).map (fun x => { a with Limit := x })
  else if key = "stop" then (setFloat v a.Stop).map (fun x => { a with Stop := x })
  else .ok a

/-- The members of an object read one after the other into a record. -/
def readFields {α : Type} (set : α → String → Json → Except GoError α) :
    List (String × Json) → α → Except GoError α
  | [], a => .ok a
  | (k, v) :: rest, a =>
      match set a k v with
      | .error e => .error e
      | .ok a' => readFields set rest a'

/-- Reading a document into a fresh `RuleCondition`: an object is read member
by member into the zero value, `null` gives the zero value, anything else is
an error. -/
def RuleCondition.fromJson : Json → Except GoError RuleCondition
  | .obj fields => readFields RuleCondition.setField fields ⟨"", "", "", 0, "", none⟩
  | .null => .ok ⟨"", "", "", 0, "", none⟩
  | _ => .error unmarshalTypeError

/-- Reading a document into a fresh `RuleAction`. -/
def RuleAction.fromJson : Json → Except GoError RuleAction
  | .obj fields => readFields RuleAction.setField fields ⟨"", "", 0, "", 0, 0⟩
  | .null => .ok ⟨"", "", 0, "", 0, 0⟩
  | _ => .error unmarshalTypeError

/-- The elements of an array read one after the other. -/
def readItems {α : Type} (read : Json → Except GoError α) : List Json → Except GoError (List α)
  | [] => .ok []
  | j :: rest =>
      match read j with
      | .error e => .error e
      | .ok a =>
        match readItems read rest with
        | .error e => .error e
        | .ok as => .ok (a :: as)

/-- `models.MarketData`, with the fields of the embedded `gorm.Model`. -/
structure MarketData where
  ID : Nat
  CreatedAt : Time
  UpdatedAt : Time
  DeletedAt : Option Time
  Symbol : String
  Timestamp : Time
  Open : ℚ
  High : ℚ
  Low : ℚ
  Close : ℚ
  Volume : Int
  Source : String
  TimeFrame : String
  deriving DecidableEq, Repr

/-- `models.RuleExecution`, with the fields of the embedded `gorm.Model`. -/
structure RuleExecution where
  ID : Nat
  CreatedAt : Time
  UpdatedAt : Time
  DeletedAt : Option Time
  RuleID : UUID
  UserID : UUID
  Symbol : String
  ExecutedAt : Time
  TriggerPrice : ℚ
  Quantity : ℚ
  OrderType : String
  Direction : String
  Status : String
  Notes : String
  deriving DecidableEq, Repr

/-- What the rule evaluation loop of `main` works with. `ruleRepo` is the rule
repository; `EvaluateRule` and `ExecuteRule` are the two methods of the rule
engine service, which get a pointer to the loop variable and so return the
rule as they leave it; `GetPrice` is `marketDataService.GetPrice`;
`CreateExecution` is the call that records a `RuleExecution`; `Now` is the
clock. -/
structure RuleEngine (σ : Type) where
  ruleRepo : RuleRepository σ
  EvaluateRule : σ → TradingRule → σ × TradingRule × Except GoError Bool
  GetPrice : σ → String → Except GoError MarketData
  ExecuteRule : σ → TradingRule → ℚ → σ × TradingRule × Option GoError
  CreateExecution : σ → RuleExecution → σ × Option GoError
  Now : σ → Time

/-- One call made by the rule evaluation loop, with its arguments. -/
inductive EngineCall where
  | GetActiveRules
  | EvaluateRule (rule : TradingRule)
  | GetPrice (symbol : String)
  | ExecuteRule (rule : TradingRule) (price : ℚ)
  | CreateExecution (execution : RuleExecution)
  deriving DecidableEq, Repr

/-- The rule an `EvaluateRule` call was made for. -/
def EngineCall.evaluated : EngineCall → Option TradingRule
  | .EvaluateRule rule => some rule
  | _ => none

/-- The body of `for _, rule := range rules`: one rule of a cycle, from the
store `acc.1` with the calls `acc.2` made so far. Log lines are not recorded. -/
def evaluateStep {σ : Type} (eng : RuleEngine σ) (acc : σ × List EngineCall)
    (rule : TradingRule) : σ × List EngineCall :=
  -- Check if rule should be executed
  match eng.EvaluateRule acc.1 rule with
  | (s1, _, .error _) => (s1, acc.2 ++ [.EvaluateRule rule])
  | (s1, rule1, .ok shouldExecute) =>
    if shouldExecute then
      -- Get current market data
      match eng.GetPrice s1 rule1.Symbol with
      | .error _ => (s1, acc.2 ++ [.EvaluateRule rule, .GetPrice rule1.Symbol])
      | .ok marketData =>
        -- Execute the rule
        match eng.ExecuteRule s1 rule1 marketData.Close with
        | (s2, _, some _) =>
          (s2, acc.2 ++ [.EvaluateRule rule, .GetPrice rule1.Symbol,
            .ExecuteRule rule1 marketData.Close])
        | (s2, rule2, none) =>
          -- Create execution record
          let execution : RuleExecution :=
            { ID := 0, CreatedAt := Time.zero, UpdatedAt := Time.zero, DeletedAt := none,
              RuleID := rule2.ID, UserID := rule2.UserID, Symbol := rule2.Symbol,
              ExecutedAt := eng.Now s2, TriggerPrice := marketData.Close, Quantity := 0,
              OrderType := "", Direction := "", Status := "executed",
              Notes := "Automated execution by rule engine" }
          ((eng.CreateExecution s2 execution).1,
            acc.2 ++ [.EvaluateRule rule, .GetPrice rule1.Symbol,
              .ExecuteRule rule1 marketData.Close, .CreateExecution execution])
    else (s1, acc.2 ++ [.EvaluateRule rule])

/-- One cycle of the rule evaluation loop, the body of `case <-ticker.C`:
the final store and the calls made, in order. -/
def evaluationCycle {σ : Type} (eng : RuleEngine σ) (s : σ) : σ × List EngineCall :=
  -- Get all active rules
  match eng.ruleRepo.GetActiveRules s with
  | .error _ => (s, [.GetActiveRules])
  | .ok rules =>
    -- Evaluate each rule
    rules.foldl (evaluateStep eng) (s, [.GetActiveRules])

/-! ## Rule evaluation -/

/-- Modelled from the spec: the comparison operator of a Condition, as
`EvaluateRule` of the rule engine service, which is not in the repository,
reads it: greater-than, less-than, equal, and the two variants that admit
equality. -/
inductive Comparison where
  | greaterThan
  | lessThan
  | equal
  | greaterOrEqual
  | lessOrEqual
  deriving DecidableEq, Repr

/-- Modelled from the spec: the logical combinator (AND/OR) by which a
Condition is combined with the conditions before it in `EvaluateRule` of the
rule engine service, which is not in the repository. -/
inductive Combinator where
  | and
  | or
  deriving DecidableEq, Repr

/-- Modelled from the spec: a Condition as `EvaluateRule` of the rule engine
service, which is not in the repository, evaluates it; it has a type tag, a
target symbol, a comparison operator, a primary threshold value, an optional
time-frame qualifier (empty when absent) and an optional logical combinator. -/
structure Condition where
  TypeTag : String
  Symbol : String
  Operator : Comparison
  Value : ℚ
  TimeFrame : String
  LogicalOperator : Option Combinator
  deriving DecidableEq, Repr

/-- Modelled from the spec: the comparison inside the missing `EvaluateRule`;
a condition compares an observed value against its primary threshold using
its operator. -/
def Comparison.test : Comparison → ℚ → ℚ → Bool
  | .greaterThan, observed, threshold => decide (observed > threshold)
  | .lessThan, observed, threshold => decide (observed < threshold)
  | .equal, observed, threshold => decide (observed = threshold)
  | .greaterOrEqual, observed, threshold => decide (observed ≥ threshold)
  | .lessOrEqual, observed, threshold => decide (observed ≤ threshold)

/-- Modelled from the spec: one condition inside the missing `EvaluateRule`;
it evaluates to a boolean given the current observed value for its symbol and
time frame, and when that value is not available the condition is not
satisfied. -/
def Condition.holds (observed : String → String → Option ℚ) (c : Condition) : Bool :=
  match observed c.Symbol c.TimeFrame with
  | none => false
  | some v => c.Operator.test v c.Value

/-- Modelled from the spec: the composition rule inside the missing
`EvaluateRule`; the conditions after the first, left to right, each combined with the running verdict by its own combinator, AND when it has
none; AND gives false at once when the combined verdict is false, OR gives
true at once when the combined verdict is true. -/
def combineVerdict (observed : String → String → Option ℚ) : Bool → List Condition → Bool
  | verdict, [] => verdict
  | verdict, c :: rest =>
      match c.LogicalOperator.getD .and with
      | .and => if verdict && c.holds observed then combineVerdict observed true rest else false
      | .or => if verdict || c.holds observed then true else combineVerdict observed false rest

/-- Modelled from the spec: the trigger verdict the missing `EvaluateRule`
forms of a condition sequence; a sequence with no condition never triggers. -/
def triggerVerdict (observed : String → String → Option ℚ) : List Condition → Bool
  | [] => false
  | c :: rest => combineVerdict observed (c.holds observed) rest

/-- Modelled from the spec: `EvaluateRule` of the rule engine service, whose
code is not in the repository. `parse` deserializes the conditions blob of the
rule; a blob that does not parse is an error, otherwise the result is the
trigger verdict of the conditions for the observed values. -/
def EvaluateRule (parse : List UInt8 → Except GoError (List Condition))
    (observed : String → String → Option ℚ) (rule : TradingRule) : Except GoError Bool :=
  match parse rule.Conditions with
  | .error err => .error err
  | .ok conditions => .ok (triggerVerdict observed conditions)

/-! ## `float64` arithmetic

The services above compute in exact rationals. Where a property depends on
rounding, the functions below are the same code with every `float64`
operation rounded. -/

/-- The integer nearest to `n / d`, for `d > 0`: the even one of the two
nearest when `n / d` lies halfway between them. -/
def roundHalfEven (n d : Nat) : Nat :=
  let q := n / d
  let r := n % d
  if 2 * r < d then q else if d < 2 * r then q + 1 else if q % 2 = 0 then q else q + 1

/-- The number of binary digits of `n`, counted with `fuel` halvings at most. -/
def bitLengthAux : Nat → Nat → Nat
  | 0, _ => 0
  | fuel + 1, n => if n = 0 then 0 else bitLengthAux fuel (n / 2) + 1

/-- The number of binary digits of `n`. -/
def bitLength (n : Nat) : Nat := bitLengthAux n n

/-- The binary exponent of the positive rational `n / d`: the `e` for which
`2 ^ e ≤ n / d < 2 ^ (e + 1)`. The difference `k` of the digit counts is `e`
or `e + 1`. -/
def binaryExponent (n d : Nat) : Int :=
  let k : Int := (bitLength n : Int) - (bitLength d : Int)
  if 0 ≤ k then (if d * 2 ^ k.toNat ≤ n then k else k - 1)
  else (if d ≤ n * 2 ^ (-k).toNat then k else k - 1)

/-- The `float64` nearest to the rational `x`, which is how the arithmetic of
`float64` (IEEE 754 binary64) rounds the exact result `x` of an operation:
the result keeps 53 binary digits, the last place being no smaller than
`2 ^ (-1074)`, and is rounded to the nearest such number, to the one with an
even last digit when `x` lies halfway. A result beyond the largest finite
`float64`, which the arithmetic turns into an infinity, is outside the
model, as are NaN and the sign of zero. -/
def float64.round (x : ℚ) : ℚ :=
  if x = 0 then 0 else
  let n := x.num.natAbs
  let d := x.den
  -- the exponent of the last place of the result
  let p := max (binaryExponent n d) (-1022) - 52
  let r : ℚ :=
    if 0 ≤ p then ((roundHalfEven n (d * 2 ^ p.toNat) * 2 ^ p.toNat : Nat) : ℚ)
    else mkRat (roundHalfEven (n * 2 ^ (-p).toNat) d) (2 ^ (-p).toNat)
  if x < 0 then -r else r

/-- `portfolioService.AddOrUpdateHolding` with the result of every `float64`
operation passed through `fl`: each product, the sum of the two products, the
sum of the quantities and the quotient, each rounded on its own (no product is
fused with the sum). With `float64.round` for `fl` it is the code as it runs,
with the identity it is `AddOrUpdateHolding`. -/
def AddOrUpdateHoldingRounded (fl : ℚ → ℚ) {σ : Type} (repo : PortfolioRepository σ)
    (now : Time) (s : σ) (userID : UUID) (symbol : String) (quantity price : ℚ) :
    Outcome σ PortfolioCall (Option GoError) :=
  match repo.GetPortfolioByUserID s userID with
  | .error err => ⟨s, [.GetPortfolioByUserID userID], some err⟩
  | .ok portfolio =>
    -- Check if holding already exists
    match repo.GetHolding s portfolio.ID symbol with
    | .error err =>
      if errors.Is err .ErrHoldingNotFound then
        -- Create new holding
        let newHolding : PortfolioHolding :=
          { ID := uuid.Nil, PortfolioID := portfolio.ID, Symbol := symbol,
            Quantity := quantity, AverageCost := price, CurrentPrice := price,
            LastUpdated := now, CreatedAt := Time.zero, UpdatedAt := Time.zero }
        let r := repo.CreateHolding s newHolding
        ⟨r.1, [.GetPortfolioByUserID userID, .GetHolding portfolio.ID symbol,
                .CreateHolding newHolding], r.2⟩
      else
        ⟨s, [.GetPortfolioByUserID userID, .GetHolding portfolio.ID symbol], some err⟩
    | .ok holding =>
      let totalValue :=
        fl (fl (holding.AverageCost * holding.Quantity) + fl (price * quantity))
      let totalQuantity := fl (holding.Quantity + quantity)
      if totalQuantity ≤ 0 then
        -- Remove holding if quantity is zero or negative
        let r := repo.DeleteHolding s holding.ID
        ⟨r.1, [.GetPortfolioByUserID userID, .GetHolding portfolio.ID symbol,
                .DeleteHolding holding.ID], r.2⟩
      else
        let updated : PortfolioHolding :=
          { holding with Quantity := totalQuantity,
                         AverageCost := fl (totalValue / totalQuantity),
                         CurrentPrice := price, LastUpdated := now }
        let r := repo.UpdateHolding s updated
        ⟨r.1, [.GetPortfolioByUserID userID, .GetHolding portfolio.ID symbol,
                .UpdateHolding updated], r.2⟩

/-- One iteration of `for _, exec := range executions` with the result of the
two `float64` additions passed through `fl`. -/
def statsStepRounded (fl : ℚ → ℚ) (start : Time) (acc : StatsLoop) (exec : Execution) :
    StatsLoop :=
  if exec.ExecutionTime.After start then
    let filtered := acc.filtered ++ [exec]
    -- Count by symbol
    let breakdown := GoMap.set acc.stats.SymbolBreakdown exec.Symbol
      (GoMap.getD acc.stats.SymbolBreakdown exec.Symbol 0 + 1)
    -- Track daily activity
    let key := dateKey exec.ExecutionTime
    let dailyActivity := GoMap.set acc.dailyActivity key (GoMap.getD acc.dailyActivity key 0 + 1)
    -- Track symbol statistics
    let symbolStat : SymbolStat :=
      match GoMap.get? acc.symbolStats exec.Symbol with
      | some st => st
      | none => { Symbol := exec.Symbol, Count := 0, Volume := 0, BuyCount := 0, SellCount := 0 }
    let symbolStat :=
      { symbolStat with Count := symbolStat.Count + 1,
                        Volume := fl (symbolStat.Volume + exec.TotalAmount) }
    let isBuy := decide (exec.ExecutionType = "buy")
    let isSell := !isBuy && decide (exec.ExecutionType = "sell")
    let symbolStat :=
      if isBuy then { symbolStat with BuyCount := symbolStat.BuyCount + 1 }
      else if isSell then { symbolStat with SellCount := symbolStat.SellCount + 1 }
      else symbolStat
    let stats :=
      { acc.stats with
        SymbolBreakdown := breakdown,
        BuyCount := if isBuy then acc.stats.BuyCount + 1 else acc.stats.BuyCount,
        SellCount := if isSell then acc.stats.SellCount + 1 else acc.stats.SellCount,
        TotalVolume := fl (acc.stats.TotalVolume + exec.TotalAmount) }
    { filtered := filtered, stats := stats,
      symbolStats := GoMap.set acc.symbolStats exec.Symbol symbolStat,
      dailyActivity := dailyActivity }
  else acc

/-- `executionService.GetUserExecutionStats` with the result of every
`float64` operation passed through `fl`: the two running sums of the loop, the
conversion of the count and the quotient of the average. With `float64.round`
for `fl` it is the code as it runs, with the identity it is
`GetUserExecutionStats`. -/
def GetUserExecutionStatsRounded (fl : ℚ → ℚ) {σ : Type} (svc : executionService σ)
    (now : Time) (order : RangeOrder) (s : σ) (userID : UUID) (timeRange : Duration) :
    Outcome σ ExecutionCall (Except GoError ExecutionStats) :=
  let start := startTime now timeRange
  match svc.executionRepo.GetByUserID s userID 1000 0 with
  | .error err => ⟨s, [.GetByUserID userID 1000 0], .error err⟩
  | .ok executions =>
    let acc := executions.foldl (statsStepRounded fl start) StatsLoop.init
    let filtered := acc.filtered
    let stats := acc.stats
    -- Set summary statistics
    let stats := { stats with TotalExecutions := filtered.length }
    let stats :=
      if stats.TotalExecutions > 0 then
        { stats with
          AverageTradeSize := fl (stats.TotalVolume / fl (stats.TotalExecutions : ℚ)) }
      else stats
    -- Convert daily activity map to slice
    let byDay : List DailyActivity :=
      (order.dailyActivity acc.dailyActivity).map
        (fun (kv : Int × Nat) => { Date := parseDate kv.1, Count := kv.2 })
    let stats := { stats with ExecutionsByDay := byDay }
    -- Convert symbol stats map to slice and sort by count
    let top := bubbleSort ((order.symbolStats acc.symbolStats).map Prod.snd)
    -- Limit to top 5 symbols
    let stats := { stats with TopSymbols := if top.length > 5 then top.take 5 else top }
    -- Get most recent executions
    let stats :=
      { stats with RecentExecutions := if filtered.length > 5 then filtered.take 5 else filtered }
    ⟨s, [.GetByUserID userID 1000 0], .ok stats⟩

/-! ## Sample data -/

/-- A portfolio of user `7`. -/
def demoPortfolio : Portfolio := ⟨1, 7, 10000, 10000, Time.zero, Time.zero⟩

/-- A holding of `demoPortfolio`: 10 AAPL at an average cost of 150. -/
def demoHolding : PortfolioHolding :=
  ⟨3, 1, "AAPL", 10, 150, 150, Time.zero, Time.zero, Time.zero⟩

/-- Tables with `demoPortfolio` and `demoHolding`. -/
def demoTables : Tables := ⟨[demoPortfolio], [demoHolding], 100⟩

/-- Tables with `demoPortfolio` and no holding. -/
def demoTablesNoHolding : Tables := ⟨[demoPortfolio], [], 100⟩

/-- A clock reading. -/
def demoNow : Time := ⟨1000000, 0⟩

/-- A sample store for executions and rules: the executions persisted (latest
first) and the rules on record. -/
structure SampleStore where
  executions : List Execution
  rules : List TradingRule
  deriving DecidableEq, Repr

/-- A sample `executionService` over `SampleStore`. `Create` always succeeds,
`GetByUserID` pages through the user's executions, rule lookups and updates
report `ErrRuleNotFound` for an unknown ID. -/
def sampleService : executionService SampleStore where
  executionRepo := {
    Create := (fun db e => ({ db with executions := e :: db.executions }, none))
    GetByID := (fun db id =>
      match db.executions.find? (fun x => decide (x.ID = id)) with
      | some e => .ok e
      | none => .error .ErrExecutionNotFound)
    GetByUserID := (fun db userID limit offset =>
      .ok (((db.executions.filter (fun x => decide (x.UserID = userID))).drop
        offset.toNat).take limit.toNat))
    GetByRuleID := (fun db ruleID =>
      .ok (db.executions.filter (fun x => decide (x.RuleID = some ruleID))))
    GetRecentExecutions := (fun db limit => .ok (db.executions.take limit.toNat))
    Update := (fun db e =>
      if db.executions.any (fun x => decide (x.ID = e.ID)) then
        ({ db with executions := db.executions.map (fun x => if x.ID = e.ID then e else x) }, none)
      else (db, some .ErrExecutionNotFound))
    CountByUserID := (fun db userID =>
      .ok ((db.executions.filter (fun x => decide (x.UserID = userID))).length : Int)) }
  ruleRepo := {
    Create := (fun db r => ({ db with rules := db.rules ++ [r] }, none))
    GetByID := (fun db id =>
      match db.rules.find? (fun x => decide (x.ID = id)) with
      | some r => .ok r
      | none => .error .ErrRuleNotFound)
    GetByUserID := (fun db userID => .ok (db.rules.filter (fun x => decide (x.UserID = userID))))
    GetActiveRules := (fun db => .ok (db.rules.filter (fun x => decide (x.Status = "active"))))
    Update := (fun db r =>
      if db.rules.any (fun x => decide (x.ID = r.ID)) then
        ({ db with rules := db.rules.map (fun x => if x.ID = r.ID then r else x) }, none)
      else (db, some .ErrRuleNotFound))
    Delete := (fun db id =>
      if db.rules.any (fun x => decide (x.ID = id)) then
        ({ db with rules := db.rules.filter (fun x => decide (x.ID ≠ id)) }, none)
      else (db, some .ErrRuleNotFound)) }

/-- A rule of user `7` with ID `42`. -/
def demoRule : TradingRule :=
  { ID := 42, UserID := 7, Name := "stop", Description := "", Symbol := "AAPL",
    RuleType := "stop_loss", Conditions := [], Actions := [], Status := "active",
    IsAIManaged := false, CreatedAt := Time.zero, UpdatedAt := Time.zero }

/-- A sample store with no execution and the rule `demoRule`. -/
def demoStore : SampleStore := ⟨[], [demoRule]⟩

/-- A submitted execution of user `7`: buy 10 AAPL at 150, total amount and
execution time not set, with the originating rule `ruleID`. -/
def demoExecution (ruleID : Option UUID) : Execution :=
  { ID := 5, RuleID := ruleID, UserID := 7, Symbol := "AAPL", ExecutionType := "buy",
    Quantity := 10, Price := 150, TotalAmount := 0, Status := "filled",
    ExecutionTime := Time.zero, Exchange := "", ExternalOrderID := "",
    CreatedAt := Time.zero, UpdatedAt := Time.zero }

/-- A persisted execution of user `7` with the given ID, symbol, type, total
amount and execution instant. -/
def demoTrade (id : UUID) (symbol type : String) (total : ℚ) (instant : Int) : Execution :=
  { ID := id, RuleID := none, UserID := 7, Symbol := symbol, ExecutionType := type,
    Quantity := 10, Price := total / 10, TotalAmount := total, Status := "filled",
    ExecutionTime := ⟨instant, 0⟩, Exchange := "", ExternalOrderID := "",
    CreatedAt := Time.zero, UpdatedAt := Time.zero }

/-- The batch AAPL buy x3, AAPL sell x1, MSFT buy x2, latest first. -/
def demoBatch : List Execution :=
  [demoTrade 16 "AAPL" "buy" 1500 960000, demoTrade 15 "MSFT" "buy" 3000 950000,
   demoTrade 14 "AAPL" "sell" 1600 940000, demoTrade 13 "AAPL" "buy" 1400 930000,
   demoTrade 12 "MSFT" "buy" 3100 920000, demoTrade 11 "AAPL" "buy" 1450 910000]

/-- A sample store holding `demoBatch` and one older execution, at instant 100. -/
def demoOldStatsStore : SampleStore := ⟨demoBatch ++ [demoTrade 10 "TSLA" "buy" 900 100], []⟩

/-- The statistics of the symbol `sym` over a list of executions, counted
directly: the number of executions with that symbol, the sum of their
`TotalAmount`, and how many of them are of type "buy" and of type "sell". -/
def symbolStatOf (w : List Execution) (sym : String) : SymbolStat :=
  { Symbol := sym
    Count := w.countP (fun e => decide (e.Symbol = sym))
    Volume := ((w.filter (fun e => decide (e.Symbol = sym))).map (fun e => e.TotalAmount)).sum
    BuyCount := w.countP (fun e => decide (e.Symbol = sym) && decide (e.ExecutionType = "buy"))
    SellCount :=
      w.countP (fun e => decide (e.Symbol = sym) && decide (e.ExecutionType = "sell")) }

/-- A batch over seven symbols, latest first; in order of first occurrence the
symbols have 1, 2, 3, 1, 2, 1 and 4 executions, on two calendar days. -/
def demoRankBatch : List Execution :=
  [demoTrade 34 "GOOG" "buy" 100 90000000000000, demoTrade 33 "MSFT" "buy" 200 89000000000000,
   demoTrade 32 "AAPL" "buy" 300 88000000000000, demoTrade 31 "TSLA" "sell" 400 87000000000000,
   demoTrade 30 "NVDA" "buy" 500 86500000000000, demoTrade 29 "AMZN" "buy" 600 86400000000000,
   demoTrade 28 "META" "buy" 700 86399999999999, demoTrade 27 "MSFT" "sell" 200 80000000000000,
   demoTrade 26 "AAPL" "buy" 300 70000000000000, demoTrade 25 "AAPL" "sell" 300 60000000000000,
   demoTrade 24 "NVDA" "buy" 500 50000000000000, demoTrade 23 "META" "buy" 700 40000000000000,
   demoTrade 22 "META" "sell" 700 30000000000000, demoTrade 21 "META" "buy" 700 20000000000000]

/-- A sample store holding `demoRankBatch`. -/
def demoRankStore : SampleStore := ⟨demoRankBatch, []⟩

/-- A clock reading on the second day after the zero time. -/
def demoRankNow : Time := ⟨100000000000000, 0⟩

/-- A range order that visits the entries of both maps in reverse order of
first insertion. -/
def RangeOrder.reversed : RangeOrder := ⟨List.reverse, List.reverse⟩

/-- Successive calls of `AddOrUpdateHolding` for one user and symbol, each on
the store the call before it left; a trade is given as the clock reading of
its call, its quantity and its price. The result is the store after the last
call and the value each call returned, in order. -/
def applyTrades {σ : Type} (repo : PortfolioRepository σ) (userID : UUID) (symbol : String) :
    σ → List (Time × ℚ × ℚ) → σ × List (Option GoError)
  | s, [] => (s, [])
  | s, (now, quantity, price) :: rest =>
      let out := AddOrUpdateHolding repo now s userID symbol quantity price
      let r := applyTrades repo userID symbol out.store rest
      (r.1, out.ret :: r.2)

/-- A sample reader of condition blobs: the empty blob is the empty sequence,
the blob `[1]` is the one condition "AAPL below 150", any other blob does not
parse. -/
def sampleParse (blob : List UInt8) : Except GoError (List Condition) :=
  if blob = [] then .ok []
  else if blob = [1] then .ok [⟨"price_below", "AAPL", .lessThan, 150, "", none⟩]
  else .error (.other "invalid conditions")

/-- Sample observed values: AAPL is at `price`, no other symbol is known. -/
def sampleObserved (price : ℚ) (symbol _timeFrame : String) : Option ℚ :=
  if symbol = "AAPL" then some price else none

/-- An active rule of user `7` on `symbol` with the conditions blob `blob`. -/
def demoEngineRule (id : UUID) (symbol : String) (blob : List UInt8) : TradingRule :=
  { ID := id, UserID := 7, Name := "r", Description := "", Symbol := symbol,
    RuleType := "stop_loss", Conditions := blob, Actions := [2], Status := "active",
    IsAIManaged := false, CreatedAt := Time.zero, UpdatedAt := Time.zero }

/-- A sample store with four active rules: `44` has conditions that do not
parse, `45` is on MSFT, `46` and `47` are on AAPL. -/
def demoEngineStore : SampleStore :=
  ⟨[], [demoEngineRule 44 "AAPL" [9], demoEngineRule 45 "MSFT" [1],
    demoEngineRule 46 "AAPL" [1], demoEngineRule 47 "AAPL" [1]]⟩

/-- The latest price of AAPL in the sample: a close of 149. -/
def demoMarketData : MarketData :=
  { ID := 1, CreatedAt := Time.zero, UpdatedAt := Time.zero, DeletedAt := none,
    Symbol := "AAPL", Timestamp := demoNow, Open := 148, High := 151, Low := 147,
    Close := 149, Volume := 1000, Source := "sample", TimeFrame := "1m" }

/-- A sample rule engine over `SampleStore`: rules are evaluated by
`EvaluateRule` with AAPL observed at 149, only AAPL has a price, executing
rule `46` fails, and recording an execution succeeds. -/
def sampleEngine : RuleEngine SampleStore where
  ruleRepo := sampleService.ruleRepo
  EvaluateRule := (fun s rule => (s, rule, EvaluateRule sampleParse (sampleObserved 149) rule))
  GetPrice := (fun _ symbol =>
    if symbol = "AAPL" then .ok demoMarketData else .error (.other "record not found"))
  ExecuteRule := (fun s rule _ =>
    if rule.ID = 46 then (s, rule, some (.other "execution failed")) else (s, rule, none))
  CreateExecution := (fun s _ => (s, none))
  Now := (fun _ => demoNow)

/-- Tables with `demoPortfolio` and a holding of 1 AAPL at an average cost of
0.1, the `float64` of that literal. -/
def demoDimeTables : Tables :=
  ⟨[demoPortfolio],
    [⟨3, 1, "AAPL", 1, float64.round (1 / 10), float64.round (1 / 10), Time.zero, Time.zero,
      Time.zero⟩], 100⟩

/-- Three executions of user `7` inside the window of `demoNow` with the
amounts 0.7 for AAPL, 0.1 for MSFT and 0.5 for AAPL, each the `float64` of
its literal. -/
def demoDimeBatch : List Execution :=
  [demoTrade 21 "AAPL" "buy" (float64.round (7 / 10)) 960000,
   demoTrade 22 "MSFT" "buy" (float64.round (1 / 10)) 950000,
   demoTrade 23 "AAPL" "buy" (float64.round (5 / 10)) 940000]

/-- A sample store holding `demoDimeBatch`. -/
def demoDimeStore : SampleStore := ⟨demoDimeBatch, []⟩

/-! # Theorems -/

/-! ## Lemmas on the in-memory repository -/

theorem portfolioRepository_GetHolding_mem {db : Tables} {portfolioID : UUID} {symbol : String}
    {holding : PortfolioHolding}
    (h : portfolioRepository.GetHolding db portfolioID symbol = .ok holding) :
    holding ∈ db.holdings := by
  simp only [portfolioRepository] at h
  split at h
  · next hf =>
    cases h
    exact List.mem_of_find?_eq_some hf
  · cases h

theorem portfolioRepository_DeleteHolding_of_mem {db : Tables} {holding : PortfolioHolding}
    (h : holding ∈ db.holdings) :
    portfolioRepository.DeleteHolding db holding.ID =
      ({ db with holdings := db.holdings.filter (fun x => decide (x.ID ≠ holding.ID)) }, none) := by
  have hany : db.holdings.any (fun x => decide (x.ID = holding.ID)) = true :=
    List.any_eq_true.mpr ⟨holding, h, by simp⟩
  simp only [portfolioRepository, hany, if_true]

/-! ## Portfolio position engine -/

/-- C1: when the portfolio and a holding (q0, c0) are found and q0 + q1 > 0,
`AddOrUpdateHolding` calls `UpdateHolding` once, with a holding whose
`Quantity` is q0 + q1 and whose `AverageCost` is (q0*c0 + q1*p1)/(q0 + q1),
and returns what that call returns. -/
theorem AddOrUpdateHolding_weighted_average {σ : Type} (repo : PortfolioRepository σ)
    (now : Time) (s : σ) (userID : UUID) (symbol : String) (quantity price : ℚ)
    (portfolio : Portfolio) (holding : PortfolioHolding)
    (hp : repo.GetPortfolioByUserID s userID = .ok portfolio)
    (hh : repo.GetHolding s portfolio.ID symbol = .ok holding)
    (hq : holding.Quantity + quantity > 0) :
    ∃ updated : PortfolioHolding,
      (AddOrUpdateHolding repo now s userID symbol quantity price).calls =
        [.GetPortfolioByUserID userID, .GetHolding portfolio.ID symbol, .UpdateHolding updated] ∧
      updated.Quantity = holding.Quantity + quantity ∧
      updated.AverageCost =
        (holding.Quantity * holding.AverageCost + quantity * price) /
          (holding.Quantity + quantity) ∧
      (AddOrUpdateHolding repo now s userID symbol quantity price).store =
        (repo.UpdateHolding s updated).1 ∧
      (AddOrUpdateHolding repo now s userID symbol quantity price).ret =
        (repo.UpdateHolding s updated).2 := by
  have hq' : ¬ (holding.Quantity + quantity ≤ 0) := not_le.mpr hq
  refine ⟨{ holding with
      Quantity := holding.Quantity + quantity,
      AverageCost := (holding.AverageCost * holding.Quantity + price * quantity) /
        (holding.Quantity + quantity),
      CurrentPrice := price, LastUpdated := now }, ?_, rfl, ?_, ?_, ?_⟩
  · simp only [AddOrUpdateHolding, hp, hh, hq', if_false]
  · simp only [mul_comm]
  · simp only [AddOrUpdateHolding, hp, hh, hq', if_false]
  · simp only [AddOrUpdateHolding, hp, hh, hq', if_false]

/-- Witness of C1: 10 AAPL at 150 plus a buy of 10 at 100 is stored as 20 at 125. -/
theorem AddOrUpdateHolding_weighted_average_witness :
    (demoHolding.Quantity + 10 > 0) ∧
    (AddOrUpdateHolding portfolioRepository demoNow demoTables 7 "AAPL" 10 100).store.holdings =
      [{ demoHolding with Quantity := 20, AverageCost := 125, CurrentPrice := 100,
                          LastUpdated := demoNow }] ∧
    ∃ updated : PortfolioHolding,
      (AddOrUpdateHolding portfolioRepository demoNow demoTables 7 "AAPL" 10 100).calls =
        [.GetPortfolioByUserID 7, .GetHolding 1 "AAPL", .UpdateHolding updated] ∧
      updated.Quantity = 20 ∧ updated.AverageCost = 125 := by
  have hq : demoHolding.Quantity + 10 > 0 := by norm_num [demoHolding]
  obtain ⟨updated, hc, hQ, hA, hs, _⟩ :=
    AddOrUpdateHolding_weighted_average portfolioRepository demoNow demoTables 7 "AAPL" 10 100
      demoPortfolio demoHolding rfl rfl hq
  have hQ' : updated.Quantity = 20 := by rw [hQ]; norm_num [demoHolding]
  have hA' : updated.AverageCost = 125 := by rw [hA]; norm_num [demoHolding]
  refine ⟨hq, ?_, updated, hc, hQ', hA'⟩
  simp [AddOrUpdateHolding, portfolioRepository, demoTables, demoHolding, demoPortfolio]
  norm_num

/-- C2: when the portfolio and a holding with quantity q0 are found and
q0 + q1 <= 0, `AddOrUpdateHolding` calls `DeleteHolding` once with the
holding's ID, calls neither `UpdateHolding` nor `CreateHolding`, and returns
what `DeleteHolding` returns; over the in-memory tables the deletion succeeds
and no row with that ID is left. -/
theorem AddOrUpdateHolding_nonpositive_deletes :
    (∀ {σ : Type} (repo : PortfolioRepository σ) (now : Time) (s : σ) (userID : UUID)
        (symbol : String) (quantity price : ℚ) (portfolio : Portfolio)
        (holding : PortfolioHolding),
        repo.GetPortfolioByUserID s userID = .ok portfolio →
        repo.GetHolding s portfolio.ID symbol = .ok holding →
        holding.Quantity + quantity ≤ 0 →
        (AddOrUpdateHolding repo now s userID symbol quantity price).calls =
            [.GetPortfolioByUserID userID, .GetHolding portfolio.ID symbol,
             .DeleteHolding holding.ID] ∧
          (∀ h : PortfolioHolding,
            PortfolioCall.UpdateHolding h ∉
                (AddOrUpdateHolding repo now s userID symbol quantity price).calls ∧
              PortfolioCall.CreateHolding h ∉
                (AddOrUpdateHolding repo now s userID symbol quantity price).calls) ∧
          (AddOrUpdateHolding repo now s userID symbol quantity price).store =
            (repo.DeleteHolding s holding.ID).1 ∧
          (AddOrUpdateHolding repo now s userID symbol quantity price).ret =
            (repo.DeleteHolding s holding.ID).2) ∧
    (∀ (now : Time) (db : Tables) (userID : UUID) (symbol : String) (quantity price : ℚ)
        (portfolio : Portfolio) (holding : PortfolioHolding),
        portfolioRepository.GetPortfolioByUserID db userID = .ok portfolio →
        portfolioRepository.GetHolding db portfolio.ID symbol = .ok holding →
        holding.Quantity + quantity ≤ 0 →
        (AddOrUpdateHolding portfolioRepository now db userID symbol quantity price).ret = none ∧
          ∀ row ∈ (AddOrUpdateHolding portfolioRepository now db userID symbol
              quantity price).store.holdings, row.ID ≠ holding.ID) := by
  have general : ∀ {σ : Type} (repo : PortfolioRepository σ) (now : Time) (s : σ)
      (userID : UUID) (symbol : String) (quantity price : ℚ) (portfolio : Portfolio)
      (holding : PortfolioHolding),
      repo.GetPortfolioByUserID s userID = .ok portfolio →
      repo.GetHolding s portfolio.ID symbol = .ok holding →
      holding.Quantity + quantity ≤ 0 →
      AddOrUpdateHolding repo now s userID symbol quantity price =
        ⟨(repo.DeleteHolding s holding.ID).1,
          [.GetPortfolioByUserID userID, .GetHolding portfolio.ID symbol,
           .DeleteHolding holding.ID],
          (repo.DeleteHolding s holding.ID).2⟩ := by
    intro σ repo now s userID symbol quantity price portfolio holding hp hh hq
    simp only [AddOrUpdateHolding, hp, hh, hq, if_true]
  refine ⟨?_, ?_⟩
  · intro σ repo now s userID symbol quantity price portfolio holding hp hh hq
    rw [general repo now s userID symbol quantity price portfolio holding hp hh hq]
    refine ⟨rfl, ?_, rfl, rfl⟩
    intro h
    simp
  · intro now db userID symbol quantity price portfolio holding hp hh hq
    rw [general portfolioRepository now db userID symbol quantity price portfolio holding
      hp hh hq, portfolioRepository_DeleteHolding_of_mem (portfolioRepository_GetHolding_mem hh)]
    refine ⟨rfl, ?_⟩
    intro row hrow
    have := (List.mem_filter.mp hrow).2
    simpa using this

/-- Witness of C2: selling 10 of the 10 AAPL held deletes holding `3`, and the
holdings table is empty afterwards. -/
theorem AddOrUpdateHolding_nonpositive_deletes_witness :
    (demoHolding.Quantity + (-10) ≤ 0) ∧
    (AddOrUpdateHolding portfolioRepository demoNow demoTables 7 "AAPL" (-10) 100).calls =
      [.GetPortfolioByUserID 7, .GetHolding 1 "AAPL", .DeleteHolding 3] ∧
    (AddOrUpdateHolding portfolioRepository demoNow demoTables 7 "AAPL" (-10) 100).ret = none ∧
    (∀ row ∈ (AddOrUpdateHolding portfolioRepository demoNow demoTables 7 "AAPL"
        (-10) 100).store.holdings, row.ID ≠ 3) := by
  have hq : demoHolding.Quantity + (-10) ≤ 0 := by norm_num [demoHolding]
  have h1 := AddOrUpdateHolding_nonpositive_deletes.1 portfolioRepository demoNow demoTables
    7 "AAPL" (-10) 100 demoPortfolio demoHolding rfl rfl hq
  have h2 := AddOrUpdateHolding_nonpositive_deletes.2 demoNow demoTables
    7 "AAPL" (-10) 100 demoPortfolio demoHolding rfl rfl hq
  exact ⟨hq, h1.1, h2.1, h2.2⟩

/-- C3: when the portfolio is found and the holding lookup reports
`ErrHoldingNotFound`, `AddOrUpdateHolding` makes one `CreateHolding` call,
with a holding that carries the portfolio's ID, the symbol, `Quantity` = q,
`AverageCost` = p and `CurrentPrice` = p, makes no other change to the store
and returns what `CreateHolding` returns. -/
theorem AddOrUpdateHolding_creates_when_absent {σ : Type} (repo : PortfolioRepository σ)
    (now : Time) (s : σ) (userID : UUID) (symbol : String) (quantity price : ℚ)
    (portfolio : Portfolio) (err : GoError)
    (hp : repo.GetPortfolioByUserID s userID = .ok portfolio)
    (hh : repo.GetHolding s portfolio.ID symbol = .error err)
    (he : errors.Is err .ErrHoldingNotFound = true) :
    ∃ created : PortfolioHolding,
      (AddOrUpdateHolding repo now s userID symbol quantity price).calls =
        [.GetPortfolioByUserID userID, .GetHolding portfolio.ID symbol, .CreateHolding created] ∧
      created.PortfolioID = portfolio.ID ∧ created.Symbol = symbol ∧
      created.Quantity = quantity ∧ created.AverageCost = price ∧
      created.CurrentPrice = price ∧
      (AddOrUpdateHolding repo now s userID symbol quantity price).store =
        (repo.CreateHolding s created).1 ∧
      (AddOrUpdateHolding repo now s userID symbol quantity price).ret =
        (repo.CreateHolding s created).2 := by
  refine ⟨{ ID := uuid.Nil, PortfolioID := portfolio.ID, Symbol := symbol,
            Quantity := quantity, AverageCost := price, CurrentPrice := price,
            LastUpdated := now, CreatedAt := Time.zero, UpdatedAt := Time.zero },
    ?_, rfl, rfl, rfl, rfl, rfl, ?_, ?_⟩ <;>
  simp only [AddOrUpdateHolding, hp, hh, he, if_true]

/-- Witness of C3: with no holding stored, AAPL, quantity 10, price 150 yields
one holding with quantity 10, average cost 150 and current price 150. -/
theorem AddOrUpdateHolding_creates_when_absent_witness :
    (errors.Is .ErrHoldingNotFound .ErrHoldingNotFound = true) ∧
    (AddOrUpdateHolding portfolioRepository demoNow demoTablesNoHolding 7 "AAPL"
        10 150).store.holdings =
      [⟨100, 1, "AAPL", 10, 150, 150, demoNow, Time.zero, Time.zero⟩] ∧
    ∃ created : PortfolioHolding,
      (AddOrUpdateHolding portfolioRepository demoNow demoTablesNoHolding 7 "AAPL" 10 150).calls =
        [.GetPortfolioByUserID 7, .GetHolding 1 "AAPL", .CreateHolding created] ∧
      created.PortfolioID = 1 ∧ created.Symbol = "AAPL" ∧
      created.Quantity = 10 ∧ created.AverageCost = 150 ∧ created.CurrentPrice = 150 := by
  obtain ⟨created, hc, h1, h2, h3, h4, h5, _⟩ :=
    AddOrUpdateHolding_creates_when_absent portfolioRepository demoNow demoTablesNoHolding
      7 "AAPL" 10 150 demoPortfolio .ErrHoldingNotFound rfl rfl rfl
  refine ⟨rfl, ?_, created, hc, h1, h2, h3, h4, h5⟩
  simp [AddOrUpdateHolding, portfolioRepository, demoTablesNoHolding, demoPortfolio,
    errors.Is, uuid.Nil]

/-! ## Execution accounting engine: creation -/

theorem invalidExecution_iff (execution : Execution) :
    invalidExecution execution = true ↔
      (execution.UserID = uuid.Nil ∨ execution.Symbol = "" ∨ execution.Quantity ≤ 0 ∨
        execution.Price ≤ 0) := by
  simp [invalidExecution, or_assoc]

theorem invalidExecution_eq_false_iff (execution : Execution) :
    invalidExecution execution = false ↔
      ¬ (execution.UserID = uuid.Nil ∨ execution.Symbol = "" ∨ execution.Quantity ≤ 0 ∨
        execution.Price ≤ 0) := by
  rw [← invalidExecution_iff]; simp

/-- `CreateExecution` on a valid execution, in closed form. -/
theorem CreateExecution_of_valid {σ : Type} (svc : executionService σ) (now : Time)
    (newID : UUID) (s : σ) (execution : Execution) (hv : invalidExecution execution = false) :
    CreateExecution svc now newID s execution =
      ⟨(svc.executionRepo.Create s
          (withDefaults now { execution with
            ID := if execution.ID = uuid.Nil then newID else execution.ID })).1,
        [.Create (withDefaults now { execution with
            ID := if execution.ID = uuid.Nil then newID else execution.ID })],
        withDefaults now { execution with
            ID := if execution.ID = uuid.Nil then newID else execution.ID },
        (svc.executionRepo.Create s
          (withDefaults now { execution with
            ID := if execution.ID = uuid.Nil then newID else execution.ID })).2⟩ := by
  simp only [CreateExecution, hv, withDefaults]
  by_cases h1 : execution.ID = uuid.Nil <;> by_cases h2 : execution.TotalAmount = 0 <;>
    by_cases h3 : execution.ExecutionTime.IsZero = true <;>
    simp [h1, h2, h3]

/-- `ProcessExecution` on a valid execution, up to the `Create` call. -/
theorem ProcessExecution_of_valid {σ : Type} (svc : executionService σ) (now : Time)
    (s : σ) (execution : Execution) (hv : invalidExecution execution = false) :
    ProcessExecution svc now s execution =
      (match (svc.executionRepo.Create s (withDefaults now execution)).2 with
      | some err =>
          ⟨(svc.executionRepo.Create s (withDefaults now execution)).1,
            [.Create (withDefaults now execution)], withDefaults now execution, some err⟩
      | none =>
        match execution.RuleID with
        | none =>
            ⟨(svc.executionRepo.Create s (withDefaults now execution)).1,
              [.Create (withDefaults now execution)], withDefaults now execution, none⟩
        | some ruleID =>
          match svc.ruleRepo.GetByID
              (svc.executionRepo.Create s (withDefaults now execution)).1 ruleID with
          | .error err =>
              ⟨(svc.executionRepo.Create s (withDefaults now execution)).1,
                [.Create (withDefaults now execution), .RuleGetByID ruleID],
                withDefaults now execution, some err⟩
          | .ok _ =>
              ⟨(svc.executionRepo.Create s (withDefaults now execution)).1,
                [.Create (withDefaults now execution), .RuleGetByID ruleID],
                withDefaults now execution, none⟩) := by
  have hrec : (if (if execution.TotalAmount = 0 then
          { execution with TotalAmount := execution.Price * execution.Quantity }
        else execution).ExecutionTime.IsZero = true then
        { (if execution.TotalAmount = 0 then
            { execution with TotalAmount := execution.Price * execution.Quantity }
          else execution) with ExecutionTime := now }
      else (if execution.TotalAmount = 0 then
          { execution with TotalAmount := execution.Price * execution.Quantity }
        else execution)) = withDefaults now execution := by
    simp only [withDefaults]
    by_cases h2 : execution.TotalAmount = 0 <;>
      by_cases h3 : execution.ExecutionTime.IsZero = true <;> simp [h2, h3]
  have hrule : (withDefaults now execution).RuleID = execution.RuleID := rfl
  simp only [ProcessExecution, hv, hrec, hrule, updateRuleExecutionTime]
  simp

/-- The sample execution passes the validation. -/
theorem demoExecution_valid (ruleID : Option UUID) :
    ¬ ((demoExecution ruleID).UserID = uuid.Nil ∨ (demoExecution ruleID).Symbol = "" ∨
        (demoExecution ruleID).Quantity ≤ 0 ∨ (demoExecution ruleID).Price ≤ 0) := by
  have hs : (demoExecution ruleID).Symbol ≠ "" := by
    show "AAPL" ≠ ""
    decide
  have hu : (demoExecution ruleID).UserID ≠ uuid.Nil := by
    show (7 : Nat) ≠ 0
    decide
  have hq : ¬ (demoExecution ruleID).Quantity ≤ 0 := by
    show ¬ ((10 : ℚ) ≤ 0)
    norm_num
  have hp : ¬ (demoExecution ruleID).Price ≤ 0 := by
    show ¬ ((150 : ℚ) ≤ 0)
    norm_num
  rintro (h | h | h | h)
  · exact hu h
  · exact hs h
  · exact hq h
  · exact hp h

/-- C4: `CreateExecution` returns `ErrInvalidExecution` with no repository
call, the record and the store untouched, if and only if the user ID is nil,
the symbol is empty, quantity <= 0 or price <= 0; on every other input it
calls `Create` exactly once and returns what `Create` returns. -/
theorem CreateExecution_rejects_iff_invalid {σ : Type} (svc : executionService σ)
    (now : Time) (newID : UUID) (s : σ) (execution : Execution) :
    (((CreateExecution svc now newID s execution).ret = some .ErrInvalidExecution ∧
        (CreateExecution svc now newID s execution).calls = [] ∧
        (CreateExecution svc now newID s execution).execution = execution ∧
        (CreateExecution svc now newID s execution).store = s) ↔
      (execution.UserID = uuid.Nil ∨ execution.Symbol = "" ∨ execution.Quantity ≤ 0 ∨
        execution.Price ≤ 0)) ∧
    (¬ (execution.UserID = uuid.Nil ∨ execution.Symbol = "" ∨ execution.Quantity ≤ 0 ∨
        execution.Price ≤ 0) →
      ∃ record : Execution,
        (CreateExecution svc now newID s execution).calls = [.Create record] ∧
        (CreateExecution svc now newID s execution).ret =
          (svc.executionRepo.Create s record).2 ∧
        (CreateExecution svc now newID s execution).store =
          (svc.executionRepo.Create s record).1) := by
  constructor
  · constructor
    · rintro ⟨-, hcalls, -, -⟩
      by_contra hvalid
      rw [CreateExecution_of_valid svc now newID s execution
        ((invalidExecution_eq_false_iff execution).mpr hvalid)] at hcalls
      simp at hcalls
    · intro hinv
      have h := (invalidExecution_iff execution).mpr hinv
      simp only [CreateExecution, h, if_true, and_self]
  · intro hvalid
    rw [CreateExecution_of_valid svc now newID s execution
      ((invalidExecution_eq_false_iff execution).mpr hvalid)]
    exact ⟨_, rfl, rfl, rfl⟩

/-- Witness of C4: a buy of 10 AAPL at 150 by user `7` is valid and reaches
the store through one `Create` call. -/
theorem CreateExecution_rejects_iff_invalid_witness :
    ¬ ((demoExecution none).UserID = uuid.Nil ∨ (demoExecution none).Symbol = "" ∨
        (demoExecution none).Quantity ≤ 0 ∨ (demoExecution none).Price ≤ 0) ∧
    ∃ record : Execution,
      (CreateExecution sampleService demoNow 9 demoStore (demoExecution none)).calls =
        [.Create record] ∧
      (CreateExecution sampleService demoNow 9 demoStore (demoExecution none)).ret =
        (sampleService.executionRepo.Create demoStore record).2 ∧
      (CreateExecution sampleService demoNow 9 demoStore (demoExecution none)).store =
        (sampleService.executionRepo.Create demoStore record).1 := by
  have hvalid : ¬ ((demoExecution none).UserID = uuid.Nil ∨ (demoExecution none).Symbol = "" ∨
      (demoExecution none).Quantity ≤ 0 ∨ (demoExecution none).Price ≤ 0) :=
    demoExecution_valid none
  exact ⟨hvalid,
    (CreateExecution_rejects_iff_invalid sampleService demoNow 9 demoStore
      (demoExecution none)).2 hvalid⟩

/-- C5: for a valid execution, the record `CreateExecution` hands to `Create`
has `TotalAmount` equal to `Price * Quantity` when the submitted `TotalAmount`
is 0 and equal to the submitted `TotalAmount` otherwise. -/
theorem CreateExecution_total_amount {σ : Type} (svc : executionService σ)
    (now : Time) (newID : UUID) (s : σ) (execution : Execution)
    (hvalid : ¬ (execution.UserID = uuid.Nil ∨ execution.Symbol = "" ∨
      execution.Quantity ≤ 0 ∨ execution.Price ≤ 0)) :
    ∃ record : Execution,
      (CreateExecution svc now newID s execution).calls = [.Create record] ∧
      (execution.TotalAmount = 0 →
        record.TotalAmount = execution.Price * execution.Quantity) ∧
      (execution.TotalAmount ≠ 0 → record.TotalAmount = execution.TotalAmount) := by
  rw [CreateExecution_of_valid svc now newID s execution
    ((invalidExecution_eq_false_iff execution).mpr hvalid)]
  refine ⟨_, rfl, ?_, ?_⟩
  · intro h0
    simp [withDefaults, h0]
  · intro h0
    simp [withDefaults, h0]

/-- Witness of C5: total 0, price 150, quantity 10 is persisted with total 1500. -/
theorem CreateExecution_total_amount_witness :
    ¬ ((demoExecution none).UserID = uuid.Nil ∨ (demoExecution none).Symbol = "" ∨
        (demoExecution none).Quantity ≤ 0 ∨ (demoExecution none).Price ≤ 0) ∧
    (demoExecution none).TotalAmount = 0 ∧
    ∃ record : Execution,
      (CreateExecution sampleService demoNow 9 demoStore (demoExecution none)).calls =
        [.Create record] ∧
      record.TotalAmount = 1500 ∧
      (CreateExecution sampleService demoNow 9 demoStore (demoExecution none)).store.executions =
        [record] := by
  have hvalid : ¬ ((demoExecution none).UserID = uuid.Nil ∨ (demoExecution none).Symbol = "" ∨
      (demoExecution none).Quantity ≤ 0 ∨ (demoExecution none).Price ≤ 0) :=
    demoExecution_valid none
  obtain ⟨record, hc, h0, -⟩ :=
    CreateExecution_total_amount sampleService demoNow 9 demoStore (demoExecution none) hvalid
  have ht : record.TotalAmount = 1500 := by
    rw [h0 rfl]; norm_num [demoExecution]
  refine ⟨hvalid, rfl, record, hc, ht, ?_⟩
  rw [CreateExecution_of_valid sampleService demoNow 9 demoStore (demoExecution none)
    ((invalidExecution_eq_false_iff _).mpr hvalid)] at hc ⊢
  simp only [List.cons.injEq, ExecutionCall.Create.injEq, and_true] at hc
  rw [← hc]
  rfl

/-- C6: for an execution with no rule ID, under the same store and clock,
`ProcessExecution` and `CreateExecution` reject the same inputs with
`ErrInvalidExecution` (no repository call made), and on valid input each makes
one `Create` call, the two records agree on `TotalAmount` and `ExecutionTime`
(and on every field but `ID`), and each returns what its `Create` call
returns. -/
theorem ProcessExecution_agrees_with_CreateExecution {σ : Type} (svc : executionService σ)
    (now : Time) (newID : UUID) (s : σ) (execution : Execution)
    (hrule : execution.RuleID = none) :
    (((CreateExecution svc now newID s execution).ret = some .ErrInvalidExecution ∧
        (CreateExecution svc now newID s execution).calls = []) ↔
      ((ProcessExecution svc now s execution).ret = some .ErrInvalidExecution ∧
        (ProcessExecution svc now s execution).calls = [])) ∧
    (¬ (execution.UserID = uuid.Nil ∨ execution.Symbol = "" ∨ execution.Quantity ≤ 0 ∨
        execution.Price ≤ 0) →
      ∃ created processed : Execution,
        (CreateExecution svc now newID s execution).calls = [.Create created] ∧
        (ProcessExecution svc now s execution).calls = [.Create processed] ∧
        created.TotalAmount = processed.TotalAmount ∧
        created.ExecutionTime = processed.ExecutionTime ∧
        created = { processed with ID := created.ID } ∧
        (CreateExecution svc now newID s execution).ret =
          (svc.executionRepo.Create s created).2 ∧
        (CreateExecution svc now newID s execution).store =
          (svc.executionRepo.Create s created).1 ∧
        (ProcessExecution svc now s execution).ret =
          (svc.executionRepo.Create s processed).2 ∧
        (ProcessExecution svc now s execution).store =
          (svc.executionRepo.Create s processed).1) := by
  have hprocess : invalidExecution execution = false →
      ProcessExecution svc now s execution =
        ⟨(svc.executionRepo.Create s (withDefaults now execution)).1,
          [.Create (withDefaults now execution)], withDefaults now execution,
          (svc.executionRepo.Create s (withDefaults now execution)).2⟩ := by
    intro hv
    rw [ProcessExecution_of_valid svc now s execution hv, hrule]
    cases hres : (svc.executionRepo.Create s (withDefaults now execution)).2 <;> rfl
  constructor
  · cases hv : invalidExecution execution
    · rw [CreateExecution_of_valid svc now newID s execution hv, hprocess hv]
      simp
    · simp only [CreateExecution, ProcessExecution, hv, if_true]
  · intro hvalid
    have hv := (invalidExecution_eq_false_iff execution).mpr hvalid
    rw [CreateExecution_of_valid svc now newID s execution hv, hprocess hv]
    exact ⟨_, _, rfl, rfl, rfl, rfl, rfl, rfl, rfl, rfl, rfl⟩

/-- Witness of C6: the sample execution without a rule ID is valid; both
operations persist it with total 1500 at the clock reading. -/
theorem ProcessExecution_agrees_with_CreateExecution_witness :
    (demoExecution none).RuleID = none ∧
    ¬ ((demoExecution none).UserID = uuid.Nil ∨ (demoExecution none).Symbol = "" ∨
        (demoExecution none).Quantity ≤ 0 ∨ (demoExecution none).Price ≤ 0) ∧
    ∃ created processed : Execution,
      (CreateExecution sampleService demoNow 9 demoStore (demoExecution none)).calls =
        [.Create created] ∧
      (ProcessExecution sampleService demoNow demoStore (demoExecution none)).calls =
        [.Create processed] ∧
      created.TotalAmount = processed.TotalAmount ∧
      created.ExecutionTime = processed.ExecutionTime := by
  obtain ⟨created, processed, h1, h2, h3, h4, -⟩ :=
    (ProcessExecution_agrees_with_CreateExecution sampleService demoNow 9 demoStore
      (demoExecution none) rfl).2 (demoExecution_valid none)
  exact ⟨rfl, demoExecution_valid none, created, processed, h1, h2, h3, h4⟩

/-- C7: for a valid execution with a rule ID, if `Create` succeeds and the rule
lookup `GetByID` fails, `ProcessExecution` returns the lookup error; its calls
are the one `Create` followed by the lookup, and the store it leaves is the
one `Create` produced. -/
theorem ProcessExecution_rule_lookup_failure {σ : Type} (svc : executionService σ)
    (now : Time) (s : σ) (execution : Execution) (ruleID : UUID) (err : GoError)
    (hvalid : ¬ (execution.UserID = uuid.Nil ∨ execution.Symbol = "" ∨
      execution.Quantity ≤ 0 ∨ execution.Price ≤ 0))
    (hrule : execution.RuleID = some ruleID)
    (hcreate : (svc.executionRepo.Create s (withDefaults now execution)).2 = none)
    (hlookup : svc.ruleRepo.GetByID
      (svc.executionRepo.Create s (withDefaults now execution)).1 ruleID = .error err) :
    (ProcessExecution svc now s execution).ret = some err ∧
    (ProcessExecution svc now s execution).calls =
      [.Create (withDefaults now execution), .RuleGetByID ruleID] ∧
    (ProcessExecution svc now s execution).store =
      (svc.executionRepo.Create s (withDefaults now execution)).1 := by
  rw [ProcessExecution_of_valid svc now s execution
    ((invalidExecution_eq_false_iff execution).mpr hvalid)]
  simp only [hcreate, hrule, hlookup, and_self]

/-- Witness of C7: the sample execution naming the unknown rule `43` is
persisted and the call returns `ErrRuleNotFound`. -/
theorem ProcessExecution_rule_lookup_failure_witness :
    ¬ ((demoExecution (some 43)).UserID = uuid.Nil ∨ (demoExecution (some 43)).Symbol = "" ∨
        (demoExecution (some 43)).Quantity ≤ 0 ∨ (demoExecution (some 43)).Price ≤ 0) ∧
    (ProcessExecution sampleService demoNow demoStore (demoExecution (some 43))).ret =
      some .ErrRuleNotFound ∧
    (ProcessExecution sampleService demoNow demoStore (demoExecution (some 43))).calls =
      [.Create (withDefaults demoNow (demoExecution (some 43))), .RuleGetByID 43] ∧
    (ProcessExecution sampleService demoNow demoStore (demoExecution (some 43))).store.executions =
      [withDefaults demoNow (demoExecution (some 43))] := by
  have h := ProcessExecution_rule_lookup_failure sampleService demoNow demoStore
    (demoExecution (some 43)) 43 .ErrRuleNotFound (demoExecution_valid (some 43)) rfl rfl rfl
  refine ⟨demoExecution_valid (some 43), h.1, h.2.1, ?_⟩
  rw [h.2.2]
  rfl

/-- The call list of `ProcessExecution` never holds a call of the rule store's
`Update`, whatever the input and the store: `updateRuleExecutionTime` makes
no repository call. -/
theorem ProcessExecution_never_updates_rule {σ : Type} (svc : executionService σ)
    (now : Time) (s : σ) (execution : Execution) (rule : TradingRule) :
    ExecutionCall.RuleUpdate rule ∉ (ProcessExecution svc now s execution).calls := by
  cases hv : invalidExecution execution
  · rw [ProcessExecution_of_valid svc now s execution hv]
    repeat' split
    all_goals simp
  · simp [ProcessExecution, hv]

/-- C8 at a failing input: the sample execution is valid and names the rule
`42`, which the lookup finds; `ProcessExecution` persists the execution, looks
the rule up and returns nil: its calls hold no `RuleUpdate` and the rules of
the store are what they were. -/
theorem ProcessExecution_rule_found_no_update :
    (ProcessExecution sampleService demoNow demoStore (demoExecution (some 42))).calls =
      [.Create (withDefaults demoNow (demoExecution (some 42))), .RuleGetByID 42] ∧
    (ProcessExecution sampleService demoNow demoStore (demoExecution (some 42))).ret = none ∧
    (ProcessExecution sampleService demoNow demoStore (demoExecution (some 42))).store.rules =
      [demoRule] ∧
    sampleService.ruleRepo.GetByID
      (sampleService.executionRepo.Create demoStore
        (withDefaults demoNow (demoExecution (some 42)))).1 42 = .ok demoRule := by
  rw [ProcessExecution_of_valid sampleService demoNow demoStore (demoExecution (some 42))
    ((invalidExecution_eq_false_iff _).mpr (demoExecution_valid (some 42)))]
  exact ⟨rfl, rfl, rfl, rfl⟩

/-! ## Lemmas on Go maps -/

theorem GoMap.get?_set {κ ν : Type} [DecidableEq κ] (m : GoMap κ ν) (k k' : κ) (v : ν) :
    GoMap.get? (GoMap.set m k v) k' = if k = k' then some v else GoMap.get? m k' := by
  induction m with
  | nil =>
    by_cases h : k = k' <;> simp [GoMap.set, GoMap.get?, h]
  | cons kv m ih =>
    obtain ⟨a, b⟩ := kv
    by_cases hak : a = k
    · subst hak
      by_cases h : a = k' <;> simp [GoMap.set, GoMap.get?, h]
    · by_cases h : k = k'
      · subst h
        simp [GoMap.set, GoMap.get?, hak, ih]
      · by_cases hak' : a = k'
        · subst hak'
          simp [GoMap.set, GoMap.get?, hak, h]
        · simp [GoMap.set, GoMap.get?, hak, hak', h, ih]

theorem GoMap.getD_set {κ ν : Type} [DecidableEq κ] (m : GoMap κ ν) (k k' : κ) (v z : ν) :
    GoMap.getD (GoMap.set m k v) k' z = if k = k' then v else GoMap.getD m k' z := by
  unfold GoMap.getD
  rw [GoMap.get?_set]
  by_cases h : k = k' <;> simp [h]

theorem GoMap.mem_keys_set {κ ν : Type} [DecidableEq κ] (m : GoMap κ ν) (k k' : κ) (v : ν) :
    k' ∈ GoMap.keys (GoMap.set m k v) ↔ k' = k ∨ k' ∈ GoMap.keys m := by
  induction m with
  | nil => simp [GoMap.set, GoMap.keys]
  | cons kv m ih =>
    obtain ⟨a, b⟩ := kv
    by_cases hak : a = k
    · subst hak
      simp [GoMap.set, GoMap.keys]
    · have ih' : k' ∈ List.map Prod.fst (GoMap.set m k v) ↔ k' = k ∨ k' ∈ List.map Prod.fst m := ih
      simp only [GoMap.set, hak, if_false, GoMap.keys, List.map_cons, List.mem_cons, ih']
      tauto

/-! ## The filtering loop of `GetUserExecutionStats` -/

theorem statsStep_of_not_after (start : Time) (acc : StatsLoop) (exec : Execution)
    (h : exec.ExecutionTime.After start = false) : statsStep start acc exec = acc := by
  simp [statsStep, h]

theorem statsLoop_filtered (start : Time) (l : List Execution) (acc : StatsLoop) :
    (l.foldl (statsStep start) acc).filtered =
      acc.filtered ++ l.filter (fun e => e.ExecutionTime.After start) := by
  induction l generalizing acc with
  | nil => simp
  | cons e l ih =>
    rw [List.foldl_cons, ih]
    cases h : e.ExecutionTime.After start
    · simp [statsStep, h]
    · simp [statsStep, h]

theorem statsLoop_BuyCount (start : Time) (l : List Execution) (acc : StatsLoop) :
    (l.foldl (statsStep start) acc).stats.BuyCount =
      acc.stats.BuyCount +
        (l.filter (fun e => e.ExecutionTime.After start)).countP
          (fun e => decide (e.ExecutionType = "buy")) := by
  induction l generalizing acc with
  | nil => simp
  | cons e l ih =>
    rw [List.foldl_cons, ih]
    cases h : e.ExecutionTime.After start
    · simp [statsStep, h]
    · by_cases hb : e.ExecutionType = "buy"
      · simp [statsStep, h, hb, List.countP_cons]
        omega
      · simp [statsStep, h, hb, List.countP_cons]

theorem statsLoop_SellCount (start : Time) (l : List Execution) (acc : StatsLoop) :
    (l.foldl (statsStep start) acc).stats.SellCount =
      acc.stats.SellCount +
        (l.filter (fun e => e.ExecutionTime.After start)).countP
          (fun e => decide (e.ExecutionType = "sell")) := by
  induction l generalizing acc with
  | nil => simp
  | cons e l ih =>
    rw [List.foldl_cons, ih]
    cases h : e.ExecutionTime.After start
    · simp [statsStep, h]
    · by_cases hs : e.ExecutionType = "sell"
      · have hb : e.ExecutionType ≠ "buy" := by rw [hs]; decide
        simp [statsStep, h, hs, List.countP_cons]
        omega
      · simp [statsStep, h, hs, List.countP_cons]

theorem statsLoop_TotalVolume (start : Time) (l : List Execution) (acc : StatsLoop) :
    (l.foldl (statsStep start) acc).stats.TotalVolume =
      acc.stats.TotalVolume +
        ((l.filter (fun e => e.ExecutionTime.After start)).map (fun e => e.TotalAmount)).sum := by
  induction l generalizing acc with
  | nil => simp
  | cons e l ih =>
    rw [List.foldl_cons, ih]
    cases h : e.ExecutionTime.After start
    · simp [statsStep, h]
    · simp [statsStep, h, add_assoc]

theorem statsLoop_AverageTradeSize (start : Time) (l : List Execution) (acc : StatsLoop) :
    (l.foldl (statsStep start) acc).stats.AverageTradeSize = acc.stats.AverageTradeSize := by
  induction l generalizing acc with
  | nil => simp
  | cons e l ih =>
    rw [List.foldl_cons, ih]
    cases h : e.ExecutionTime.After start <;> simp [statsStep, h]

theorem statsLoop_SymbolBreakdown (start : Time) (l : List Execution) (acc : StatsLoop)
    (sym : String) :
    GoMap.getD (l.foldl (statsStep start) acc).stats.SymbolBreakdown sym 0 =
      GoMap.getD acc.stats.SymbolBreakdown sym 0 +
        (l.filter (fun e => e.ExecutionTime.After start)).countP
          (fun e => decide (e.Symbol = sym)) := by
  induction l generalizing acc with
  | nil => simp
  | cons e l ih =>
    rw [List.foldl_cons, ih]
    cases h : e.ExecutionTime.After start
    · simp [statsStep, h]
    · by_cases hs : e.Symbol = sym
      · simp [statsStep, h, hs, List.countP_cons, GoMap.getD_set]
        omega
      · simp [statsStep, h, hs, List.countP_cons, GoMap.getD_set]

theorem statsLoop_SymbolBreakdown_keys (start : Time) (l : List Execution) (acc : StatsLoop)
    (sym : String) :
    sym ∈ GoMap.keys (l.foldl (statsStep start) acc).stats.SymbolBreakdown ↔
      sym ∈ GoMap.keys acc.stats.SymbolBreakdown ∨
        ∃ e ∈ l.filter (fun e => e.ExecutionTime.After start), e.Symbol = sym := by
  induction l generalizing acc with
  | nil => simp
  | cons e l ih =>
    rw [List.foldl_cons, ih]
    cases h : e.ExecutionTime.After start
    · simp [statsStep, h]
    · simp only [statsStep, h, if_true, GoMap.mem_keys_set, List.filter_cons, List.mem_cons,
        exists_eq_or_imp]
      constructor
      · rintro ((h1 | h1) | h1)
        · exact Or.inr (Or.inl h1.symm)
        · exact Or.inl h1
        · exact Or.inr (Or.inr h1)
      · rintro (h1 | h1 | h1)
        · exact Or.inl (Or.inr h1)
        · exact Or.inl (Or.inl h1.symm)
        · exact Or.inr h1

/-! ## Execution accounting engine: statistics -/

/-- The statistics `GetUserExecutionStats` returns for a batch, field by field,
in terms of the variables the filtering loop leaves. -/
theorem GetUserExecutionStats_ok {σ : Type} (svc : executionService σ) (now : Time)
    (order : RangeOrder) (s : σ) (userID : UUID) (timeRange : Duration)
    (executions : List Execution)
    (hget : svc.executionRepo.GetByUserID s userID 1000 0 = .ok executions) :
    ∃ stats : ExecutionStats,
      GetUserExecutionStats svc now order s userID timeRange =
        ⟨s, [.GetByUserID userID 1000 0], .ok stats⟩ ∧
      stats.TotalExecutions = (inWindow now timeRange executions).length ∧
      stats.BuyCount =
        (executions.foldl (statsStep (startTime now timeRange)) StatsLoop.init).stats.BuyCount ∧
      stats.SellCount =
        (executions.foldl (statsStep (startTime now timeRange)) StatsLoop.init).stats.SellCount ∧
      stats.TotalVolume =
        (executions.foldl (statsStep (startTime now timeRange)) StatsLoop.init).stats.TotalVolume ∧
      stats.SymbolBreakdown =
        (executions.foldl (statsStep (startTime now timeRange))
          StatsLoop.init).stats.SymbolBreakdown ∧
      stats.AverageTradeSize =
        (if (inWindow now timeRange executions).length > 0 then
          stats.TotalVolume / ((inWindow now timeRange executions).length : ℚ)
        else 0) ∧
      stats.RecentExecutions =
        (if (inWindow now timeRange executions).length > 5 then
          (inWindow now timeRange executions).take 5
        else inWindow now timeRange executions) := by
  have hf : (executions.foldl (statsStep (startTime now timeRange)) StatsLoop.init).filtered =
      inWindow now timeRange executions := by
    rw [statsLoop_filtered]
    simp [StatsLoop.init, inWindow]
  have ha : (executions.foldl (statsStep (startTime now timeRange))
      StatsLoop.init).stats.AverageTradeSize = 0 := by
    rw [statsLoop_AverageTradeSize]
    rfl
  simp only [GetUserExecutionStats, hget, hf]
  by_cases hn : (inWindow now timeRange executions).length > 0
  · exact ⟨_, rfl, by simp [hn], by simp [hn], by simp [hn], by simp [hn], by simp [hn],
      by simp [hn], by simp [hn]⟩
  · exact ⟨_, rfl, by simp [hn], by simp [hn], by simp [hn], by simp [hn], by simp [hn],
      by simp [hn, ha], by simp [hn]⟩

/-- C9: for the batch the store returns, `GetUserExecutionStats` returns
`TotalExecutions` equal to the number of in-window executions,
`SymbolBreakdown[s]` equal to the number of in-window executions with symbol
`s`, with a key exactly for the symbols that occur in the window, `BuyCount`
the number whose type is "buy" and `SellCount` the number whose type is
"sell". -/
theorem GetUserExecutionStats_counts {σ : Type} (svc : executionService σ) (now : Time)
    (order : RangeOrder) (s : σ) (userID : UUID) (timeRange : Duration)
    (executions : List Execution)
    (hget : svc.executionRepo.GetByUserID s userID 1000 0 = .ok executions) :
    ∃ stats : ExecutionStats,
      (GetUserExecutionStats svc now order s userID timeRange).ret = .ok stats ∧
      stats.TotalExecutions = (inWindow now timeRange executions).length ∧
      (∀ sym : String,
        GoMap.getD stats.SymbolBreakdown sym 0 =
          (inWindow now timeRange executions).countP (fun e => decide (e.Symbol = sym))) ∧
      (∀ sym : String,
        sym ∈ GoMap.keys stats.SymbolBreakdown ↔
          ∃ e ∈ inWindow now timeRange executions, e.Symbol = sym) ∧
      stats.BuyCount =
        (inWindow now timeRange executions).countP (fun e => decide (e.ExecutionType = "buy")) ∧
      stats.SellCount =
        (inWindow now timeRange executions).countP
          (fun e => decide (e.ExecutionType = "sell")) := by
  obtain ⟨stats, hret, hn, hb, hs, -, hsb, -, -⟩ :=
    GetUserExecutionStats_ok svc now order s userID timeRange executions hget
  refine ⟨stats, by rw [hret], hn, ?_, ?_, ?_, ?_⟩
  · intro sym
    rw [hsb, statsLoop_SymbolBreakdown]
    simp [StatsLoop.init, GoMap.getD, GoMap.get?, inWindow]
  · intro sym
    rw [hsb, statsLoop_SymbolBreakdown_keys]
    simp [StatsLoop.init, GoMap.keys, inWindow]
  · rw [hb, statsLoop_BuyCount]
    simp [StatsLoop.init, inWindow]
  · rw [hs, statsLoop_SellCount]
    simp [StatsLoop.init, inWindow]

/-- Witness of C9: AAPL buy x3, AAPL sell x1, MSFT buy x2 in the window (and
one older TSLA buy outside it) give 6 executions, `SymbolBreakdown[AAPL]` = 4,
no key for TSLA, `BuyCount` = 5 and `SellCount` = 1. -/
theorem GetUserExecutionStats_counts_witness :
    sampleService.executionRepo.GetByUserID demoOldStatsStore 7 1000 0 =
      .ok (demoBatch ++ [demoTrade 10 "TSLA" "buy" 900 100]) ∧
    ∃ stats : ExecutionStats,
      (GetUserExecutionStats sampleService demoNow RangeOrder.insertion demoOldStatsStore 7
        500000).ret = .ok stats ∧
      stats.TotalExecutions = 6 ∧
      GoMap.getD stats.SymbolBreakdown "AAPL" 0 = 4 ∧
      GoMap.getD stats.SymbolBreakdown "MSFT" 0 = 2 ∧
      "TSLA" ∉ GoMap.keys stats.SymbolBreakdown ∧
      stats.BuyCount = 5 ∧ stats.SellCount = 1 := by
  obtain ⟨stats, hret, hn, hsb, hkeys, hb, hs⟩ :=
    GetUserExecutionStats_counts sampleService demoNow RangeOrder.insertion demoOldStatsStore 7
      500000 (demoBatch ++ [demoTrade 10 "TSLA" "buy" 900 100]) rfl
  have hw : inWindow demoNow 500000 (demoBatch ++ [demoTrade 10 "TSLA" "buy" 900 100]) =
      demoBatch := rfl
  rw [hw] at hn hb hs
  refine ⟨rfl, stats, hret, hn, ?_, ?_, ?_, hb, hs⟩
  · rw [hsb "AAPL", hw]; rfl
  · rw [hsb "MSFT", hw]; rfl
  · rw [hkeys "TSLA", hw]
    simp [demoBatch, demoTrade]

/-- C10: `TotalVolume` is the sum of `TotalAmount` over the in-window
executions; `AverageTradeSize` is `TotalVolume` divided by their number when
there is at least one, and 0 when there are none. -/
theorem GetUserExecutionStats_volume {σ : Type} (svc : executionService σ) (now : Time)
    (order : RangeOrder) (s : σ) (userID : UUID) (timeRange : Duration)
    (executions : List Execution)
    (hget : svc.executionRepo.GetByUserID s userID 1000 0 = .ok executions) :
    ∃ stats : ExecutionStats,
      (GetUserExecutionStats svc now order s userID timeRange).ret = .ok stats ∧
      stats.TotalVolume =
        ((inWindow now timeRange executions).map (fun e => e.TotalAmount)).sum ∧
      (0 < (inWindow now timeRange executions).length →
        stats.AverageTradeSize =
          stats.TotalVolume / ((inWindow now timeRange executions).length : ℚ)) ∧
      ((inWindow now timeRange executions).length = 0 → stats.AverageTradeSize = 0) := by
  obtain ⟨stats, hret, -, -, -, hv, -, ha, -⟩ :=
    GetUserExecutionStats_ok svc now order s userID timeRange executions hget
  refine ⟨stats, by rw [hret], ?_, ?_, ?_⟩
  · rw [hv, statsLoop_TotalVolume]
    simp [StatsLoop.init, inWindow]
  · intro hpos
    rw [ha, if_pos hpos]
  · intro hzero
    rw [ha, if_neg (by omega)]

/-- Witness of C10: for the six executions of `demoBatch` the total volume is
12050 and the average trade size is 12050 / 6. -/
theorem GetUserExecutionStats_volume_witness :
    sampleService.executionRepo.GetByUserID demoOldStatsStore 7 1000 0 =
      .ok (demoBatch ++ [demoTrade 10 "TSLA" "buy" 900 100]) ∧
    ∃ stats : ExecutionStats,
      (GetUserExecutionStats sampleService demoNow RangeOrder.insertion demoOldStatsStore 7
        500000).ret = .ok stats ∧
      stats.TotalVolume = 12050 ∧ stats.AverageTradeSize = 12050 / 6 := by
  obtain ⟨stats, hret, hv, ha, -⟩ :=
    GetUserExecutionStats_volume sampleService demoNow RangeOrder.insertion demoOldStatsStore 7
      500000 (demoBatch ++ [demoTrade 10 "TSLA" "buy" 900 100]) rfl
  have hw : inWindow demoNow 500000 (demoBatch ++ [demoTrade 10 "TSLA" "buy" 900 100]) =
      demoBatch := rfl
  rw [hw] at hv ha
  have hv' : stats.TotalVolume = 12050 := by
    rw [hv]; norm_num [demoBatch, demoTrade]
  have ha' := ha (by decide)
  rw [hv'] at ha'
  refine ⟨rfl, stats, hret, hv', ?_⟩
  rw [ha']
  norm_num [demoBatch]

/-! ## The bubble sort of `GetUserExecutionStats` -/

/-- One inner loop over a whole prefix leaves the rest of the slice alone. -/
theorem bubbleInner_append (bound : Nat) (front back : List SymbolStat)
    (hlen : front.length = bound + 1) :
    bubbleInner bound (front ++ back) = bubbleInner bound front ++ back := by
  induction bound generalizing front with
  | zero => simp [bubbleInner]
  | succ b ih =>
    match front, hlen with
    | x :: y :: rest, hlen =>
      have hx : (x :: rest).length = b + 1 := by simpa using hlen
      have hy : (y :: rest).length = b + 1 := by simpa using hlen
      have ihx := ih (x :: rest) hx
      have ihy := ih (y :: rest) hy
      simp only [List.cons_append] at ihx ihy
      simp only [List.cons_append, bubbleInner]
      split
      · exact congrArg (List.cons y) ihx
      · exact congrArg (List.cons x) ihy

/-- One inner loop over `bound + 1` entries moves an entry of least `Count`
to the last place and rearranges the others. -/
theorem bubbleInner_min_last (bound : Nat) (front : List SymbolStat)
    (hlen : front.length = bound + 1) :
    ∃ (rest : List SymbolStat) (least : SymbolStat),
      bubbleInner bound front = rest ++ [least] ∧
      (rest ++ [least]).Perm front ∧
      ∀ x ∈ front, least.Count ≤ x.Count := by
  induction bound generalizing front with
  | zero =>
    match front, hlen with
    | [x], _ => exact ⟨[], x, by simp [bubbleInner], by simp, by simp⟩
  | succ b ih =>
    match front, hlen with
    | x :: y :: tail, hlen =>
      have hx : (x :: tail).length = b + 1 := by simpa using hlen
      have hy : (y :: tail).length = b + 1 := by simpa using hlen
      by_cases hlt : x.Count < y.Count
      · obtain ⟨rest, least, heq, hperm, hmin⟩ := ih (x :: tail) hx
        refine ⟨y :: rest, least, ?_, ?_, ?_⟩
        · simp only [bubbleInner, hlt, if_true, heq, List.cons_append]
        · have h1 : (y :: (rest ++ [least])).Perm (y :: x :: tail) := hperm.cons y
          exact h1.trans (List.Perm.swap x y tail)
        · intro z hz
          have hleast_x : least.Count ≤ x.Count := hmin x (List.mem_cons_self _ _)
          rcases List.mem_cons.mp hz with rfl | hz
          · exact hleast_x
          · rcases List.mem_cons.mp hz with rfl | hz
            · omega
            · exact hmin z (List.mem_cons_of_mem _ hz)
      · obtain ⟨rest, least, heq, hperm, hmin⟩ := ih (y :: tail) hy
        refine ⟨x :: rest, least, ?_, ?_, ?_⟩
        · simp only [bubbleInner, hlt, if_false, heq, List.cons_append]
        · exact hperm.cons x
        · intro z hz
          have hleast_y : least.Count ≤ y.Count := hmin y (List.mem_cons_self _ _)
          rcases List.mem_cons.mp hz with rfl | hz
          · omega
          · exact hmin z hz

/-- The state of the slice after `k` rounds of the outer loop: the last `k`
entries are in descending order of `Count` and none of them exceeds an entry
before them. -/
theorem bubbleSort_rounds (l : List SymbolStat) (k : Nat) (hk : k ≤ l.length - 1) :
    ∃ front back : List SymbolStat,
      (List.range k).foldl (fun a i => bubbleInner (a.length - i - 1) a) l = front ++ back ∧
      back.length = k ∧
      (front ++ back).Perm l ∧
      back.Pairwise (fun a b => a.Count ≥ b.Count) ∧
      ∀ x ∈ front, ∀ y ∈ back, x.Count ≥ y.Count := by
  induction k with
  | zero => exact ⟨l, [], by simp, rfl, by simp, List.Pairwise.nil, by simp⟩
  | succ k ih =>
    obtain ⟨front, back, heq, hback, hperm, hsorted, hle⟩ := ih (by omega)
    have hlen : (front ++ back).length = l.length := hperm.length_eq
    have hfront : front.length = (l.length - k - 1) + 1 := by
      rw [List.length_append] at hlen
      omega
    obtain ⟨rest, least, hpass, hpperm, hmin⟩ :=
      bubbleInner_min_last (l.length - k - 1) front hfront
    refine ⟨rest, least :: back, ?_, by simp [hback], ?_, ?_, ?_⟩
    · rw [List.range_succ, List.foldl_append, List.foldl_cons, List.foldl_nil, heq, hlen,
        bubbleInner_append _ _ _ hfront, hpass]
      simp
    · have h1 : (rest ++ least :: back).Perm ((rest ++ [least]) ++ back) := by simp
      exact h1.trans ((hpperm.append_right back).trans hperm)
    · refine List.Pairwise.cons ?_ hsorted
      intro y hy
      have hmem : least ∈ front := hpperm.subset (by simp)
      exact hle least hmem y hy
    · intro x hx y hy
      have hxf : x ∈ front := hpperm.subset (by simp [hx])
      rcases List.mem_cons.mp hy with rfl | hy
      · exact hmin x hxf
      · exact hle x hxf y hy

/-- The bubble sort rearranges its input. -/
theorem bubbleSort_perm (l : List SymbolStat) : (bubbleSort l).Perm l := by
  obtain ⟨front, back, heq, -, hperm, -, -⟩ := bubbleSort_rounds l (l.length - 1) le_rfl
  unfold bubbleSort
  rw [heq]
  exact hperm

/-- The bubble sort leaves the entries in descending order of `Count`. -/
theorem bubbleSort_sorted (l : List SymbolStat) :
    (bubbleSort l).Pairwise (fun a b => a.Count ≥ b.Count) := by
  obtain ⟨front, back, heq, hback, hperm, hsorted, hle⟩ :=
    bubbleSort_rounds l (l.length - 1) le_rfl
  unfold bubbleSort
  rw [heq]
  have hlen : (front ++ back).length = l.length := hperm.length_eq
  rw [List.length_append] at hlen
  rw [List.pairwise_append]
  refine ⟨?_, hsorted, hle⟩
  have hfl : front.length ≤ 1 := by omega
  match front, hfl with
  | [], _ => exact List.Pairwise.nil
  | [x], _ => exact List.pairwise_singleton _ _

/-! ## More lemmas on Go maps -/

theorem GoMap.keys_set_of_mem {κ ν : Type} [DecidableEq κ] (m : GoMap κ ν) (k : κ) (v : ν)
    (h : k ∈ GoMap.keys m) : GoMap.keys (GoMap.set m k v) = GoMap.keys m := by
  induction m with
  | nil => simp [GoMap.keys] at h
  | cons kv m ih =>
    obtain ⟨a, b⟩ := kv
    by_cases hak : a = k
    · simp [GoMap.set, GoMap.keys, hak]
    · have hm : k ∈ GoMap.keys m := by
        simp only [GoMap.keys, List.map_cons, List.mem_cons] at h
        rcases h with h | h
        · exact absurd h.symm hak
        · exact h
      have ih' : List.map Prod.fst (GoMap.set m k v) = List.map Prod.fst m := ih hm
      simp [GoMap.set, GoMap.keys, hak, ih']

theorem GoMap.keys_set_of_not_mem {κ ν : Type} [DecidableEq κ] (m : GoMap κ ν) (k : κ) (v : ν)
    (h : k ∉ GoMap.keys m) : GoMap.keys (GoMap.set m k v) = GoMap.keys m ++ [k] := by
  induction m with
  | nil => simp [GoMap.set, GoMap.keys]
  | cons kv m ih =>
    obtain ⟨a, b⟩ := kv
    simp only [GoMap.keys, List.map_cons, List.mem_cons, not_or] at h
    have hak : ¬ a = k := fun e => h.1 e.symm
    have ih' : List.map Prod.fst (GoMap.set m k v) = List.map Prod.fst m ++ [k] := ih h.2
    simp [GoMap.set, GoMap.keys, hak, ih']

theorem GoMap.nodup_keys_set {κ ν : Type} [DecidableEq κ] (m : GoMap κ ν) (k : κ) (v : ν)
    (h : (GoMap.keys m).Nodup) : (GoMap.keys (GoMap.set m k v)).Nodup := by
  by_cases hk : k ∈ GoMap.keys m
  · rw [GoMap.keys_set_of_mem m k v hk]
    exact h
  · rw [GoMap.keys_set_of_not_mem m k v hk]
    exact List.Nodup.append h (List.nodup_singleton k) (by simpa using hk)

theorem GoMap.get?_of_mem {κ ν : Type} [DecidableEq κ] (m : GoMap κ ν) (k : κ) (v : ν)
    (hnodup : (GoMap.keys m).Nodup) (h : (k, v) ∈ m) : GoMap.get? m k = some v := by
  induction m with
  | nil => simp at h
  | cons kv m ih =>
    obtain ⟨a, b⟩ := kv
    simp only [GoMap.keys, List.map_cons, List.nodup_cons] at hnodup
    rcases List.mem_cons.mp h with h | h
    · cases h
      simp [GoMap.get?]
    · have hne : ¬ a = k := by
        rintro rfl
        exact hnodup.1 (List.mem_map.mpr ⟨(a, v), h, rfl⟩)
      simp only [GoMap.get?, hne, if_false]
      exact ih hnodup.2 h

theorem GoMap.get?_eq_none_of_not_mem {κ ν : Type} [DecidableEq κ] (m : GoMap κ ν) (k : κ)
    (h : k ∉ GoMap.keys m) : GoMap.get? m k = none := by
  induction m with
  | nil => rfl
  | cons kv m ih =>
    obtain ⟨a, b⟩ := kv
    simp only [GoMap.keys, List.map_cons, List.mem_cons, not_or] at h
    have hak : ¬ a = k := fun e => h.1 e.symm
    simp only [GoMap.get?, hak, if_false]
    exact ih h.2

theorem GoMap.mem_keys_of_get? {κ ν : Type} [DecidableEq κ] (m : GoMap κ ν) (k : κ) (v : ν)
    (h : GoMap.get? m k = some v) : k ∈ GoMap.keys m := by
  by_contra hk
  rw [GoMap.get?_eq_none_of_not_mem m k hk] at h
  cases h

/-- Incrementing the counter of one key adds one to the sum of the counters. -/
theorem GoMap.sum_values_increment {κ : Type} [DecidableEq κ] (m : GoMap κ Nat) (k : κ) :
    ((GoMap.set m k (GoMap.getD m k 0 + 1)).map Prod.snd).sum = (m.map Prod.snd).sum + 1 := by
  induction m with
  | nil => simp [GoMap.set, GoMap.getD, GoMap.get?]
  | cons kv m ih =>
    obtain ⟨a, b⟩ := kv
    by_cases hak : a = k
    · simp [GoMap.set, GoMap.getD, GoMap.get?, hak]
      omega
    · have ih' : (List.map Prod.snd (GoMap.set m k ((GoMap.get? m k).getD 0 + 1))).sum =
          (List.map Prod.snd m).sum + 1 := ih
      simp [GoMap.set, GoMap.getD, GoMap.get?, hak, ih']
      omega

/-! ## The maps of the filtering loop -/

theorem statsLoop_dailyActivity (start : Time) (l : List Execution) (acc : StatsLoop)
    (d : Int) :
    GoMap.getD (l.foldl (statsStep start) acc).dailyActivity d 0 =
      GoMap.getD acc.dailyActivity d 0 +
        (l.filter (fun e => e.ExecutionTime.After start)).countP
          (fun e => decide (dateKey e.ExecutionTime = d)) := by
  induction l generalizing acc with
  | nil => simp
  | cons e l ih =>
    rw [List.foldl_cons, ih]
    cases h : e.ExecutionTime.After start
    · simp [statsStep, h]
    · by_cases hs : dateKey e.ExecutionTime = d
      · simp [statsStep, h, hs, List.countP_cons, GoMap.getD_set]
        omega
      · simp [statsStep, h, hs, List.countP_cons, GoMap.getD_set]

theorem statsLoop_dailyActivity_keys (start : Time) (l : List Execution) (acc : StatsLoop)
    (d : Int) :
    d ∈ GoMap.keys (l.foldl (statsStep start) acc).dailyActivity ↔
      d ∈ GoMap.keys acc.dailyActivity ∨
        ∃ e ∈ l.filter (fun e => e.ExecutionTime.After start), dateKey e.ExecutionTime = d := by
  induction l generalizing acc with
  | nil => simp
  | cons e l ih =>
    rw [List.foldl_cons, ih]
    cases h : e.ExecutionTime.After start
    · simp [statsStep, h]
    · simp only [statsStep, h, if_true, GoMap.mem_keys_set, List.filter_cons, List.mem_cons,
        exists_eq_or_imp]
      constructor
      · rintro ((h1 | h1) | h1)
        · exact Or.inr (Or.inl h1.symm)
        · exact Or.inl h1
        · exact Or.inr (Or.inr h1)
      · rintro (h1 | h1 | h1)
        · exact Or.inl (Or.inr h1)
        · exact Or.inl (Or.inl h1.symm)
        · exact Or.inr h1

theorem statsLoop_dailyActivity_nodup (start : Time) (l : List Execution) (acc : StatsLoop)
    (h : (GoMap.keys acc.dailyActivity).Nodup) :
    (GoMap.keys (l.foldl (statsStep start) acc).dailyActivity).Nodup := by
  induction l generalizing acc with
  | nil => simpa using h
  | cons e l ih =>
    rw [List.foldl_cons]
    apply ih
    cases ha : e.ExecutionTime.After start
    · simpa [statsStep, ha] using h
    · simp only [statsStep, ha, if_true]
      exact GoMap.nodup_keys_set _ _ _ h

theorem statsLoop_dailyActivity_sum (start : Time) (l : List Execution) (acc : StatsLoop) :
    ((l.foldl (statsStep start) acc).dailyActivity.map Prod.snd).sum =
      (acc.dailyActivity.map Prod.snd).sum +
        (l.filter (fun e => e.ExecutionTime.After start)).length := by
  induction l generalizing acc with
  | nil => simp
  | cons e l ih =>
    rw [List.foldl_cons, ih]
    cases ha : e.ExecutionTime.After start
    · simp [statsStep, ha]
    · simp only [statsStep, ha, if_true, GoMap.sum_values_increment, List.filter_cons,
        List.length_cons]
      omega

theorem statsLoop_symbolStats_nodup (start : Time) (l : List Execution) (acc : StatsLoop)
    (h : (GoMap.keys acc.symbolStats).Nodup) :
    (GoMap.keys (l.foldl (statsStep start) acc).symbolStats).Nodup := by
  induction l generalizing acc with
  | nil => simpa using h
  | cons e l ih =>
    rw [List.foldl_cons]
    apply ih
    cases ha : e.ExecutionTime.After start
    · simpa [statsStep, ha] using h
    · simp only [statsStep, ha, if_true]
      exact GoMap.nodup_keys_set _ _ _ h

theorem statsLoop_symbolStats_keys (start : Time) (l : List Execution) (acc : StatsLoop)
    (sym : String) :
    sym ∈ GoMap.keys (l.foldl (statsStep start) acc).symbolStats ↔
      sym ∈ GoMap.keys acc.symbolStats ∨
        ∃ e ∈ l.filter (fun e => e.ExecutionTime.After start), e.Symbol = sym := by
  induction l generalizing acc with
  | nil => simp
  | cons e l ih =>
    rw [List.foldl_cons, ih]
    cases h : e.ExecutionTime.After start
    · simp [statsStep, h]
    · simp only [statsStep, h, if_true, GoMap.mem_keys_set, List.filter_cons, List.mem_cons,
        exists_eq_or_imp]
      constructor
      · rintro ((h1 | h1) | h1)
        · exact Or.inr (Or.inl h1.symm)
        · exact Or.inl h1
        · exact Or.inr (Or.inr h1)
      · rintro (h1 | h1 | h1)
        · exact Or.inl (Or.inr h1)
        · exact Or.inl (Or.inl h1.symm)
        · exact Or.inr h1

/-- The statistics of a symbol after one more execution of that symbol. -/
theorem symbolStatOf_append_same (w : List Execution) (e : Execution) :
    symbolStatOf (w ++ [e]) e.Symbol =
      { Symbol := e.Symbol
        Count := (symbolStatOf w e.Symbol).Count + 1
        Volume := (symbolStatOf w e.Symbol).Volume + e.TotalAmount
        BuyCount := (symbolStatOf w e.Symbol).BuyCount +
          (if e.ExecutionType = "buy" then 1 else 0)
        SellCount := (symbolStatOf w e.Symbol).SellCount +
          (if e.ExecutionType = "sell" then 1 else 0) } := by
  by_cases hb : e.ExecutionType = "buy" <;> by_cases hs : e.ExecutionType = "sell" <;>
    simp [symbolStatOf, List.countP_append, List.filter_append, hb, hs]

/-- The statistics of a symbol are not changed by an execution of another symbol. -/
theorem symbolStatOf_append_other (w : List Execution) (e : Execution) (sym : String)
    (h : e.Symbol ≠ sym) : symbolStatOf (w ++ [e]) sym = symbolStatOf w sym := by
  simp [symbolStatOf, List.countP_append, List.filter_append, h]

/-- The statistics of a symbol that does not occur. -/
theorem symbolStatOf_of_not_mem (w : List Execution) (sym : String)
    (h : sym ∉ w.map (fun e => e.Symbol)) :
    symbolStatOf w sym =
      { Symbol := sym, Count := 0, Volume := 0, BuyCount := 0, SellCount := 0 } := by
  have hne : ∀ e ∈ w, ¬ e.Symbol = sym := by
    intro e he heq
    exact h (List.mem_map.mpr ⟨e, he, heq⟩)
  have hf : w.filter (fun e => decide (e.Symbol = sym)) = [] := by
    rw [List.filter_eq_nil_iff]
    intro e he
    simpa using hne e he
  have hc : ∀ p : Execution → Bool,
      w.countP (fun e => decide (e.Symbol = sym) && p e) = 0 := by
    intro p
    rw [List.countP_eq_zero]
    intro e he
    simp [hne e he]
  have hc0 : w.countP (fun e => decide (e.Symbol = sym)) = 0 := by
    rw [List.countP_eq_zero]
    intro e he
    simpa using hne e he
  simp [symbolStatOf, hf, hc, hc0]

/-- The entry one iteration writes for the symbol of an in-window execution,
given the statistics `base` it starts from. -/
theorem statsStep_symbolStats (start : Time) (acc : StatsLoop) (e : Execution)
    (h : e.ExecutionTime.After start = true) (base : SymbolStat)
    (hbase : base = (match GoMap.get? acc.symbolStats e.Symbol with
      | some st => st
      | none => { Symbol := e.Symbol, Count := 0, Volume := 0, BuyCount := 0, SellCount := 0 })) :
    (statsStep start acc e).symbolStats =
      GoMap.set acc.symbolStats e.Symbol
        { Symbol := base.Symbol
          Count := base.Count + 1
          Volume := base.Volume + e.TotalAmount
          BuyCount := base.BuyCount + (if e.ExecutionType = "buy" then 1 else 0)
          SellCount := base.SellCount + (if e.ExecutionType = "sell" then 1 else 0) } := by
  subst hbase
  by_cases hb : e.ExecutionType = "buy"
  · have hs : ¬ e.ExecutionType = "sell" := by rw [hb]; decide
    simp [statsStep, h, hb]
  · by_cases hs : e.ExecutionType = "sell"
    · simp [statsStep, h, hs]
    · simp [statsStep, h, hb, hs]

/-- After the loop the map `symbolStats` holds, for each symbol that occurs in
the window, its statistics counted directly, and no other key. -/
theorem statsLoop_symbolStats_get? (start : Time) (l : List Execution) (sym : String) :
    GoMap.get? (l.foldl (statsStep start) StatsLoop.init).symbolStats sym =
      if sym ∈ (l.filter (fun e => e.ExecutionTime.After start)).map (fun e => e.Symbol) then
        some (symbolStatOf (l.filter (fun e => e.ExecutionTime.After start)) sym)
      else none := by
  induction l using List.reverseRecOn generalizing sym with
  | nil => simp [StatsLoop.init, GoMap.get?]
  | append_singleton l e ih =>
    rw [List.foldl_append, List.foldl_cons, List.foldl_nil, List.filter_append]
    cases h : e.ExecutionTime.After start
    · rw [statsStep_of_not_after start _ e h]
      have hfe : List.filter (fun e => e.ExecutionTime.After start) [e] = [] := by
        simp [h]
      rw [hfe, List.append_nil]
      exact ih sym
    · have hfe : List.filter (fun e => e.ExecutionTime.After start) [e] = [e] := by
        simp [h]
      rw [hfe, statsStep_symbolStats start _ e h _ rfl, GoMap.get?_set, ih e.Symbol]
      by_cases hsym : e.Symbol = sym
      · subst hsym
        rw [symbolStatOf_append_same]
        by_cases hmem : e.Symbol ∈
            (l.filter (fun e => e.ExecutionTime.After start)).map (fun e => e.Symbol)
        · simp [hmem, symbolStatOf]
        · simp [hmem, symbolStatOf_of_not_mem _ _ hmem]
      · rw [if_neg hsym, ih sym, symbolStatOf_append_other _ _ _ hsym]
        have hiff : sym ∈ (l.filter (fun e => e.ExecutionTime.After start) ++ [e]).map
              (fun e => e.Symbol) ↔
            sym ∈ (l.filter (fun e => e.ExecutionTime.After start)).map (fun e => e.Symbol) := by
          simp [Ne.symm hsym]
        simp only [hiff]

/-- The loop sees only the executions after the start of the window. -/
theorem statsLoop_filter (start : Time) (l : List Execution) (acc : StatsLoop) :
    l.foldl (statsStep start) acc =
      (l.filter (fun e => e.ExecutionTime.After start)).foldl (statsStep start) acc := by
  induction l generalizing acc with
  | nil => rfl
  | cons e l ih =>
    cases h : e.ExecutionTime.After start
    · rw [List.foldl_cons, statsStep_of_not_after start acc e h, ih]
      simp [h]
    · rw [List.foldl_cons, ih]
      simp [h]

/-- On executions that are after both starts, the loop does not depend on the start. -/
theorem statsLoop_congr (start start' : Time) (l : List Execution) (acc : StatsLoop)
    (h : ∀ e ∈ l, e.ExecutionTime.After start = true ∧ e.ExecutionTime.After start' = true) :
    l.foldl (statsStep start) acc = l.foldl (statsStep start') acc := by
  induction l generalizing acc with
  | nil => rfl
  | cons e l ih =>
    have he := h e (List.mem_cons_self _ _)
    have hstep : statsStep start acc e = statsStep start' acc e := by
      simp only [statsStep, he.1, he.2]
    rw [List.foldl_cons, List.foldl_cons, hstep]
    exact ih _ (fun x hx => h x (List.mem_cons_of_mem _ hx))

/-- Two windows that keep the same executions of a batch leave the same loop variables. -/
theorem statsLoop_eq_of_filter_eq (start start' : Time) (l l' : List Execution)
    (h : l.filter (fun e => e.ExecutionTime.After start) =
      l'.filter (fun e => e.ExecutionTime.After start')) :
    l.foldl (statsStep start) StatsLoop.init = l'.foldl (statsStep start') StatsLoop.init := by
  rw [statsLoop_filter start l, statsLoop_filter start' l', ← h]
  apply statsLoop_congr
  intro e he
  refine ⟨by simpa using (List.mem_filter.mp he).2, ?_⟩
  rw [h] at he
  simpa using (List.mem_filter.mp he).2

/-! ## Execution accounting engine: rankings and recent executions -/

/-- The two lists `GetUserExecutionStats` builds from its maps, and what the
call leaves behind, in terms of the variables the filtering loop leaves. -/
theorem GetUserExecutionStats_ok_lists {σ : Type} (svc : executionService σ) (now : Time)
    (order : RangeOrder) (s : σ) (userID : UUID) (timeRange : Duration)
    (executions : List Execution)
    (hget : svc.executionRepo.GetByUserID s userID 1000 0 = .ok executions) :
    ∃ stats : ExecutionStats,
      GetUserExecutionStats svc now order s userID timeRange =
        ⟨s, [.GetByUserID userID 1000 0], .ok stats⟩ ∧
      stats.TopSymbols =
        (bubbleSort ((order.symbolStats
          (executions.foldl (statsStep (startTime now timeRange))
            StatsLoop.init).symbolStats).map Prod.snd)).take 5 ∧
      stats.ExecutionsByDay =
        (order.dailyActivity
          (executions.foldl (statsStep (startTime now timeRange))
            StatsLoop.init).dailyActivity).map
          (fun (kv : Int × Nat) => { Date := parseDate kv.1, Count := kv.2 }) := by
  simp only [GetUserExecutionStats, hget]
  refine ⟨_, rfl, ?_, ?_⟩
  · by_cases h5 : (bubbleSort ((order.symbolStats
        (executions.foldl (statsStep (startTime now timeRange))
          StatsLoop.init).symbolStats).map Prod.snd)).length > 5
    · simp only [h5, if_true]
    · simp only [h5, if_false]
      exact (List.take_of_length_le (by omega)).symm
  · rfl

/-- C11: the `TopSymbols` list is in descending order of `Count`: each entry's
`Count` is at least that of every later entry, in particular of the next one;
the bubble sort puts every input list in that order and only rearranges it. -/
theorem GetUserExecutionStats_top_symbols_sorted {σ : Type} (svc : executionService σ)
    (now : Time) (order : RangeOrder) (s : σ) (userID : UUID) (timeRange : Duration)
    (executions : List Execution)
    (hget : svc.executionRepo.GetByUserID s userID 1000 0 = .ok executions) :
    ∃ stats : ExecutionStats,
      (GetUserExecutionStats svc now order s userID timeRange).ret = .ok stats ∧
      stats.TopSymbols.Pairwise (fun a b => a.Count ≥ b.Count) ∧
      stats.TopSymbols.Chain' (fun a b => a.Count ≥ b.Count) ∧
      (∀ i : Nat, ∀ h : i + 1 < stats.TopSymbols.length,
        (stats.TopSymbols.get ⟨i, by omega⟩).Count ≥
          (stats.TopSymbols.get ⟨i + 1, h⟩).Count) ∧
      ∀ l : List SymbolStat,
        (bubbleSort l).Pairwise (fun a b => a.Count ≥ b.Count) ∧ (bubbleSort l).Perm l := by
  obtain ⟨stats, hret, htop, -⟩ :=
    GetUserExecutionStats_ok_lists svc now order s userID timeRange executions hget
  have hsorted : stats.TopSymbols.Pairwise (fun a b => a.Count ≥ b.Count) := by
    rw [htop]
    exact (bubbleSort_sorted _).sublist (List.take_sublist _ _)
  refine ⟨stats, by rw [hret], hsorted, List.Pairwise.chain' hsorted, ?_,
    fun l => ⟨bubbleSort_sorted l, bubbleSort_perm l⟩⟩
  intro i h
  exact List.pairwise_iff_get.mp hsorted ⟨i, by omega⟩ ⟨i + 1, h⟩ (by simp)

/-- The bubble sort puts any list of entries in descending order of `Count`. -/
theorem bubbleSort_descending_example :
    (bubbleSort [⟨"A", 1, 0, 0, 0⟩, ⟨"B", 5, 0, 0, 0⟩, ⟨"C", 3, 0, 0, 0⟩, ⟨"D", 5, 0, 0, 0⟩,
        ⟨"E", 2, 0, 0, 0⟩, ⟨"F", 9, 0, 0, 0⟩]).map (fun x => (x.Symbol, x.Count)) =
      [("F", 9), ("B", 5), ("D", 5), ("C", 3), ("E", 2), ("A", 1)] := by
  rfl

/-- C13: `RecentExecutions` is the first min(5, n) in-window executions, in the
order of the batch the store returned, where n is their number. -/
theorem GetUserExecutionStats_recent {σ : Type} (svc : executionService σ)
    (now : Time) (order : RangeOrder) (s : σ) (userID : UUID) (timeRange : Duration)
    (executions : List Execution)
    (hget : svc.executionRepo.GetByUserID s userID 1000 0 = .ok executions) :
    ∃ stats : ExecutionStats,
      (GetUserExecutionStats svc now order s userID timeRange).ret = .ok stats ∧
      stats.RecentExecutions =
        (inWindow now timeRange executions).take
          (min 5 (inWindow now timeRange executions).length) ∧
      stats.RecentExecutions.length = min 5 (inWindow now timeRange executions).length ∧
      (inWindow now timeRange executions).Sublist executions := by
  obtain ⟨stats, hret, -, -, -, -, -, -, hrecent⟩ :=
    GetUserExecutionStats_ok svc now order s userID timeRange executions hget
  have h : stats.RecentExecutions =
      (inWindow now timeRange executions).take
        (min 5 (inWindow now timeRange executions).length) := by
    rw [hrecent]
    by_cases h5 : (inWindow now timeRange executions).length > 5
    · rw [if_pos h5, min_eq_left (by omega)]
    · rw [if_neg h5, min_eq_right (by omega), List.take_length]
  refine ⟨stats, by rw [hret], h, ?_, List.filter_sublist _⟩
  rw [h, List.length_take]
  omega

set_option maxRecDepth 20000 in
/-- Witness of C11: over `demoRankBatch`, whose symbols are first met with
counts 1, 2, 3, 1, 2, 1, 4, the list is META 4, AAPL 3, MSFT 2, NVDA 2, GOOG 1. -/
theorem GetUserExecutionStats_top_symbols_sorted_witness :
    sampleService.executionRepo.GetByUserID demoRankStore 7 1000 0 = .ok demoRankBatch ∧
    ∃ stats : ExecutionStats,
      (GetUserExecutionStats sampleService demoRankNow RangeOrder.insertion demoRankStore 7
        90000000000000).ret = .ok stats ∧
      stats.TopSymbols.map (fun (x : SymbolStat) => (x.Symbol, x.Count)) =
        [("META", 4), ("AAPL", 3), ("MSFT", 2), ("NVDA", 2), ("GOOG", 1)] ∧
      stats.TopSymbols.Pairwise (fun a b => a.Count ≥ b.Count) := by
  obtain ⟨stats, hret, hsorted, -, -, -⟩ :=
    GetUserExecutionStats_top_symbols_sorted sampleService demoRankNow RangeOrder.insertion
      demoRankStore 7 90000000000000 demoRankBatch rfl
  have hval : (GetUserExecutionStats sampleService demoRankNow RangeOrder.insertion
      demoRankStore 7 90000000000000).ret.toOption.map
        (fun st => st.TopSymbols.map (fun (x : SymbolStat) => (x.Symbol, x.Count))) =
      some [("META", 4), ("AAPL", 3), ("MSFT", 2), ("NVDA", 2), ("GOOG", 1)] := by rfl
  rw [hret] at hval
  exact ⟨rfl, stats, hret, Option.some.inj hval, hsorted⟩

/-- Witness of C13: of the 14 in-window executions of `demoRankBatch` the five
latest are returned, in the order of the batch. -/
theorem GetUserExecutionStats_recent_witness :
    sampleService.executionRepo.GetByUserID demoRankStore 7 1000 0 = .ok demoRankBatch ∧
    ∃ stats : ExecutionStats,
      (GetUserExecutionStats sampleService demoRankNow RangeOrder.insertion demoRankStore 7
        90000000000000).ret = .ok stats ∧
      stats.RecentExecutions = demoRankBatch.take 5 ∧
      stats.RecentExecutions.map (fun e => e.ID) = [34, 33, 32, 31, 30] := by
  obtain ⟨stats, hret, hrecent, -, -⟩ :=
    GetUserExecutionStats_recent sampleService demoRankNow RangeOrder.insertion
      demoRankStore 7 90000000000000 demoRankBatch rfl
  have hw : inWindow demoRankNow 90000000000000 demoRankBatch = demoRankBatch := rfl
  rw [hw] at hrecent
  have h5 : stats.RecentExecutions = demoRankBatch.take 5 := by
    rw [hrecent]
    rfl
  refine ⟨rfl, stats, hret, h5, ?_⟩
  rw [h5]
  rfl

/-- Each entry of the map `symbolStats` after the loop holds the statistics of
its key, counted directly over the in-window executions. -/
theorem statsLoop_symbolStats_entry (start : Time) (l : List Execution) (k : String)
    (v : SymbolStat)
    (h : (k, v) ∈ (l.foldl (statsStep start) StatsLoop.init).symbolStats) :
    v = symbolStatOf (l.filter (fun e => e.ExecutionTime.After start)) k := by
  have hnodup := statsLoop_symbolStats_nodup start l StatsLoop.init List.nodup_nil
  have hget := GoMap.get?_of_mem _ k v hnodup h
  rw [statsLoop_symbolStats_get?] at hget
  split at hget
  · exact (Option.some.inj hget).symm
  · cases hget

theorem statsLoop_symbolStats_mem_keys (start : Time) (l : List Execution) (sym : String) :
    sym ∈ GoMap.keys (l.foldl (statsStep start) StatsLoop.init).symbolStats ↔
      sym ∈ (l.filter (fun e => e.ExecutionTime.After start)).map (fun e => e.Symbol) := by
  rw [statsLoop_symbolStats_keys]
  simp [StatsLoop.init, GoMap.keys]

/-- Each entry of the map `dailyActivity` after the loop counts the in-window
executions on the date of its key. -/
theorem statsLoop_dailyActivity_entry (start : Time) (l : List Execution) (d : Int) (c : Nat)
    (h : (d, c) ∈ (l.foldl (statsStep start) StatsLoop.init).dailyActivity) :
    c = (l.filter (fun e => e.ExecutionTime.After start)).countP
      (fun e => decide (dateKey e.ExecutionTime = d)) := by
  have hnodup := statsLoop_dailyActivity_nodup start l StatsLoop.init List.nodup_nil
  have hget := GoMap.get?_of_mem _ d c hnodup h
  have hD := statsLoop_dailyActivity start l StatsLoop.init d
  simp only [GoMap.getD, hget, Option.getD_some] at hD
  rw [hD]
  simp [StatsLoop.init, GoMap.get?]

theorem statsLoop_dailyActivity_mem_keys (start : Time) (l : List Execution) (d : Int) :
    d ∈ GoMap.keys (l.foldl (statsStep start) StatsLoop.init).dailyActivity ↔
      ∃ e ∈ l.filter (fun e => e.ExecutionTime.After start), dateKey e.ExecutionTime = d := by
  rw [statsLoop_dailyActivity_keys]
  simp [StatsLoop.init, GoMap.keys]

/-- C12: when the range over the map `symbolStats` visits each entry once,
`TopSymbols` has min(5, number of distinct in-window symbols) entries, no
symbol twice, each entry carries the number of in-window executions of its
symbol as `Count`, and an in-window symbol that is left out has at most the
count of every entry kept. -/
theorem GetUserExecutionStats_top_five {σ : Type} (svc : executionService σ)
    (now : Time) (order : RangeOrder) (s : σ) (userID : UUID) (timeRange : Duration)
    (executions : List Execution)
    (hget : svc.executionRepo.GetByUserID s userID 1000 0 = .ok executions)
    (hrange : ∀ m : GoMap String SymbolStat, (order.symbolStats m).Perm m) :
    ∃ stats : ExecutionStats,
      (GetUserExecutionStats svc now order s userID timeRange).ret = .ok stats ∧
      stats.TopSymbols.length =
        min 5 ((inWindow now timeRange executions).map (fun e => e.Symbol)).dedup.length ∧
      (stats.TopSymbols.map (fun t => t.Symbol)).Nodup ∧
      (∀ t ∈ stats.TopSymbols,
        t.Symbol ∈ (inWindow now timeRange executions).map (fun e => e.Symbol) ∧
        t.Count = (inWindow now timeRange executions).countP
          (fun e => decide (e.Symbol = t.Symbol))) ∧
      (∀ sym : String, sym ∈ (inWindow now timeRange executions).map (fun e => e.Symbol) →
        sym ∉ stats.TopSymbols.map (fun t => t.Symbol) →
        ∀ t ∈ stats.TopSymbols,
          (inWindow now timeRange executions).countP (fun e => decide (e.Symbol = sym)) ≤
            t.Count) := by
  obtain ⟨stats, hret, htop, -⟩ :=
    GetUserExecutionStats_ok_lists svc now order s userID timeRange executions hget
  refine ⟨stats, by rw [hret], ?_⟩
  -- the map after the loop and the slice built from it
  generalize hm : (executions.foldl (statsStep (startTime now timeRange))
    StatsLoop.init).symbolStats = m at htop
  have hw : inWindow now timeRange executions =
      executions.filter (fun e => e.ExecutionTime.After (startTime now timeRange)) := rfl
  have hnodup : (GoMap.keys m).Nodup := by
    rw [← hm]
    exact statsLoop_symbolStats_nodup _ _ _ List.nodup_nil
  have hkeys : ∀ sym, sym ∈ GoMap.keys m ↔
      sym ∈ (inWindow now timeRange executions).map (fun e => e.Symbol) := by
    intro sym
    rw [← hm, hw]
    exact statsLoop_symbolStats_mem_keys _ _ sym
  have hentry : ∀ p ∈ m, p.2 = symbolStatOf (inWindow now timeRange executions) p.1 := by
    intro p hp
    rw [← hm] at hp
    exact statsLoop_symbolStats_entry _ _ p.1 p.2 hp
  have hperm := hrange m
  have hvals : ∀ t ∈ (order.symbolStats m).map Prod.snd,
      ∃ k, (k, t) ∈ m ∧ t = symbolStatOf (inWindow now timeRange executions) k := by
    intro t ht
    obtain ⟨p, hp, rfl⟩ := List.mem_map.mp ht
    exact ⟨p.1, hperm.subset hp, hentry p (hperm.subset hp)⟩
  have hsym : ((order.symbolStats m).map Prod.snd).map (fun t => t.Symbol) =
      (order.symbolStats m).map Prod.fst := by
    rw [List.map_map]
    apply List.map_congr_left
    intro p hp
    have := hentry p (hperm.subset hp)
    simp only [Function.comp_apply, this, symbolStatOf]
  have hsortperm := bubbleSort_perm ((order.symbolStats m).map Prod.snd)
  have hsorted := bubbleSort_sorted ((order.symbolStats m).map Prod.snd)
  have hnodupTop : ((bubbleSort ((order.symbolStats m).map Prod.snd)).map
      (fun t => t.Symbol)).Nodup := by
    have h1 := hsortperm.map (fun t => t.Symbol)
    rw [hsym] at h1
    exact (h1.trans (hperm.map Prod.fst)).nodup_iff.mpr hnodup
  have hlen : (bubbleSort ((order.symbolStats m).map Prod.snd)).length =
      ((inWindow now timeRange executions).map (fun e => e.Symbol)).dedup.length := by
    have h1 : (GoMap.keys m).Perm
        ((inWindow now timeRange executions).map (fun e => e.Symbol)).dedup := by
      rw [List.perm_ext_iff_of_nodup hnodup (List.nodup_dedup _)]
      intro a
      rw [hkeys a, List.mem_dedup]
    rw [hsortperm.length_eq, List.length_map, hperm.length_eq, ← h1.length_eq]
    simp [GoMap.keys]
  rw [htop]
  refine ⟨?_, ?_, ?_, ?_⟩
  · rw [List.length_take, hlen]
  · exact (hnodupTop.sublist ((List.take_sublist _ _).map _))
  · intro t ht
    obtain ⟨k, hk, rfl⟩ := hvals t (hsortperm.subset (List.mem_of_mem_take ht))
    refine ⟨(hkeys k).mp (List.mem_map.mpr ⟨(k, _), hk, rfl⟩), ?_⟩
    simp [symbolStatOf]
  · intro sym hsymIn hout t ht
    obtain ⟨p, hp, hpk⟩ := List.mem_map.mp ((hkeys sym).mpr hsymIn)
    have hpv := hentry p hp
    have hpvals : p.2 ∈ (order.symbolStats m).map Prod.snd :=
      List.mem_map.mpr ⟨p, hperm.symm.subset hp, rfl⟩
    have hptop : p.2 ∈ bubbleSort ((order.symbolStats m).map Prod.snd) :=
      hsortperm.symm.subset hpvals
    have hsplit := List.take_append_drop 5 (bubbleSort ((order.symbolStats m).map Prod.snd))
    rw [← hsplit] at hptop
    have hsorted' : List.Pairwise (fun a b => a.Count ≥ b.Count)
        (List.take 5 (bubbleSort ((order.symbolStats m).map Prod.snd)) ++
          List.drop 5 (bubbleSort ((order.symbolStats m).map Prod.snd))) := by
      rw [hsplit]
      exact hsorted
    have hpsym : p.2.Symbol = sym := by rw [hpv, ← hpk]; rfl
    rcases List.mem_append.mp hptop with hin | hin
    · exact absurd (List.mem_map.mpr ⟨p.2, hin, hpsym⟩) hout
    · have hge := (List.pairwise_append.mp hsorted').2.2 t ht p.2 hin
      have hcount : p.2.Count = (inWindow now timeRange executions).countP
          (fun e => decide (e.Symbol = sym)) := by
        rw [hpv, ← hpk]; rfl
      rw [← hcount]
      exact hge


set_option maxRecDepth 20000 in
/-- Witness of C12: `demoRankBatch` has seven symbols in the window; five are
kept, and TSLA, which is left out, has a count of 1, at most that of every
entry kept. -/
theorem GetUserExecutionStats_top_five_witness :
    sampleService.executionRepo.GetByUserID demoRankStore 7 1000 0 = .ok demoRankBatch ∧
    (∀ m : GoMap String SymbolStat, (RangeOrder.insertion.symbolStats m).Perm m) ∧
    ∃ stats : ExecutionStats,
      (GetUserExecutionStats sampleService demoRankNow RangeOrder.insertion demoRankStore 7
        90000000000000).ret = .ok stats ∧
      stats.TopSymbols.length = 5 ∧
      (stats.TopSymbols.map (fun t => t.Symbol)).Nodup ∧
      "TSLA" ∉ stats.TopSymbols.map (fun t => t.Symbol) ∧
      ∀ t ∈ stats.TopSymbols, 1 ≤ t.Count := by
  have hrange : ∀ m : GoMap String SymbolStat, (RangeOrder.insertion.symbolStats m).Perm m :=
    fun m => List.Perm.refl m
  obtain ⟨stats, hret, hlen, hnodup, -, hout⟩ :=
    GetUserExecutionStats_top_five sampleService demoRankNow RangeOrder.insertion
      demoRankStore 7 90000000000000 demoRankBatch rfl hrange
  have hw : inWindow demoRankNow 90000000000000 demoRankBatch = demoRankBatch := rfl
  have hval : (GetUserExecutionStats sampleService demoRankNow RangeOrder.insertion
      demoRankStore 7 90000000000000).ret.toOption.map
        (fun st => st.TopSymbols.map (fun (t : SymbolStat) => t.Symbol)) =
      some ["META", "AAPL", "MSFT", "NVDA", "GOOG"] := by rfl
  rw [hret] at hval
  have hsyms : stats.TopSymbols.map (fun t => t.Symbol) =
      ["META", "AAPL", "MSFT", "NVDA", "GOOG"] := Option.some.inj hval
  have hnot : "TSLA" ∉ stats.TopSymbols.map (fun t => t.Symbol) := by
    rw [hsyms]
    decide
  refine ⟨rfl, hrange, stats, hret, ?_, hnodup, hnot, ?_⟩
  · rw [hlen, hw]
    rfl
  · intro t ht
    have h := hout "TSLA" (by rw [hw]; decide) hnot t ht
    rw [hw] at h
    exact h

/-! ## Execution accounting engine: daily activity and the window -/

/-- The statistics are determined by the outcome of the call. -/
theorem Outcome_ok_inj {σ κ α : Type} {s s' : σ} {c c' : List κ} {a a' : α}
    {x : Outcome σ κ (Except GoError α)}
    (h : x = ⟨s, c, .ok a⟩) (h' : x = ⟨s', c', .ok a'⟩) : a = a' := by
  rw [h] at h'
  injection h' with _ _ h3
  injection h3

/-- An instant lies on the day with count `d` exactly when it is at or after
the midnight that starts the day and before the next midnight. -/
theorem dateKey_eq_iff (t : Time) (d : Int) :
    dateKey t = d ↔
      d * nanosPerDay ≤ t.instant + t.zoneOffset ∧
        t.instant + t.zoneOffset < d * nanosPerDay + nanosPerDay := by
  unfold dateKey nanosPerDay
  rw [Int.fdiv_eq_ediv _ (by norm_num)]
  norm_num
  omega

/-- C16: when the range over the map `dailyActivity` visits each entry once,
`ExecutionsByDay` has one entry for each calendar date on which an in-window
execution occurred and no other entry, the entry's `Date` is midnight UTC of
that date (the zero time for a date outside the years 0 to 9999, whose string
does not parse), the entry's `Count` is the number of in-window executions on
that date, and the `Count`s sum to `TotalExecutions`. When every in-window
execution is dated in the years 0 to 9999, this reads on the entries
themselves: no two entries have the same `Date`, each `Date` is a midnight
UTC, each `Count` is positive and is the number of in-window executions whose
wall clock lies in the 24 hours from `Date` on, and every in-window execution
falls in the 24 hours of some entry. -/
theorem GetUserExecutionStats_by_day {σ : Type} (svc : executionService σ)
    (now : Time) (order : RangeOrder) (s : σ) (userID : UUID) (timeRange : Duration)
    (executions : List Execution)
    (hget : svc.executionRepo.GetByUserID s userID 1000 0 = .ok executions)
    (hrange : ∀ m : GoMap Int Nat, (order.dailyActivity m).Perm m) :
    ∃ stats : ExecutionStats,
      (GetUserExecutionStats svc now order s userID timeRange).ret = .ok stats ∧
      (∃ days : List Int,
        days.Nodup ∧
        (∀ d : Int, d ∈ days ↔
          ∃ e ∈ inWindow now timeRange executions, dateKey e.ExecutionTime = d) ∧
        stats.ExecutionsByDay = days.map (fun d =>
          { Date := if -366 ≤ d ∧ d ≤ 3652058 then ⟨d * nanosPerDay, 0⟩ else Time.zero
            Count := (inWindow now timeRange executions).countP
              (fun e => decide (dateKey e.ExecutionTime = d)) })) ∧
      ((∀ e ∈ inWindow now timeRange executions,
          -366 * nanosPerDay ≤ e.ExecutionTime.instant + e.ExecutionTime.zoneOffset ∧
          e.ExecutionTime.instant + e.ExecutionTime.zoneOffset < 3652059 * nanosPerDay) →
        (stats.ExecutionsByDay.map (fun a => a.Date)).Nodup ∧
        (∀ a ∈ stats.ExecutionsByDay,
          a.Date.zoneOffset = 0 ∧ a.Date.instant % nanosPerDay = 0 ∧ 0 < a.Count ∧
          a.Count = (inWindow now timeRange executions).countP (fun e =>
            decide (a.Date.instant ≤ e.ExecutionTime.instant + e.ExecutionTime.zoneOffset ∧
              e.ExecutionTime.instant + e.ExecutionTime.zoneOffset <
                a.Date.instant + nanosPerDay))) ∧
        (∀ e ∈ inWindow now timeRange executions, ∃ a ∈ stats.ExecutionsByDay,
          a.Date.instant ≤ e.ExecutionTime.instant + e.ExecutionTime.zoneOffset ∧
            e.ExecutionTime.instant + e.ExecutionTime.zoneOffset <
              a.Date.instant + nanosPerDay)) ∧
      (stats.ExecutionsByDay.map (fun a => a.Count)).sum = stats.TotalExecutions := by
  obtain ⟨stats, hret, -, hday⟩ :=
    GetUserExecutionStats_ok_lists svc now order s userID timeRange executions hget
  obtain ⟨stats', hret', htotal, -⟩ :=
    GetUserExecutionStats_ok svc now order s userID timeRange executions hget
  have hsame : stats' = stats := Outcome_ok_inj hret' hret
  rw [hsame] at htotal
  refine ⟨stats, by rw [hret], ?_⟩
  generalize hm : (executions.foldl (statsStep (startTime now timeRange))
    StatsLoop.init).dailyActivity = m at hday
  have hw : inWindow now timeRange executions =
      executions.filter (fun e => e.ExecutionTime.After (startTime now timeRange)) := rfl
  have hperm := hrange m
  have hnodup : (GoMap.keys m).Nodup := by
    rw [← hm]
    exact statsLoop_dailyActivity_nodup _ _ _ List.nodup_nil
  have hdays : ((order.dailyActivity m).map Prod.fst).Nodup :=
    (hperm.map Prod.fst).nodup_iff.mpr hnodup
  have hentries : stats.ExecutionsByDay = ((order.dailyActivity m).map Prod.fst).map (fun d =>
      ({ Date := if -366 ≤ d ∧ d ≤ 3652058 then ⟨d * nanosPerDay, 0⟩ else Time.zero
         Count := (inWindow now timeRange executions).countP
           (fun e => decide (dateKey e.ExecutionTime = d)) } : DailyActivity)) := by
    rw [hday, List.map_map]
    apply List.map_congr_left
    intro p hp
    have hpm : (p.1, p.2) ∈ m := hperm.subset hp
    rw [← hm] at hpm
    have := statsLoop_dailyActivity_entry _ _ p.1 p.2 hpm
    simp only [Function.comp_apply, hw, ← this, parseDate, yearInRange, Bool.and_eq_true,
      decide_eq_true_eq]
  have hmem : ∀ d : Int, d ∈ (order.dailyActivity m).map Prod.fst ↔
      ∃ e ∈ inWindow now timeRange executions, dateKey e.ExecutionTime = d := by
    intro d
    have h1 : d ∈ (order.dailyActivity m).map Prod.fst ↔ d ∈ GoMap.keys m :=
      (hperm.map Prod.fst).mem_iff
    rw [h1, ← hm, hw]
    exact statsLoop_dailyActivity_mem_keys _ _ d
  refine ⟨⟨(order.dailyActivity m).map Prod.fst, hdays, hmem, hentries⟩, ?_, ?_⟩
  · intro hyr
    have hin : ∀ d ∈ (order.dailyActivity m).map Prod.fst, -366 ≤ d ∧ d ≤ 3652058 := by
      intro d hd
      obtain ⟨e, he, hed⟩ := (hmem d).mp hd
      have hb := hyr e he
      have hk := (dateKey_eq_iff e.ExecutionTime d).mp hed
      unfold nanosPerDay at hb hk
      constructor <;> omega
    have hentries' : stats.ExecutionsByDay =
        ((order.dailyActivity m).map Prod.fst).map (fun d =>
          ({ Date := ⟨d * nanosPerDay, 0⟩
             Count := (inWindow now timeRange executions).countP
               (fun e => decide (dateKey e.ExecutionTime = d)) } : DailyActivity)) := by
      rw [hentries]
      apply List.map_congr_left
      intro d hd
      rw [if_pos (hin d hd)]
    refine ⟨?_, ?_, ?_⟩
    · rw [hentries', List.map_map]
      apply hdays.map
      intro d d' h
      simp only [Function.comp_apply, Time.mk.injEq, and_true] at h
      unfold nanosPerDay at h
      omega
    · intro a ha
      rw [hentries'] at ha
      obtain ⟨d, hd, rfl⟩ := List.mem_map.mp ha
      obtain ⟨e, he, hed⟩ := (hmem d).mp hd
      refine ⟨rfl, ?_, ?_, ?_⟩
      · show d * nanosPerDay % nanosPerDay = 0
        exact Int.mul_emod_left d nanosPerDay
      · show 0 < List.countP _ _
        rw [List.countP_pos_iff]
        exact ⟨e, he, decide_eq_true hed⟩
      · show List.countP _ _ = List.countP _ _
        apply List.countP_congr
        intro x _
        simp only [decide_eq_true_eq]
        exact dateKey_eq_iff x.ExecutionTime d
    · intro e he
      have hd := (hmem (dateKey e.ExecutionTime)).mpr ⟨e, he, rfl⟩
      refine ⟨{ Date := ⟨dateKey e.ExecutionTime * nanosPerDay, 0⟩
                Count := (inWindow now timeRange executions).countP
                  (fun x => decide (dateKey x.ExecutionTime = dateKey e.ExecutionTime)) },
        ?_, (dateKey_eq_iff e.ExecutionTime (dateKey e.ExecutionTime)).mp rfl⟩
      rw [hentries']
      exact List.mem_map.mpr ⟨dateKey e.ExecutionTime, hd, rfl⟩
  · rw [hday, List.map_map, htotal, hw]
    have h1 : ((order.dailyActivity m).map Prod.snd).sum = (m.map Prod.snd).sum :=
      (hperm.map Prod.snd).sum_eq
    have h2 := statsLoop_dailyActivity_sum (startTime now timeRange) executions StatsLoop.init
    rw [hm] at h2
    have h3 : (List.map ((fun (a : DailyActivity) => a.Count) ∘ fun (kv : Int × Nat) =>
        ({ Date := parseDate kv.1, Count := kv.2 } : DailyActivity)) (order.dailyActivity m)) =
        (order.dailyActivity m).map Prod.snd := by
      apply List.map_congr_left
      intro p _
      rfl
    rw [h3, h1, h2]
    simp [StatsLoop.init]

set_option maxRecDepth 20000 in
/-- Witness of C16: the 14 executions of `demoRankBatch` fall on two calendar
days of the year 1; with the maps ranged over in reverse order the entries are
the first midnight with 8 executions and the second midnight with 6. -/
theorem GetUserExecutionStats_by_day_witness :
    sampleService.executionRepo.GetByUserID demoRankStore 7 1000 0 = .ok demoRankBatch ∧
    (∀ m : GoMap Int Nat, (RangeOrder.reversed.dailyActivity m).Perm m) ∧
    (∀ e ∈ inWindow demoRankNow 90000000000000 demoRankBatch,
      -366 * nanosPerDay ≤ e.ExecutionTime.instant + e.ExecutionTime.zoneOffset ∧
      e.ExecutionTime.instant + e.ExecutionTime.zoneOffset < 3652059 * nanosPerDay) ∧
    ∃ stats : ExecutionStats,
      (GetUserExecutionStats sampleService demoRankNow RangeOrder.reversed demoRankStore 7
        90000000000000).ret = .ok stats ∧
      stats.ExecutionsByDay = [⟨⟨0, 0⟩, 8⟩, ⟨⟨86400000000000, 0⟩, 6⟩] ∧
      (stats.ExecutionsByDay.map (fun a => a.Date)).Nodup ∧
      (∀ a ∈ stats.ExecutionsByDay, 0 < a.Count) ∧
      (stats.ExecutionsByDay.map (fun a => a.Count)).sum = stats.TotalExecutions ∧
      stats.TotalExecutions = 14 := by
  have hrange : ∀ m : GoMap Int Nat, (RangeOrder.reversed.dailyActivity m).Perm m :=
    fun m => List.reverse_perm m
  have hyears : ∀ e ∈ inWindow demoRankNow 90000000000000 demoRankBatch,
      -366 * nanosPerDay ≤ e.ExecutionTime.instant + e.ExecutionTime.zoneOffset ∧
      e.ExecutionTime.instant + e.ExecutionTime.zoneOffset < 3652059 * nanosPerDay := by
    decide
  obtain ⟨stats, hret, -, hdates, hsum⟩ :=
    GetUserExecutionStats_by_day sampleService demoRankNow RangeOrder.reversed
      demoRankStore 7 90000000000000 demoRankBatch rfl hrange
  have hval : (GetUserExecutionStats sampleService demoRankNow RangeOrder.reversed
      demoRankStore 7 90000000000000).ret.toOption.map
        (fun st => st.ExecutionsByDay) = some [⟨⟨0, 0⟩, 8⟩, ⟨⟨86400000000000, 0⟩, 6⟩] := by
    rfl
  rw [hret] at hval
  have hdays : stats.ExecutionsByDay = [⟨⟨0, 0⟩, 8⟩, ⟨⟨86400000000000, 0⟩, 6⟩] :=
    Option.some.inj hval
  obtain ⟨hnodup, hentry, -⟩ := hdates hyears
  refine ⟨rfl, hrange, hyears, stats, hret, hdays, hnodup, fun a ha => (hentry a ha).2.2.1,
    hsum, ?_⟩
  rw [← hsum, hdays]
  rfl

/-- For a duration whose negation is an `int64`, the window starts at
`now - timeRange`. -/
theorem startTime_instant (now : Time) (timeRange : Int)
    (hlo : -2 ^ 63 < timeRange) (hhi : timeRange ≤ 2 ^ 63) :
    (startTime now timeRange).instant = now.instant - timeRange := by
  have e1 : (2 ^ 63 : Int) = 9223372036854775808 := by norm_num
  have e2 : (2 ^ 64 : Int) = 18446744073709551616 := by norm_num
  rw [e1] at hlo hhi
  have h : int64 (-timeRange) = -timeRange := by
    unfold int64
    rw [e1, e2]
    omega
  simp only [startTime, Time.Add, h]
  omega

/-- The statistics depend on the batch only through its in-window executions. -/
theorem GetUserExecutionStats_ret_congr {σ σ' : Type} (svc : executionService σ)
    (svc' : executionService σ') (now now' : Time) (order : RangeOrder) (s : σ) (s' : σ')
    (userID userID' : UUID) (timeRange timeRange' : Duration) (executions executions' : List Execution)
    (hget : svc.executionRepo.GetByUserID s userID 1000 0 = .ok executions)
    (hget' : svc'.executionRepo.GetByUserID s' userID' 1000 0 = .ok executions')
    (hwindow : inWindow now timeRange executions = inWindow now' timeRange' executions') :
    (GetUserExecutionStats svc now order s userID timeRange).ret =
      (GetUserExecutionStats svc' now' order s' userID' timeRange').ret := by
  have hloop := statsLoop_eq_of_filter_eq (startTime now timeRange) (startTime now' timeRange')
    executions executions' hwindow
  simp only [GetUserExecutionStats, hget, hget', hloop]

/-- C15: `GetUserExecutionStats` makes one call, `GetByUserID` with limit 1000
and offset 0. For a lookback window whose negation is an `int64` (every
duration but the least one), an execution of the batch is kept exactly when
its `ExecutionTime` is strictly later than `now - timeRange`; one exactly at
that instant is left out, and the statistics are those of the batch reduced
to the executions kept. -/
theorem GetUserExecutionStats_window {σ : Type} (svc : executionService σ)
    (now : Time) (order : RangeOrder) (s : σ) (userID : UUID) (timeRange : Duration)
    (executions : List Execution)
    (hget : svc.executionRepo.GetByUserID s userID 1000 0 = .ok executions)
    (hlo : (-2 ^ 63 : Int) < timeRange) (hhi : (timeRange : Int) < 2 ^ 63) :
    (GetUserExecutionStats svc now order s userID timeRange).calls =
      [.GetByUserID userID 1000 0] ∧
    inWindow now timeRange executions =
      executions.filter (fun e => decide (now.instant - timeRange < e.ExecutionTime.instant)) ∧
    (∀ e ∈ executions, e.ExecutionTime.instant = now.instant - timeRange →
      e ∉ inWindow now timeRange executions) ∧
    (∀ stats : ExecutionStats,
      (GetUserExecutionStats svc now order s userID timeRange).ret = .ok stats →
      stats.TotalExecutions =
        executions.countP (fun e => decide (now.instant - timeRange < e.ExecutionTime.instant))) ∧
    (∀ {σ' : Type} (svc' : executionService σ') (s' : σ'),
      svc'.executionRepo.GetByUserID s' userID 1000 0 =
        .ok (executions.filter
          (fun e => decide (now.instant - timeRange < e.ExecutionTime.instant))) →
      (GetUserExecutionStats svc' now order s' userID timeRange).ret =
        (GetUserExecutionStats svc now order s userID timeRange).ret) := by
  have hstart := startTime_instant now timeRange hlo (le_of_lt hhi)
  have hfilter : inWindow now timeRange executions =
      executions.filter (fun e => decide (now.instant - timeRange < e.ExecutionTime.instant)) := by
    simp only [inWindow, Time.After, hstart]
  refine ⟨?_, hfilter, ?_, ?_, ?_⟩
  · simp only [GetUserExecutionStats, hget]
  · intro e _ hat hmem
    rw [hfilter] at hmem
    have := (List.mem_filter.mp hmem).2
    simp only [decide_eq_true_eq] at this
    omega
  · intro stats hret
    obtain ⟨stats', hret', htotal, -⟩ :=
      GetUserExecutionStats_ok svc now order s userID timeRange executions hget
    rw [hret'] at hret
    have hsame : stats' = stats := by
      injection hret
    rw [← hsame, htotal, hfilter, List.countP_eq_length_filter]
  · intro σ' svc' s' hget'
    apply GetUserExecutionStats_ret_congr svc' svc now now order s' s userID userID
      timeRange timeRange _ _ hget' hget
    rw [hfilter]
    simp only [inWindow, Time.After, hstart, List.filter_filter, Bool.and_self]

/-- Witness of C15: of two executions, one exactly at the start of the window
of `demoNow` and 500000 and one a nanosecond later, only the later is kept. -/
theorem GetUserExecutionStats_window_witness :
    sampleService.executionRepo.GetByUserID
        ⟨[demoTrade 2 "AAPL" "buy" 100 500001, demoTrade 1 "AAPL" "buy" 100 500000], []⟩
        7 1000 0 =
      .ok [demoTrade 2 "AAPL" "buy" 100 500001, demoTrade 1 "AAPL" "buy" 100 500000] ∧
    ((-2 ^ 63 : Int) < 500000 ∧ (500000 : Int) < 2 ^ 63) ∧
    (GetUserExecutionStats sampleService demoNow RangeOrder.insertion
        ⟨[demoTrade 2 "AAPL" "buy" 100 500001, demoTrade 1 "AAPL" "buy" 100 500000], []⟩
        7 500000).calls = [.GetByUserID 7 1000 0] ∧
    inWindow demoNow 500000
        [demoTrade 2 "AAPL" "buy" 100 500001, demoTrade 1 "AAPL" "buy" 100 500000] =
      [demoTrade 2 "AAPL" "buy" 100 500001] ∧
    demoTrade 1 "AAPL" "buy" 100 500000 ∉ inWindow demoNow 500000
        [demoTrade 2 "AAPL" "buy" 100 500001, demoTrade 1 "AAPL" "buy" 100 500000] := by
  have hlo : (-2 ^ 63 : Int) < 500000 := by norm_num
  have hhi : (500000 : Int) < 2 ^ 63 := by norm_num
  obtain ⟨hcalls, -, hout, -, -⟩ :=
    GetUserExecutionStats_window sampleService demoNow RangeOrder.insertion
      ⟨[demoTrade 2 "AAPL" "buy" 100 500001, demoTrade 1 "AAPL" "buy" 100 500000], []⟩
      7 500000 [demoTrade 2 "AAPL" "buy" 100 500001, demoTrade 1 "AAPL" "buy" 100 500000]
      rfl hlo hhi
  exact ⟨rfl, ⟨hlo, hhi⟩, hcalls, rfl,
    hout (demoTrade 1 "AAPL" "buy" 100 500000) (by simp) rfl⟩

/-! ## Execution accounting engine: repeated calls -/

set_option maxRecDepth 20000 in
/-- C14 fails as stated: with no execution added, a second call 420000
nanoseconds after the first, for the same user and the same lookback window,
counts 4 executions where the first counted 6, because two of them are no
longer inside the window. -/
theorem GetUserExecutionStats_second_call_differs :
    (GetUserExecutionStats sampleService demoNow RangeOrder.insertion demoOldStatsStore 7
      500000).store = demoOldStatsStore ∧
    (GetUserExecutionStats sampleService demoNow RangeOrder.insertion demoOldStatsStore 7
      500000).ret.toOption.map (fun st => (st.TotalExecutions, st.BuyCount, st.SellCount)) =
        some (6, 5, 1) ∧
    (GetUserExecutionStats sampleService ⟨1420000, 0⟩ RangeOrder.insertion
      (GetUserExecutionStats sampleService demoNow RangeOrder.insertion demoOldStatsStore 7
        500000).store 7
      500000).ret.toOption.map (fun st => (st.TotalExecutions, st.BuyCount, st.SellCount)) =
        some (4, 3, 1) := by
  refine ⟨rfl, ?_, ?_⟩ <;> rfl

/-- C14, amended: a call of `GetUserExecutionStats` leaves the store as it
was, and a second call for the same user and lookback window on that store
returns the same `TotalExecutions`, `BuyCount`, `SellCount`, `TotalVolume`,
`AverageTradeSize`, `SymbolBreakdown` and `RecentExecutions` whenever the
same executions of the batch are inside the window at both clock readings;
the per-day entries are then the same up to their order, and the whole
result is the same when the maps are ranged over in the same order. -/
theorem GetUserExecutionStats_repeatable {σ : Type} (svc : executionService σ)
    (now now' : Time) (order order' : RangeOrder) (s : σ) (userID : UUID)
    (timeRange : Duration) (executions : List Execution)
    (hget : svc.executionRepo.GetByUserID s userID 1000 0 = .ok executions)
    (hwindow : inWindow now timeRange executions = inWindow now' timeRange executions)
    (hrange : ∀ m : GoMap Int Nat, (order.dailyActivity m).Perm m)
    (hrange' : ∀ m : GoMap Int Nat, (order'.dailyActivity m).Perm m) :
    (GetUserExecutionStats svc now order s userID timeRange).store = s ∧
    ∃ first second : ExecutionStats,
      (GetUserExecutionStats svc now order s userID timeRange).ret = .ok first ∧
      (GetUserExecutionStats svc now' order'
        (GetUserExecutionStats svc now order s userID timeRange).store
        userID timeRange).ret = .ok second ∧
      second.TotalExecutions = first.TotalExecutions ∧
      second.BuyCount = first.BuyCount ∧
      second.SellCount = first.SellCount ∧
      second.TotalVolume = first.TotalVolume ∧
      second.AverageTradeSize = first.AverageTradeSize ∧
      second.SymbolBreakdown = first.SymbolBreakdown ∧
      second.RecentExecutions = first.RecentExecutions ∧
      second.ExecutionsByDay.Perm first.ExecutionsByDay ∧
      (order' = order → second = first) := by
  have hloop := statsLoop_eq_of_filter_eq (startTime now timeRange) (startTime now' timeRange)
    executions executions hwindow
  obtain ⟨first, hret, h1, h2, h3, h4, h5, h6, h7⟩ :=
    GetUserExecutionStats_ok svc now order s userID timeRange executions hget
  obtain ⟨second, hret', h1', h2', h3', h4', h5', h6', h7'⟩ :=
    GetUserExecutionStats_ok svc now' order' s userID timeRange executions hget
  obtain ⟨first₂, hretl, -, hday⟩ :=
    GetUserExecutionStats_ok_lists svc now order s userID timeRange executions hget
  obtain ⟨second₂, hretl', -, hday'⟩ :=
    GetUserExecutionStats_ok_lists svc now' order' s userID timeRange executions hget
  have e1 : first₂ = first := Outcome_ok_inj hretl hret
  have e2 : second₂ = second := Outcome_ok_inj hretl' hret'
  rw [e1] at hday
  rw [e2] at hday'
  have hstore : (GetUserExecutionStats svc now order s userID timeRange).store = s := by
    rw [hret]
  have hvol : second.TotalVolume = first.TotalVolume := by rw [h4, h4', hloop]
  refine ⟨hstore, first, second, by rw [hret], by rw [hstore, hret'], ?_, ?_, ?_, hvol, ?_, ?_,
    ?_, ?_, ?_⟩
  · rw [h1, h1', hwindow]
  · rw [h2, h2', hloop]
  · rw [h3, h3', hloop]
  · rw [h6, h6', hvol, hwindow]
  · rw [h5, h5', hloop]
  · rw [h7, h7', hwindow]
  · rw [hday, hday', hloop]
    exact ((hrange' _).trans (hrange _).symm).map _
  · intro horder
    subst horder
    have hr := GetUserExecutionStats_ret_congr svc svc now' now order' s s userID userID
      timeRange timeRange executions executions hget hget hwindow.symm
    rw [hret, hret'] at hr
    injection hr

set_option maxRecDepth 20000 in
/-- Witness of C14, amended: two calls 500 nanoseconds apart see the same six
executions in the window; the first ranges over its maps in insertion order,
the second in reverse order. -/
theorem GetUserExecutionStats_repeatable_witness :
    sampleService.executionRepo.GetByUserID demoOldStatsStore 7 1000 0 =
      .ok (demoBatch ++ [demoTrade 10 "TSLA" "buy" 900 100]) ∧
    inWindow demoNow 500000 (demoBatch ++ [demoTrade 10 "TSLA" "buy" 900 100]) =
      inWindow ⟨1000500, 0⟩ 500000 (demoBatch ++ [demoTrade 10 "TSLA" "buy" 900 100]) ∧
    ∃ first second : ExecutionStats,
      (GetUserExecutionStats sampleService demoNow RangeOrder.insertion demoOldStatsStore 7
        500000).ret = .ok first ∧
      (GetUserExecutionStats sampleService ⟨1000500, 0⟩ RangeOrder.reversed
        (GetUserExecutionStats sampleService demoNow RangeOrder.insertion demoOldStatsStore 7
          500000).store 7 500000).ret = .ok second ∧
      second.TotalExecutions = first.TotalExecutions ∧
      second.TotalVolume = first.TotalVolume ∧
      second.SymbolBreakdown = first.SymbolBreakdown ∧
      second.ExecutionsByDay.Perm first.ExecutionsByDay := by
  have hw1 : inWindow demoNow 500000 (demoBatch ++ [demoTrade 10 "TSLA" "buy" 900 100]) =
      demoBatch := rfl
  have hw2 : inWindow ⟨1000500, 0⟩ 500000
      (demoBatch ++ [demoTrade 10 "TSLA" "buy" 900 100]) = demoBatch := rfl
  obtain ⟨-, first, second, h1, h2, h3, -, -, h4, -, h5, -, h6, -⟩ :=
    GetUserExecutionStats_repeatable sampleService demoNow ⟨1000500, 0⟩ RangeOrder.insertion
      RangeOrder.reversed demoOldStatsStore 7 500000
      (demoBatch ++ [demoTrade 10 "TSLA" "buy" 900 100]) rfl (hw1.trans hw2.symm)
      (fun m => List.Perm.refl m) (fun m => List.reverse_perm m)
  exact ⟨rfl, hw1.trans hw2.symm, first, second, h1, h2, h3, h4, h5, h6⟩

/-! ## Portfolio position engine: quantities, costs and store mutations -/

/-- `AddOrUpdateHolding` when the portfolio and the holding are found, in
closed form. -/
theorem AddOrUpdateHolding_of_found {σ : Type} (repo : PortfolioRepository σ)
    (now : Time) (s : σ) (userID : UUID) (symbol : String) (quantity price : ℚ)
    (portfolio : Portfolio) (holding : PortfolioHolding)
    (hp : repo.GetPortfolioByUserID s userID = .ok portfolio)
    (hh : repo.GetHolding s portfolio.ID symbol = .ok holding) :
    AddOrUpdateHolding repo now s userID symbol quantity price =
      if holding.Quantity + quantity ≤ 0 then
        ⟨(repo.DeleteHolding s holding.ID).1,
          [.GetPortfolioByUserID userID, .GetHolding portfolio.ID symbol,
           .DeleteHolding holding.ID],
          (repo.DeleteHolding s holding.ID).2⟩
      else
        ⟨(repo.UpdateHolding s
            { holding with
              Quantity := holding.Quantity + quantity
              AverageCost := (holding.AverageCost * holding.Quantity + price * quantity) /
                (holding.Quantity + quantity)
              CurrentPrice := price
              LastUpdated := now }).1,
          [.GetPortfolioByUserID userID, .GetHolding portfolio.ID symbol,
           .UpdateHolding
            { holding with
              Quantity := holding.Quantity + quantity
              AverageCost := (holding.AverageCost * holding.Quantity + price * quantity) /
                (holding.Quantity + quantity)
              CurrentPrice := price
              LastUpdated := now }],
          (repo.UpdateHolding s
            { holding with
              Quantity := holding.Quantity + quantity
              AverageCost := (holding.AverageCost * holding.Quantity + price * quantity) /
                (holding.Quantity + quantity)
              CurrentPrice := price
              LastUpdated := now }).2⟩ := by
  simp only [AddOrUpdateHolding, hp, hh]

/-- `AddOrUpdateHolding` when the portfolio is found and the holding lookup
reports `ErrHoldingNotFound`, in closed form. -/
theorem AddOrUpdateHolding_of_absent {σ : Type} (repo : PortfolioRepository σ)
    (now : Time) (s : σ) (userID : UUID) (symbol : String) (quantity price : ℚ)
    (portfolio : Portfolio) (err : GoError)
    (hp : repo.GetPortfolioByUserID s userID = .ok portfolio)
    (hh : repo.GetHolding s portfolio.ID symbol = .error err)
    (he : errors.Is err .ErrHoldingNotFound = true) :
    AddOrUpdateHolding repo now s userID symbol quantity price =
      ⟨(repo.CreateHolding s
          { ID := uuid.Nil, PortfolioID := portfolio.ID, Symbol := symbol,
            Quantity := quantity, AverageCost := price, CurrentPrice := price,
            LastUpdated := now, CreatedAt := Time.zero, UpdatedAt := Time.zero }).1,
        [.GetPortfolioByUserID userID, .GetHolding portfolio.ID symbol,
         .CreateHolding
          { ID := uuid.Nil, PortfolioID := portfolio.ID, Symbol := symbol,
            Quantity := quantity, AverageCost := price, CurrentPrice := price,
            LastUpdated := now, CreatedAt := Time.zero, UpdatedAt := Time.zero }],
        (repo.CreateHolding s
          { ID := uuid.Nil, PortfolioID := portfolio.ID, Symbol := symbol,
            Quantity := quantity, AverageCost := price, CurrentPrice := price,
            LastUpdated := now, CreatedAt := Time.zero, UpdatedAt := Time.zero }).2⟩ := by
  simp only [AddOrUpdateHolding, hp, hh, he, if_true]

/-- C17 fails as stated: with 10 AAPL held, `AddOrUpdateHolding` with quantity
0 returns nil and calls `UpdateHolding`. -/
theorem AddOrUpdateHolding_zero_quantity_updates :
    (AddOrUpdateHolding portfolioRepository demoNow demoTables 7 "AAPL" 0 100).ret = none ∧
    (AddOrUpdateHolding portfolioRepository demoNow demoTables 7 "AAPL" 0 100).calls =
      [.GetPortfolioByUserID 7, .GetHolding 1 "AAPL",
       .UpdateHolding { demoHolding with CurrentPrice := 100, LastUpdated := demoNow }] ∧
    (AddOrUpdateHolding portfolioRepository demoNow demoTables 7 "AAPL" 0 100).store.holdings =
      [{ demoHolding with CurrentPrice := 100, LastUpdated := demoNow }] := by
  have hp : portfolioRepository.GetPortfolioByUserID demoTables 7 = .ok demoPortfolio := rfl
  have hh : portfolioRepository.GetHolding demoTables demoPortfolio.ID "AAPL" =
      .ok demoHolding := rfl
  rw [AddOrUpdateHolding_of_found portfolioRepository demoNow demoTables 7 "AAPL" 0 100
    demoPortfolio demoHolding hp hh]
  have hq : ¬ (demoHolding.Quantity + 0 ≤ 0) := by norm_num [demoHolding]
  have hrec : ({ demoHolding with
      Quantity := demoHolding.Quantity + 0
      AverageCost := (demoHolding.AverageCost * demoHolding.Quantity + 100 * 0) /
        (demoHolding.Quantity + 0)
      CurrentPrice := 100
      LastUpdated := demoNow } : PortfolioHolding) =
      { demoHolding with CurrentPrice := 100, LastUpdated := demoNow } := by
    norm_num [demoHolding]
  rw [if_neg hq, hrec]
  exact ⟨rfl, rfl, rfl⟩


/-- C17, amended: a quantity of exactly 0 is turned down by the binding of the
`AddHolding` handler, which answers 400 without calling the service, so that
no create, update or delete reaches the holdings store, whether or not a
holding exists; `AddOrUpdateHolding` itself does not check the quantity:
called with 0 on an existing holding of positive quantity it calls
`UpdateHolding` once, with the quantity `Quantity + 0`, the average cost
`(AverageCost * Quantity + price * 0) / (Quantity + 0)` it computes, the
current price set to the price and every other field of the holding as read,
and returns what that call returns. -/
theorem zero_quantity_rejected_by_handler :
    (∀ {σ : Type} (repo : PortfolioRepository σ) (now : Time) (s : σ)
        (req : addHoldingRequest) (userID : Option UUID),
        req.Quantity = 0 →
        (AddHolding repo now s (some req) userID).ret = http.StatusBadRequest ∧
          (AddHolding repo now s (some req) userID).calls = [] ∧
          (AddHolding repo now s (some req) userID).store = s) ∧
    (∀ {σ : Type} (repo : PortfolioRepository σ) (now : Time) (s : σ) (userID : UUID)
        (symbol : String) (price : ℚ) (portfolio : Portfolio) (holding : PortfolioHolding),
        repo.GetPortfolioByUserID s userID = .ok portfolio →
        repo.GetHolding s portfolio.ID symbol = .ok holding →
        holding.Quantity > 0 →
        (AddOrUpdateHolding repo now s userID symbol 0 price).calls =
            [.GetPortfolioByUserID userID, .GetHolding portfolio.ID symbol,
             .UpdateHolding
              { holding with
                Quantity := holding.Quantity + 0
                AverageCost := (holding.AverageCost * holding.Quantity + price * 0) /
                  (holding.Quantity + 0)
                CurrentPrice := price
                LastUpdated := now }] ∧
          (AddOrUpdateHolding repo now s userID symbol 0 price).ret =
            (repo.UpdateHolding s
              { holding with
                Quantity := holding.Quantity + 0
                AverageCost := (holding.AverageCost * holding.Quantity + price * 0) /
                  (holding.Quantity + 0)
                CurrentPrice := price
                LastUpdated := now }).2) := by
  constructor
  · intro σ repo now s req userID hzero
    have hb : req.bindingOK = false := by
      simp [addHoldingRequest.bindingOK, hzero]
    simp only [AddHolding, hb, if_true, and_self]
  · intro σ repo now s userID symbol price portfolio holding hp hh hq
    rw [AddOrUpdateHolding_of_found repo now s userID symbol 0 price portfolio holding hp hh]
    have hq' : ¬ (holding.Quantity + 0 ≤ 0) := by
      rw [add_zero]
      exact not_le.mpr hq
    rw [if_neg hq']
    exact ⟨rfl, rfl⟩

/-- Witness of C17, amended: the request AAPL, quantity 0, price 100 of user
`7` is answered with 400 and the tables are left as they were; the service
called with quantity 0 on the 10 AAPL held at 150 passes the quantity
`10 + 0` and the average cost `(150 * 10 + 100 * 0) / (10 + 0)` to the store. -/
theorem zero_quantity_rejected_by_handler_witness :
    (AddHolding portfolioRepository demoNow demoTables (some ⟨"AAPL", 0, 100⟩) (some 7)).ret =
      400 ∧
    (AddHolding portfolioRepository demoNow demoTables (some ⟨"AAPL", 0, 100⟩) (some 7)).calls =
      [] ∧
    (AddHolding portfolioRepository demoNow demoTables (some ⟨"AAPL", 0, 100⟩) (some 7)).store =
      demoTables ∧
    demoHolding.Quantity > 0 ∧
    (AddOrUpdateHolding portfolioRepository demoNow demoTables 7 "AAPL" 0 100).calls =
      [.GetPortfolioByUserID 7, .GetHolding 1 "AAPL",
       .UpdateHolding
        { demoHolding with
          Quantity := 10 + 0
          AverageCost := (150 * 10 + 100 * 0) / (10 + 0)
          CurrentPrice := 100
          LastUpdated := demoNow }] := by
  have h1 := zero_quantity_rejected_by_handler.1 portfolioRepository demoNow demoTables
    ⟨"AAPL", 0, 100⟩ (some 7) rfl
  have hq : demoHolding.Quantity > 0 := by norm_num [demoHolding]
  have h2 := zero_quantity_rejected_by_handler.2 portfolioRepository demoNow demoTables 7
    "AAPL" 100 demoPortfolio demoHolding rfl rfl hq
  exact ⟨h1.1, h1.2.1, h1.2.2, hq, h2.1⟩

/-- C18 at a failing input: with no AAPL holding stored, a sale of 5 at 100
makes `AddOrUpdateHolding` call `CreateHolding` with `Quantity` = -5; the call
returns nil and the holding is in the table. -/
theorem AddOrUpdateHolding_creates_negative_quantity :
    (AddOrUpdateHolding portfolioRepository demoNow demoTablesNoHolding 7 "AAPL"
        (-5) 100).calls =
      [.GetPortfolioByUserID 7, .GetHolding 1 "AAPL",
       .CreateHolding ⟨0, 1, "AAPL", -5, 100, 100, demoNow, Time.zero, Time.zero⟩] ∧
    (AddOrUpdateHolding portfolioRepository demoNow demoTablesNoHolding 7 "AAPL"
        (-5) 100).ret = none ∧
    (AddOrUpdateHolding portfolioRepository demoNow demoTablesNoHolding 7 "AAPL"
        (-5) 100).store.holdings =
      [⟨100, 1, "AAPL", -5, 100, 100, demoNow, Time.zero, Time.zero⟩] ∧
    ¬ ((-5 : ℚ) > 0) ∧
    (addHoldingRequest.bindingOK ⟨"AAPL", -5, 100⟩ = true) := by
  have hp : portfolioRepository.GetPortfolioByUserID demoTablesNoHolding 7 =
      .ok demoPortfolio := rfl
  have hh : portfolioRepository.GetHolding demoTablesNoHolding demoPortfolio.ID "AAPL" =
      .error .ErrHoldingNotFound := rfl
  rw [AddOrUpdateHolding_of_absent portfolioRepository demoNow demoTablesNoHolding 7 "AAPL"
    (-5) 100 demoPortfolio .ErrHoldingNotFound hp hh rfl]
  refine ⟨rfl, rfl, rfl, by norm_num, ?_⟩
  simp [addHoldingRequest.bindingOK]

/-- Whatever `AddOrUpdateHolding` hands to `UpdateHolding` has a positive
`Quantity`: the guard on the resulting quantity covers the update path. -/
theorem AddOrUpdateHolding_update_quantity_pos {σ : Type} (repo : PortfolioRepository σ)
    (now : Time) (s : σ) (userID : UUID) (symbol : String) (quantity price : ℚ)
    (h : PortfolioHolding)
    (hcall : PortfolioCall.UpdateHolding h ∈
      (AddOrUpdateHolding repo now s userID symbol quantity price).calls) :
    h.Quantity > 0 := by
  cases hp : repo.GetPortfolioByUserID s userID with
  | error err => simp [AddOrUpdateHolding, hp] at hcall
  | ok portfolio =>
    cases hh : repo.GetHolding s portfolio.ID symbol with
    | error err =>
      by_cases he : errors.Is err .ErrHoldingNotFound = true <;>
        simp [AddOrUpdateHolding, hp, hh, he] at hcall
    | ok holding =>
      rw [AddOrUpdateHolding_of_found repo now s userID symbol quantity price portfolio holding
        hp hh] at hcall
      by_cases hq : holding.Quantity + quantity ≤ 0
      · simp [hq] at hcall
      · simp only [hq, if_false, List.mem_cons, PortfolioCall.UpdateHolding.injEq,
          List.mem_singleton, List.not_mem_nil, or_false, false_or, reduceCtorEq] at hcall
        rw [hcall]
        exact not_le.mp hq

/-- C19 fails as stated: with 10 AAPL held at an average cost of 150, a sale
of 5 at 400 stores the holding with 5 AAPL at an average cost of -100. -/
theorem AddOrUpdateHolding_negative_average_cost :
    demoHolding.Quantity > 0 ∧ demoHolding.AverageCost ≥ 0 ∧ (400 : ℚ) > 0 ∧ (-5 : ℚ) ≠ 0 ∧
    (AddOrUpdateHolding portfolioRepository demoNow demoTables 7 "AAPL" (-5) 400).calls =
      [.GetPortfolioByUserID 7, .GetHolding 1 "AAPL",
       .UpdateHolding { demoHolding with Quantity := 5, AverageCost := -100,
                                         CurrentPrice := 400, LastUpdated := demoNow }] ∧
    (AddOrUpdateHolding portfolioRepository demoNow demoTables 7 "AAPL" (-5) 400).store.holdings =
      [{ demoHolding with Quantity := 5, AverageCost := -100, CurrentPrice := 400,
                          LastUpdated := demoNow }] ∧
    ¬ ((-100 : ℚ) ≥ 0) := by
  have hp : portfolioRepository.GetPortfolioByUserID demoTables 7 = .ok demoPortfolio := rfl
  have hh : portfolioRepository.GetHolding demoTables demoPortfolio.ID "AAPL" =
      .ok demoHolding := rfl
  rw [AddOrUpdateHolding_of_found portfolioRepository demoNow demoTables 7 "AAPL" (-5) 400
    demoPortfolio demoHolding hp hh]
  have hq : ¬ (demoHolding.Quantity + (-5) ≤ 0) := by norm_num [demoHolding]
  have hrec : ({ demoHolding with
      Quantity := demoHolding.Quantity + (-5)
      AverageCost := (demoHolding.AverageCost * demoHolding.Quantity + 400 * (-5)) /
        (demoHolding.Quantity + (-5))
      CurrentPrice := 400
      LastUpdated := demoNow } : PortfolioHolding) =
      { demoHolding with Quantity := 5, AverageCost := -100, CurrentPrice := 400,
                         LastUpdated := demoNow } := by
    norm_num [demoHolding]
  rw [if_neg hq, hrec]
  refine ⟨by norm_num [demoHolding], by norm_num [demoHolding], by norm_num, by norm_num,
    rfl, rfl, by norm_num⟩

/-- C19, amended: for an existing holding with `Quantity` > 0 and
`AverageCost` >= 0 and a trade at a price > 0, a holding that
`AddOrUpdateHolding` persists has `AverageCost` >= 0 exactly when
q0*c0 + q1*p >= 0; that is so for every buy (q1 > 0), and for a sale exactly
when the proceeds -q1*p do not exceed the cost basis q0*c0. -/
theorem AddOrUpdateHolding_average_cost_sign {σ : Type} (repo : PortfolioRepository σ)
    (now : Time) (s : σ) (userID : UUID) (symbol : String) (quantity price : ℚ)
    (portfolio : Portfolio) (holding : PortfolioHolding)
    (hp : repo.GetPortfolioByUserID s userID = .ok portfolio)
    (hh : repo.GetHolding s portfolio.ID symbol = .ok holding)
    (hq0 : holding.Quantity > 0) (hc0 : holding.AverageCost ≥ 0) (hprice : price > 0) :
    ∀ h : PortfolioHolding,
      (PortfolioCall.UpdateHolding h ∈
          (AddOrUpdateHolding repo now s userID symbol quantity price).calls ∨
        PortfolioCall.CreateHolding h ∈
          (AddOrUpdateHolding repo now s userID symbol quantity price).calls) →
      (h.AverageCost ≥ 0 ↔
        holding.Quantity * holding.AverageCost + quantity * price ≥ 0) ∧
      (quantity > 0 → h.AverageCost ≥ 0) := by
  intro h hcall
  rw [AddOrUpdateHolding_of_found repo now s userID symbol quantity price portfolio holding
    hp hh] at hcall
  by_cases hq : holding.Quantity + quantity ≤ 0
  · simp [hq] at hcall
  · simp only [hq, if_false, List.mem_cons, PortfolioCall.UpdateHolding.injEq,
      List.mem_singleton, List.not_mem_nil, or_false, false_or, reduceCtorEq] at hcall
    have hpos : 0 < holding.Quantity + quantity := not_le.mp hq
    have hcost : h.AverageCost =
        (holding.Quantity * holding.AverageCost + quantity * price) /
          (holding.Quantity + quantity) := by
      rw [hcall]
      simp only [mul_comm]
    constructor
    · rw [hcost, ge_iff_le, ge_iff_le, div_nonneg_iff]
      constructor
      · rintro (hge | hle)
        · exact hge.1
        · exact absurd hle.2 (not_le.mpr hpos)
      · intro hge
        exact Or.inl ⟨hge, le_of_lt hpos⟩
    · intro hbuy
      rw [hcost]
      apply div_nonneg _ (le_of_lt hpos)
      have h1 : 0 ≤ holding.Quantity * holding.AverageCost := mul_nonneg (le_of_lt hq0) hc0
      have h2 : 0 ≤ quantity * price := mul_nonneg (le_of_lt hbuy) (le_of_lt hprice)
      linarith

/-- Witness of C19, amended: a buy of 10 at 100 on 10 AAPL at 150 persists an
average cost of 125; a sale of 5 at 100 persists an average cost of 200. -/
theorem AddOrUpdateHolding_average_cost_sign_witness :
    demoHolding.Quantity > 0 ∧ demoHolding.AverageCost ≥ 0 ∧ (100 : ℚ) > 0 ∧
    (∀ h : PortfolioHolding,
      PortfolioCall.UpdateHolding h ∈
          (AddOrUpdateHolding portfolioRepository demoNow demoTables 7 "AAPL" 10 100).calls →
        h.AverageCost ≥ 0) ∧
    (∀ h : PortfolioHolding,
      PortfolioCall.UpdateHolding h ∈
          (AddOrUpdateHolding portfolioRepository demoNow demoTables 7 "AAPL" (-5) 100).calls →
        h.AverageCost ≥ 0) := by
  have hq0 : demoHolding.Quantity > 0 := by norm_num [demoHolding]
  have hc0 : demoHolding.AverageCost ≥ 0 := by norm_num [demoHolding]
  have hprice : (100 : ℚ) > 0 := by norm_num
  refine ⟨hq0, hc0, hprice, ?_, ?_⟩
  · intro h hcall
    exact (AddOrUpdateHolding_average_cost_sign portfolioRepository demoNow demoTables 7
      "AAPL" 10 100 demoPortfolio demoHolding rfl rfl hq0 hc0 hprice h (Or.inl hcall)).2
      (by norm_num)
  · intro h hcall
    exact (AddOrUpdateHolding_average_cost_sign portfolioRepository demoNow demoTables 7
      "AAPL" (-5) 100 demoPortfolio demoHolding rfl rfl hq0 hc0 hprice h (Or.inl hcall)).1.mpr
      (by norm_num [demoHolding])

/-- C20: when the portfolio lookup succeeds and the holding lookup finds a
holding or reports `ErrHoldingNotFound`, the calls of `AddOrUpdateHolding`
are the two lookups followed by one call that is a `CreateHolding`, an
`UpdateHolding` or a `DeleteHolding`, so exactly one call changes the holdings
store; when the portfolio lookup fails, the lookup is the only call, the
store is left as it was and the lookup error is returned. -/
theorem AddOrUpdateHolding_one_mutation {σ : Type} (repo : PortfolioRepository σ)
    (now : Time) (s : σ) (userID : UUID) (symbol : String) (quantity price : ℚ) :
    (∀ portfolio : Portfolio, repo.GetPortfolioByUserID s userID = .ok portfolio →
      ((∃ holding, repo.GetHolding s portfolio.ID symbol = .ok holding) ∨
        (∃ err, repo.GetHolding s portfolio.ID symbol = .error err ∧
          errors.Is err .ErrHoldingNotFound = true)) →
      (∃ c : PortfolioCall,
        (AddOrUpdateHolding repo now s userID symbol quantity price).calls =
          [.GetPortfolioByUserID userID, .GetHolding portfolio.ID symbol, c] ∧
        ((∃ h, c = .CreateHolding h) ∨ (∃ h, c = .UpdateHolding h) ∨
          (∃ id, c = .DeleteHolding id))) ∧
      ((AddOrUpdateHolding repo now s userID symbol quantity price).calls.filter
        PortfolioCall.isHoldingMutation).length = 1) ∧
    (∀ err : GoError, repo.GetPortfolioByUserID s userID = .error err →
      (AddOrUpdateHolding repo now s userID symbol quantity price).calls =
        [.GetPortfolioByUserID userID] ∧
      (AddOrUpdateHolding repo now s userID symbol quantity price).calls.filter
        PortfolioCall.isHoldingMutation = [] ∧
      (AddOrUpdateHolding repo now s userID symbol quantity price).store = s ∧
      (AddOrUpdateHolding repo now s userID symbol quantity price).ret = some err) := by
  constructor
  · intro portfolio hp hlookup
    rcases hlookup with ⟨holding, hh⟩ | ⟨err, hh, he⟩
    · rw [AddOrUpdateHolding_of_found repo now s userID symbol quantity price portfolio holding
        hp hh]
      by_cases hq : holding.Quantity + quantity ≤ 0
      · rw [if_pos hq]
        exact ⟨⟨_, rfl, Or.inr (Or.inr ⟨_, rfl⟩)⟩, rfl⟩
      · rw [if_neg hq]
        exact ⟨⟨_, rfl, Or.inr (Or.inl ⟨_, rfl⟩)⟩, rfl⟩
    · rw [AddOrUpdateHolding_of_absent repo now s userID symbol quantity price portfolio err
        hp hh he]
      exact ⟨⟨_, rfl, Or.inl ⟨_, rfl⟩⟩, rfl⟩
  · intro err hp
    have hcall : AddOrUpdateHolding repo now s userID symbol quantity price =
        ⟨s, [.GetPortfolioByUserID userID], some err⟩ := by
      simp only [AddOrUpdateHolding, hp]
    rw [hcall]
    exact ⟨rfl, rfl, rfl, rfl⟩

/-- Witness of C20: a buy of 10 AAPL at 100 on the sample tables makes one
`UpdateHolding` call; for user `8`, who has no portfolio, the lookup error
`ErrPortfolioNotFound` is returned and the tables are left as they were. -/
theorem AddOrUpdateHolding_one_mutation_witness :
    ((AddOrUpdateHolding portfolioRepository demoNow demoTables 7 "AAPL" 10 100).calls.filter
      PortfolioCall.isHoldingMutation).length = 1 ∧
    (AddOrUpdateHolding portfolioRepository demoNow demoTables 8 "AAPL" 10 100).calls =
      [.GetPortfolioByUserID 8] ∧
    (AddOrUpdateHolding portfolioRepository demoNow demoTables 8 "AAPL" 10 100).store =
      demoTables ∧
    (AddOrUpdateHolding portfolioRepository demoNow demoTables 8 "AAPL" 10 100).ret =
      some .ErrPortfolioNotFound := by
  have h1 := (AddOrUpdateHolding_one_mutation portfolioRepository demoNow demoTables 7
    "AAPL" 10 100).1 demoPortfolio rfl (Or.inl ⟨demoHolding, rfl⟩)
  have h2 := (AddOrUpdateHolding_one_mutation portfolioRepository demoNow demoTables 8
    "AAPL" 10 100).2 .ErrPortfolioNotFound rfl
  exact ⟨h1.2, h2.1, h2.2.2.1, h2.2.2.2⟩

/-! ## Portfolio position engine: the update in detail -/

/-- C21: when `AddOrUpdateHolding` updates an existing holding (resulting
quantity > 0), the holding handed to `UpdateHolding` has `CurrentPrice` equal
to the trade price, for a positive as for a negative trade quantity, and the
`ID`, `PortfolioID` and `Symbol` of the holding found. -/
theorem AddOrUpdateHolding_update_frame {σ : Type} (repo : PortfolioRepository σ)
    (now : Time) (s : σ) (userID : UUID) (symbol : String) (quantity price : ℚ)
    (portfolio : Portfolio) (holding : PortfolioHolding)
    (hp : repo.GetPortfolioByUserID s userID = .ok portfolio)
    (hh : repo.GetHolding s portfolio.ID symbol = .ok holding)
    (hq : holding.Quantity + quantity > 0) :
    ∃ updated : PortfolioHolding,
      (AddOrUpdateHolding repo now s userID symbol quantity price).calls =
        [.GetPortfolioByUserID userID, .GetHolding portfolio.ID symbol, .UpdateHolding updated] ∧
      updated.CurrentPrice = price ∧
      updated.ID = holding.ID ∧
      updated.PortfolioID = holding.PortfolioID ∧
      updated.Symbol = holding.Symbol ∧
      updated.LastUpdated = now ∧
      updated.CreatedAt = holding.CreatedAt ∧
      updated.UpdatedAt = holding.UpdatedAt := by
  rw [AddOrUpdateHolding_of_found repo now s userID symbol quantity price portfolio holding
    hp hh, if_neg (not_le.mpr hq)]
  exact ⟨_, rfl, rfl, rfl, rfl, rfl, rfl, rfl, rfl⟩

/-- Witness of C21: a sale of 5 of the 10 AAPL held, at 100, stores holding `3`
of portfolio `1` for AAPL with current price 100. -/
theorem AddOrUpdateHolding_update_frame_witness :
    demoHolding.Quantity + (-5) > 0 ∧
    ∃ updated : PortfolioHolding,
      (AddOrUpdateHolding portfolioRepository demoNow demoTables 7 "AAPL" (-5) 100).calls =
        [.GetPortfolioByUserID 7, .GetHolding 1 "AAPL", .UpdateHolding updated] ∧
      updated.CurrentPrice = 100 ∧ updated.ID = 3 ∧ updated.PortfolioID = 1 ∧
      updated.Symbol = "AAPL" := by
  have hq : demoHolding.Quantity + (-5) > 0 := by norm_num [demoHolding]
  obtain ⟨updated, hc, h1, h2, h3, h4, -⟩ :=
    AddOrUpdateHolding_update_frame portfolioRepository demoNow demoTables 7 "AAPL" (-5) 100
      demoPortfolio demoHolding rfl rfl hq
  exact ⟨hq, updated, hc, h1, h2, h3, h4⟩

/-- C28, amended: in exact arithmetic, for an existing holding with quantity
q0 > 0 and average cost c0 and a buy of q1 > 0 at price p1, the average cost
handed to `UpdateHolding` lies between min(c0, p1) and max(c0, p1). -/
theorem AddOrUpdateHolding_buy_cost_between {σ : Type} (repo : PortfolioRepository σ)
    (now : Time) (s : σ) (userID : UUID) (symbol : String) (quantity price : ℚ)
    (portfolio : Portfolio) (holding : PortfolioHolding)
    (hp : repo.GetPortfolioByUserID s userID = .ok portfolio)
    (hh : repo.GetHolding s portfolio.ID symbol = .ok holding)
    (hq0 : holding.Quantity > 0) (hq1 : quantity > 0) :
    ∃ updated : PortfolioHolding,
      (AddOrUpdateHolding repo now s userID symbol quantity price).calls =
        [.GetPortfolioByUserID userID, .GetHolding portfolio.ID symbol, .UpdateHolding updated] ∧
      min holding.AverageCost price ≤ updated.AverageCost ∧
      updated.AverageCost ≤ max holding.AverageCost price := by
  have hpos : 0 < holding.Quantity + quantity := by linarith
  rw [AddOrUpdateHolding_of_found repo now s userID symbol quantity price portfolio holding
    hp hh, if_neg (not_le.mpr hpos)]
  refine ⟨_, rfl, ?_, ?_⟩
  · show min holding.AverageCost price ≤
      (holding.AverageCost * holding.Quantity + price * quantity) /
        (holding.Quantity + quantity)
    rw [le_div_iff₀ hpos]
    have h1 : min holding.AverageCost price * holding.Quantity ≤
        holding.AverageCost * holding.Quantity :=
      mul_le_mul_of_nonneg_right (min_le_left _ _) (le_of_lt hq0)
    have h2 : min holding.AverageCost price * quantity ≤ price * quantity :=
      mul_le_mul_of_nonneg_right (min_le_right _ _) (le_of_lt hq1)
    linarith
  · show (holding.AverageCost * holding.Quantity + price * quantity) /
        (holding.Quantity + quantity) ≤ max holding.AverageCost price
    rw [div_le_iff₀ hpos]
    have h1 : holding.AverageCost * holding.Quantity ≤
        max holding.AverageCost price * holding.Quantity :=
      mul_le_mul_of_nonneg_right (le_max_left _ _) (le_of_lt hq0)
    have h2 : price * quantity ≤ max holding.AverageCost price * quantity :=
      mul_le_mul_of_nonneg_right (le_max_right _ _) (le_of_lt hq1)
    linarith

/-- Witness of C28: a buy of 10 at 100 on 10 AAPL at 150 stores an average
cost between 100 and 150. -/
theorem AddOrUpdateHolding_buy_cost_between_witness :
    demoHolding.Quantity > 0 ∧ (10 : ℚ) > 0 ∧
    ∃ updated : PortfolioHolding,
      (AddOrUpdateHolding portfolioRepository demoNow demoTables 7 "AAPL" 10 100).calls =
        [.GetPortfolioByUserID 7, .GetHolding 1 "AAPL", .UpdateHolding updated] ∧
      100 ≤ updated.AverageCost ∧ updated.AverageCost ≤ 150 := by
  have hq0 : demoHolding.Quantity > 0 := by norm_num [demoHolding]
  have hq1 : (10 : ℚ) > 0 := by norm_num
  obtain ⟨updated, hc, hlo, hhi⟩ :=
    AddOrUpdateHolding_buy_cost_between portfolioRepository demoNow demoTables 7 "AAPL" 10 100
      demoPortfolio demoHolding rfl rfl hq0 hq1
  have e1 : min demoHolding.AverageCost (100 : ℚ) = 100 := by norm_num [demoHolding]
  have e2 : max demoHolding.AverageCost (100 : ℚ) = 150 := by norm_num [demoHolding]
  rw [e1] at hlo
  rw [e2] at hhi
  exact ⟨hq0, hq1, updated, hc, hlo, hhi⟩

/-! ## Portfolio creation -/

/-- C23: `CreatePortfolio` returns `ErrPortfolioExists` with no call of the
store's `CreatePortfolio` when the lookup finds a portfolio of the user; when
the lookup reports `ErrPortfolioNotFound` it calls the store's
`CreatePortfolio` once, with a portfolio of the user whose `TotalValue` and
`CashBalance` are the initial balance, and returns that portfolio unless the
store fails; any other lookup error is returned and nothing is created. -/
theorem CreatePortfolio_cases {σ : Type} (repo : PortfolioRepository σ) (s : σ)
    (userID : UUID) (initialBalance : ℚ) :
    (∀ existing : Portfolio, repo.GetPortfolioByUserID s userID = .ok existing →
      (CreatePortfolio repo s userID initialBalance).ret = .error .ErrPortfolioExists ∧
      (CreatePortfolio repo s userID initialBalance).calls = [.GetPortfolioByUserID userID] ∧
      (CreatePortfolio repo s userID initialBalance).store = s) ∧
    (∀ err : GoError, repo.GetPortfolioByUserID s userID = .error err →
      errors.Is err .ErrPortfolioNotFound = true →
      ∃ portfolio : Portfolio,
        portfolio = { ID := uuid.Nil, UserID := userID, TotalValue := initialBalance,
                      CashBalance := initialBalance, CreatedAt := Time.zero,
                      UpdatedAt := Time.zero } ∧
        portfolio.UserID = userID ∧ portfolio.TotalValue = initialBalance ∧
        portfolio.CashBalance = initialBalance ∧
        (CreatePortfolio repo s userID initialBalance).calls =
          [.GetPortfolioByUserID userID, .CreatePortfolio portfolio] ∧
        (CreatePortfolio repo s userID initialBalance).store =
          (repo.CreatePortfolio s portfolio).1 ∧
        ((repo.CreatePortfolio s portfolio).2 = none →
          (CreatePortfolio repo s userID initialBalance).ret = .ok portfolio) ∧
        (∀ e : GoError, (repo.CreatePortfolio s portfolio).2 = some e →
          (CreatePortfolio repo s userID initialBalance).ret = .error e)) ∧
    (∀ err : GoError, repo.GetPortfolioByUserID s userID = .error err →
      errors.Is err .ErrPortfolioNotFound = false →
      (CreatePortfolio repo s userID initialBalance).ret = .error err ∧
      (CreatePortfolio repo s userID initialBalance).calls = [.GetPortfolioByUserID userID] ∧
      (CreatePortfolio repo s userID initialBalance).store = s) := by
  refine ⟨?_, ?_, ?_⟩
  · intro existing hp
    simp only [CreatePortfolio, hp, and_self]
  · intro err hp he
    refine ⟨{ ID := uuid.Nil, UserID := userID, TotalValue := initialBalance,
              CashBalance := initialBalance, CreatedAt := Time.zero, UpdatedAt := Time.zero },
      rfl, rfl, rfl, rfl, ?_⟩
    simp only [CreatePortfolio, hp, he, if_true]
    cases hres : repo.CreatePortfolio s
      { ID := uuid.Nil, UserID := userID, TotalValue := initialBalance,
        CashBalance := initialBalance, CreatedAt := Time.zero, UpdatedAt := Time.zero } with
    | mk s' r =>
      cases r with
      | none => simp
      | some e => simp
  · intro err hp he
    simp [CreatePortfolio, hp, he]

/-- Witness of C23: user `7` has a portfolio, so a second creation returns
`ErrPortfolioExists` and leaves the tables as they were; user `8` has none and
gets a portfolio with total value and cash balance 10000. -/
theorem CreatePortfolio_cases_witness :
    (CreatePortfolio portfolioRepository demoTables 7 500).ret = .error .ErrPortfolioExists ∧
    (CreatePortfolio portfolioRepository demoTables 7 500).calls = [.GetPortfolioByUserID 7] ∧
    (CreatePortfolio portfolioRepository demoTables 7 500).store = demoTables ∧
    ∃ portfolio : Portfolio,
      portfolio.UserID = 8 ∧ portfolio.TotalValue = 10000 ∧ portfolio.CashBalance = 10000 ∧
      (CreatePortfolio portfolioRepository demoTables 8 10000).calls =
        [.GetPortfolioByUserID 8, .CreatePortfolio portfolio] ∧
      (CreatePortfolio portfolioRepository demoTables 8 10000).ret = .ok portfolio := by
  have h1 := (CreatePortfolio_cases portfolioRepository demoTables 7 500).1 demoPortfolio rfl
  obtain ⟨portfolio, hdef, hu, ht, hc, hcalls, -, hok, -⟩ :=
    (CreatePortfolio_cases portfolioRepository demoTables 8 10000).2.1 .ErrPortfolioNotFound
      rfl rfl
  refine ⟨h1.1, h1.2.1, h1.2.2, portfolio, hu, ht, hc, hcalls, hok ?_⟩
  rw [hdef]
  rfl

/-! ## Successive trades over the in-memory tables -/

theorem portfolioRepository_GetHolding_fields {db : Tables} {portfolioID : UUID}
    {symbol : String} {holding : PortfolioHolding}
    (h : portfolioRepository.GetHolding db portfolioID symbol = .ok holding) :
    holding.PortfolioID = portfolioID ∧ holding.Symbol = symbol := by
  simp only [portfolioRepository] at h
  split at h
  · next hf =>
    cases h
    simpa using List.find?_some hf
  · cases h

theorem portfolioRepository_GetHolding_find {db : Tables} {portfolioID : UUID}
    {symbol : String} {holding : PortfolioHolding}
    (h : portfolioRepository.GetHolding db portfolioID symbol = .ok holding) :
    db.holdings.find? (fun x => decide (x.PortfolioID = portfolioID ∧ x.Symbol = symbol)) =
      some holding := by
  simp only [portfolioRepository] at h
  split at h
  · next hf =>
    cases h
    exact hf
  · cases h

theorem portfolioRepository_GetHolding_none {db : Tables} {portfolioID : UUID}
    {symbol : String} {err : GoError}
    (h : portfolioRepository.GetHolding db portfolioID symbol = .error err) :
    db.holdings.find? (fun x => decide (x.PortfolioID = portfolioID ∧ x.Symbol = symbol)) =
      none ∧ err = .ErrHoldingNotFound := by
  simp only [portfolioRepository] at h
  split at h
  · cases h
  · next hf =>
    cases h
    exact ⟨hf, rfl⟩

/-- Replacing the rows that carry the ID of the row a search finds by a row the
search accepts makes the search find the replacement. -/
theorem find?_map_replace (p : PortfolioHolding → Bool) (l : List PortfolioHolding)
    (h u : PortfolioHolding) (hfind : l.find? p = some h) (hu : p u = true)
    (hid : u.ID = h.ID) :
    (l.map (fun x => if x.ID = u.ID then u else x)).find? p = some u := by
  induction l with
  | nil => simp at hfind
  | cons x t ih =>
    by_cases hx : p x = true
    · have hxh : x = h := by
        simpa [List.find?_cons, hx] using hfind
      have : x.ID = u.ID := by rw [hxh, hid]
      simp [List.find?_cons, this, hu]
    · have hx' : p x = false := by simpa using hx
      have ht : t.find? p = some h := by
        simpa [List.find?_cons, hx'] using hfind
      by_cases hxid : x.ID = u.ID
      · simp [List.find?_cons, hxid, hu]
      · simp only [List.map_cons, hxid, if_false, List.find?_cons, hx']
        exact ih ht

theorem portfolioRepository_UpdateHolding_of_mem {db : Tables} {holding u : PortfolioHolding}
    (h : holding ∈ db.holdings) (hid : u.ID = holding.ID) :
    portfolioRepository.UpdateHolding db u =
      ({ db with holdings := db.holdings.map (fun x => if x.ID = u.ID then u else x) }, none) := by
  have hany : db.holdings.any (fun x => decide (x.ID = u.ID)) = true :=
    List.any_eq_true.mpr ⟨holding, h, by simp [hid]⟩
  simp only [portfolioRepository, hany, if_true]

/-- Over the tables, an update of the holding a lookup found succeeds, leaves
the portfolios alone, and the same lookup finds the updated holding. -/
theorem portfolioRepository_update_then_get {db : Tables} {portfolioID : UUID}
    {symbol : String} {holding u : PortfolioHolding}
    (hget : portfolioRepository.GetHolding db portfolioID symbol = .ok holding)
    (hid : u.ID = holding.ID) (hpid : u.PortfolioID = holding.PortfolioID)
    (hsym : u.Symbol = holding.Symbol) :
    (portfolioRepository.UpdateHolding db u).2 = none ∧
    (portfolioRepository.UpdateHolding db u).1.portfolios = db.portfolios ∧
    portfolioRepository.GetHolding (portfolioRepository.UpdateHolding db u).1 portfolioID
      symbol = .ok u := by
  have hmem := portfolioRepository_GetHolding_mem hget
  have hfields := portfolioRepository_GetHolding_fields hget
  have hfind := portfolioRepository_GetHolding_find hget
  rw [portfolioRepository_UpdateHolding_of_mem hmem hid]
  refine ⟨rfl, rfl, ?_⟩
  have hu : (fun x : PortfolioHolding =>
      decide (x.PortfolioID = portfolioID ∧ x.Symbol = symbol)) u = true := by
    simp [hpid, hsym, hfields.1, hfields.2]
  have := find?_map_replace _ db.holdings holding u hfind hu hid
  simp only [portfolioRepository, this]

/-- Over the tables, the portfolio lookup reads the portfolios only. -/
theorem portfolioRepository_GetPortfolio_congr {db db' : Tables}
    (h : db'.portfolios = db.portfolios) (userID : UUID) :
    portfolioRepository.GetPortfolioByUserID db' userID =
      portfolioRepository.GetPortfolioByUserID db userID := by
  simp only [portfolioRepository, h]

/-- Over the tables, creating a holding with the nil ID when the fresh ID is
not in use succeeds, leaves the portfolios alone, and a lookup that found
nothing before finds the new row. -/
theorem portfolioRepository_create_then_get {db : Tables} {portfolioID : UUID}
    {symbol : String} {err : GoError} {h : PortfolioHolding}
    (hget : portfolioRepository.GetHolding db portfolioID symbol = .error err)
    (hfresh : ∀ x ∈ db.holdings, x.ID ≠ db.fresh)
    (hnil : h.ID = uuid.Nil) (hpid : h.PortfolioID = portfolioID) (hsym : h.Symbol = symbol) :
    (portfolioRepository.CreateHolding db h).2 = none ∧
    (portfolioRepository.CreateHolding db h).1.portfolios = db.portfolios ∧
    portfolioRepository.GetHolding (portfolioRepository.CreateHolding db h).1 portfolioID
      symbol = .ok { h with ID := db.fresh } := by
  have hnone := (portfolioRepository_GetHolding_none hget).1
  have hany : db.holdings.any (fun x => decide (x.ID = db.fresh)) = false := by
    rw [List.any_eq_false]
    intro x hx
    simpa using hfresh x hx
  have hcreate : portfolioRepository.CreateHolding db h =
      ({ db with holdings := db.holdings ++ [{ h with ID := db.fresh }],
                 fresh := db.fresh + 1 }, none) := by
    simp only [portfolioRepository, hnil, if_true, hany]
    simp
  rw [hcreate]
  refine ⟨rfl, rfl, ?_⟩
  simp only [portfolioRepository, List.find?_append, hnone, Option.none_or]
  simp [hpid, hsym]

/-- One trade over the tables on a holding that is found and stays positive:
the call returns nil and the lookups then find the same portfolio and the
updated holding. -/
theorem tables_trade_update (now : Time) (db : Tables) (userID : UUID) (symbol : String)
    (quantity price : ℚ) (portfolio : Portfolio) (holding : PortfolioHolding)
    (hp : portfolioRepository.GetPortfolioByUserID db userID = .ok portfolio)
    (hh : portfolioRepository.GetHolding db portfolio.ID symbol = .ok holding)
    (hq : holding.Quantity + quantity > 0) :
    (AddOrUpdateHolding portfolioRepository now db userID symbol quantity price).ret = none ∧
    portfolioRepository.GetPortfolioByUserID
      (AddOrUpdateHolding portfolioRepository now db userID symbol quantity price).store
      userID = .ok portfolio ∧
    portfolioRepository.GetHolding
      (AddOrUpdateHolding portfolioRepository now db userID symbol quantity price).store
      portfolio.ID symbol =
      .ok { holding with
            Quantity := holding.Quantity + quantity
            AverageCost := (holding.AverageCost * holding.Quantity + price * quantity) /
              (holding.Quantity + quantity)
            CurrentPrice := price
            LastUpdated := now } := by
  rw [AddOrUpdateHolding_of_found portfolioRepository now db userID symbol quantity price
    portfolio holding hp hh, if_neg (not_le.mpr hq)]
  obtain ⟨h1, h2, h3⟩ := portfolioRepository_update_then_get
    (u := { holding with
            Quantity := holding.Quantity + quantity
            AverageCost := (holding.AverageCost * holding.Quantity + price * quantity) /
              (holding.Quantity + quantity)
            CurrentPrice := price
            LastUpdated := now }) hh rfl rfl rfl
  refine ⟨h1, ?_, h3⟩
  rw [← hp]
  exact portfolioRepository_GetPortfolio_congr h2 userID

/-- One trade over the tables when no holding is found and the fresh ID is not
in use: the call returns nil and the lookups then find the same portfolio and
the new holding. -/
theorem tables_trade_create (now : Time) (db : Tables) (userID : UUID) (symbol : String)
    (quantity price : ℚ) (portfolio : Portfolio) (err : GoError)
    (hp : portfolioRepository.GetPortfolioByUserID db userID = .ok portfolio)
    (hh : portfolioRepository.GetHolding db portfolio.ID symbol = .error err)
    (hfresh : ∀ x ∈ db.holdings, x.ID ≠ db.fresh) :
    (AddOrUpdateHolding portfolioRepository now db userID symbol quantity price).ret = none ∧
    portfolioRepository.GetPortfolioByUserID
      (AddOrUpdateHolding portfolioRepository now db userID symbol quantity price).store
      userID = .ok portfolio ∧
    portfolioRepository.GetHolding
      (AddOrUpdateHolding portfolioRepository now db userID symbol quantity price).store
      portfolio.ID symbol =
      .ok { ID := db.fresh, PortfolioID := portfolio.ID, Symbol := symbol,
            Quantity := quantity, AverageCost := price, CurrentPrice := price,
            LastUpdated := now, CreatedAt := Time.zero, UpdatedAt := Time.zero } := by
  have he : errors.Is err .ErrHoldingNotFound = true := by
    rw [(portfolioRepository_GetHolding_none hh).2]
    rfl
  rw [AddOrUpdateHolding_of_absent portfolioRepository now db userID symbol quantity price
    portfolio err hp hh he]
  obtain ⟨h1, h2, h3⟩ := portfolioRepository_create_then_get
    (h := { ID := uuid.Nil, PortfolioID := portfolio.ID, Symbol := symbol,
            Quantity := quantity, AverageCost := price, CurrentPrice := price,
            LastUpdated := now, CreatedAt := Time.zero, UpdatedAt := Time.zero })
    hh hfresh rfl rfl rfl
  refine ⟨h1, ?_, h3⟩
  rw [← hp]
  exact portfolioRepository_GetPortfolio_congr h2 userID

theorem applyTrades_two {σ : Type} (repo : PortfolioRepository σ) (userID : UUID)
    (symbol : String) (s : σ) (t1 t2 : Time) (q1 p1 q2 p2 : ℚ) :
    applyTrades repo userID symbol s [(t1, q1, p1), (t2, q2, p2)] =
      ((AddOrUpdateHolding repo t2
          (AddOrUpdateHolding repo t1 s userID symbol q1 p1).store userID symbol q2 p2).store,
        [(AddOrUpdateHolding repo t1 s userID symbol q1 p1).ret,
         (AddOrUpdateHolding repo t2
          (AddOrUpdateHolding repo t1 s userID symbol q1 p1).store userID symbol q2 p2).ret]) := by
  rfl

/-- C22, amended: over the in-memory tables and in exact arithmetic, applying
the trade (q1, p1) twice to a holding (q0, c0) with q0 + q1 > 0 and q0 + 2*q1 > 0 returns nil both times and
leaves the holding with quantity q0 + 2*q1 and average cost
(q0*c0 + 2*q1*p1)/(q0 + 2*q1), which for q1 other than 0 is not the quantity
q0 + q1 one application leaves; starting from no holding, two buys (q, p) with
q > 0 leave quantity 2q at average cost p. -/
theorem AddOrUpdateHolding_twice_compounds :
    (∀ (t1 t2 : Time) (db : Tables) (userID : UUID) (symbol : String) (q1 p1 : ℚ)
        (portfolio : Portfolio) (holding : PortfolioHolding),
        portfolioRepository.GetPortfolioByUserID db userID = .ok portfolio →
        portfolioRepository.GetHolding db portfolio.ID symbol = .ok holding →
        holding.Quantity + q1 > 0 → holding.Quantity + 2 * q1 > 0 →
        (applyTrades portfolioRepository userID symbol db [(t1, q1, p1), (t2, q1, p1)]).2 =
            [none, none] ∧
          ∃ final : PortfolioHolding,
            portfolioRepository.GetHolding
              (applyTrades portfolioRepository userID symbol db
                [(t1, q1, p1), (t2, q1, p1)]).1 portfolio.ID symbol = .ok final ∧
            final.Quantity = holding.Quantity + 2 * q1 ∧
            final.AverageCost =
              (holding.Quantity * holding.AverageCost + 2 * q1 * p1) /
                (holding.Quantity + 2 * q1) ∧
            (q1 ≠ 0 → final.Quantity ≠ holding.Quantity + q1)) ∧
    (∀ (t1 t2 : Time) (db : Tables) (userID : UUID) (symbol : String) (q p : ℚ)
        (portfolio : Portfolio) (err : GoError),
        portfolioRepository.GetPortfolioByUserID db userID = .ok portfolio →
        portfolioRepository.GetHolding db portfolio.ID symbol = .error err →
        (∀ x ∈ db.holdings, x.ID ≠ db.fresh) →
        q > 0 →
        (applyTrades portfolioRepository userID symbol db [(t1, q, p), (t2, q, p)]).2 =
            [none, none] ∧
          ∃ final : PortfolioHolding,
            portfolioRepository.GetHolding
              (applyTrades portfolioRepository userID symbol db
                [(t1, q, p), (t2, q, p)]).1 portfolio.ID symbol = .ok final ∧
            final.Quantity = 2 * q ∧ final.AverageCost = p) := by
  constructor
  · intro t1 t2 db userID symbol q1 p1 portfolio holding hp hh h1 h2
    obtain ⟨r1, hp1, hh1⟩ := tables_trade_update t1 db userID symbol q1 p1 portfolio holding
      hp hh h1
    have h2' : holding.Quantity + q1 + q1 > 0 := by linarith
    obtain ⟨r2, -, hh2⟩ := tables_trade_update t2 _ userID symbol q1 p1 portfolio _
      hp1 hh1 h2'
    rw [applyTrades_two]
    refine ⟨by rw [r1, r2], _, hh2, ?_, ?_, ?_⟩
    · show holding.Quantity + q1 + q1 = holding.Quantity + 2 * q1
      ring
    · show ((holding.AverageCost * holding.Quantity + p1 * q1) / (holding.Quantity + q1) *
          (holding.Quantity + q1) + p1 * q1) / (holding.Quantity + q1 + q1) =
        (holding.Quantity * holding.AverageCost + 2 * q1 * p1) / (holding.Quantity + 2 * q1)
      have hne : holding.Quantity + q1 ≠ 0 := ne_of_gt h1
      rw [div_mul_cancel₀ _ hne]
      congr 1 <;> ring
    · intro hq1
      show holding.Quantity + q1 + q1 ≠ holding.Quantity + q1
      intro heq
      apply hq1
      linarith
  · intro t1 t2 db userID symbol q p portfolio err hp hh hfresh hq
    obtain ⟨r1, hp1, hh1⟩ := tables_trade_create t1 db userID symbol q p portfolio err
      hp hh hfresh
    have h2' : q + q > 0 := by linarith
    obtain ⟨r2, -, hh2⟩ := tables_trade_update t2 _ userID symbol q p portfolio _
      hp1 hh1 h2'
    rw [applyTrades_two]
    refine ⟨by rw [r1, r2], _, hh2, ?_, ?_⟩
    · show q + q = 2 * q
      ring
    · show (p * q + p * q) / (q + q) = p
      have hne : q + q ≠ 0 := ne_of_gt h2'
      rw [div_eq_iff hne]
      ring


/-- Witness of C22: two buys of 10 at 100 on 10 AAPL at 150 leave 30 AAPL at
an average cost of 350/3; with no holding stored, two buys of 10 at 150 leave
20 AAPL at an average cost of 150. -/
theorem AddOrUpdateHolding_twice_compounds_witness :
    (demoHolding.Quantity + 10 > 0 ∧ demoHolding.Quantity + 2 * 10 > 0) ∧
    (∃ final : PortfolioHolding,
      portfolioRepository.GetHolding
        (applyTrades portfolioRepository 7 "AAPL" demoTables
          [(demoNow, 10, 100), (demoNow, 10, 100)]).1 1 "AAPL" = .ok final ∧
      final.Quantity = 30 ∧ final.AverageCost = 350 / 3) ∧
    (∃ final : PortfolioHolding,
      portfolioRepository.GetHolding
        (applyTrades portfolioRepository 7 "AAPL" demoTablesNoHolding
          [(demoNow, 10, 150), (demoNow, 10, 150)]).1 1 "AAPL" = .ok final ∧
      final.Quantity = 20 ∧ final.AverageCost = 150) := by
  have h1 : demoHolding.Quantity + 10 > 0 := by norm_num [demoHolding]
  have h2 : demoHolding.Quantity + 2 * 10 > 0 := by norm_num [demoHolding]
  obtain ⟨-, final, hget, hQ, hA, -⟩ :=
    AddOrUpdateHolding_twice_compounds.1 demoNow demoNow demoTables 7 "AAPL" 10 100
      demoPortfolio demoHolding rfl rfl h1 h2
  obtain ⟨-, final', hget', hQ', hA'⟩ :=
    AddOrUpdateHolding_twice_compounds.2 demoNow demoNow demoTablesNoHolding 7 "AAPL" 10 150
      demoPortfolio .ErrHoldingNotFound rfl rfl (by intro x hx; cases hx) (by norm_num)
  refine ⟨⟨h1, h2⟩, ⟨final, hget, ?_, ?_⟩, ⟨final', hget', ?_, hA'⟩⟩
  · rw [hQ]; norm_num [demoHolding]
  · rw [hA]; norm_num [demoHolding]
  · rw [hQ']; norm_num

/-- C29: over the in-memory tables, a buy (q, p) with q > 0 followed by the
sale (-q, p) on a holding (q0 > 0, c0) returns nil both times and leaves the
holding with quantity q0 and average cost c0; its current price is p, its
last-updated time the time of the second call, and every other field is as
before. -/
theorem AddOrUpdateHolding_buy_then_sell (t1 t2 : Time) (db : Tables) (userID : UUID)
    (symbol : String) (q p : ℚ) (portfolio : Portfolio) (holding : PortfolioHolding)
    (hp : portfolioRepository.GetPortfolioByUserID db userID = .ok portfolio)
    (hh : portfolioRepository.GetHolding db portfolio.ID symbol = .ok holding)
    (hq0 : holding.Quantity > 0) (hq : q > 0) :
    (applyTrades portfolioRepository userID symbol db [(t1, q, p), (t2, -q, p)]).2 =
      [none, none] ∧
    ∃ final : PortfolioHolding,
      portfolioRepository.GetHolding
        (applyTrades portfolioRepository userID symbol db [(t1, q, p), (t2, -q, p)]).1
        portfolio.ID symbol = .ok final ∧
      final.Quantity = holding.Quantity ∧
      final.AverageCost = holding.AverageCost ∧
      final.CurrentPrice = p ∧
      final.LastUpdated = t2 ∧
      final.ID = holding.ID ∧ final.PortfolioID = holding.PortfolioID ∧
      final.Symbol = holding.Symbol ∧ final.CreatedAt = holding.CreatedAt ∧
      final.UpdatedAt = holding.UpdatedAt := by
  have h1 : holding.Quantity + q > 0 := by linarith
  obtain ⟨r1, hp1, hh1⟩ := tables_trade_update t1 db userID symbol q p portfolio holding
    hp hh h1
  have h2 : holding.Quantity + q + -q > 0 := by linarith
  obtain ⟨r2, -, hh2⟩ := tables_trade_update t2 _ userID symbol (-q) p portfolio _
    hp1 hh1 h2
  rw [applyTrades_two]
  refine ⟨by rw [r1, r2], _, hh2, ?_, ?_, rfl, rfl, rfl, rfl, rfl, rfl, rfl⟩
  · show holding.Quantity + q + -q = holding.Quantity
    ring
  · show ((holding.AverageCost * holding.Quantity + p * q) / (holding.Quantity + q) *
        (holding.Quantity + q) + p * -q) / (holding.Quantity + q + -q) = holding.AverageCost
    have hne : holding.Quantity + q ≠ 0 := ne_of_gt h1
    have hne0 : holding.Quantity ≠ 0 := ne_of_gt hq0
    rw [div_mul_cancel₀ _ hne]
    have e1 : holding.Quantity + q + -q = holding.Quantity := by ring
    rw [e1, div_eq_iff hne0]
    ring

/-- Witness of C29: a buy of 5 at 400 and the sale of 5 at 400 leave the 10
AAPL at their average cost of 150, with current price 400. -/
theorem AddOrUpdateHolding_buy_then_sell_witness :
    demoHolding.Quantity > 0 ∧ (5 : ℚ) > 0 ∧
    ∃ final : PortfolioHolding,
      portfolioRepository.GetHolding
        (applyTrades portfolioRepository 7 "AAPL" demoTables
          [(demoNow, 5, 400), (demoNow, -5, 400)]).1 1 "AAPL" = .ok final ∧
      final.Quantity = 10 ∧ final.AverageCost = 150 ∧ final.CurrentPrice = 400 := by
  have hq0 : demoHolding.Quantity > 0 := by norm_num [demoHolding]
  have hq : (5 : ℚ) > 0 := by norm_num
  obtain ⟨-, final, hget, hQ, hA, hP, -⟩ :=
    AddOrUpdateHolding_buy_then_sell demoNow demoNow demoTables 7 "AAPL" 5 400
      demoPortfolio demoHolding rfl rfl hq0 hq
  exact ⟨hq0, hq, final, hget, hQ, hA, hP⟩

/-! ## Execution accounting engine: per-symbol statistics and the totals -/

/-- Over a duplicate-free list of keys that holds `a`, the values attached to
`a` alone add up to that value. -/
theorem sum_map_ite_eq_of_nodup {M : Type} [AddCommMonoid M] (ks : List String) (a : String)
    (v : M) (hk : ks.Nodup) (ha : a ∈ ks) :
    (ks.map (fun k => if a = k then v else 0)).sum = v := by
  induction ks with
  | nil => simp at ha
  | cons k t ih =>
    rw [List.nodup_cons] at hk
    by_cases hak : a = k
    · subst hak
      have hzero : ∀ x ∈ t, (if a = x then v else 0) = 0 := by
        intro x hx
        have : a ≠ x := fun e => hk.1 (e ▸ hx)
        simp [this]
      have ht : (t.map (fun k => if a = k then v else 0)).sum = 0 := by
        rw [List.map_congr_left hzero]
        simp
      simp [ht]
    · have hat : a ∈ t := by
        rcases List.mem_cons.mp ha with h | h
        · exact absurd h hak
        · exact h
      simp [hak, ih hk.2 hat]

/-- The per-symbol counts of the executions that satisfy `P`, over a
duplicate-free list of keys that holds every symbol, add up to the number of
executions that satisfy `P`. -/
theorem sum_countP_by_symbol (w : List Execution) (ks : List String) (P : Execution → Bool)
    (hk : ks.Nodup) (hall : ∀ e ∈ w, e.Symbol ∈ ks) :
    (ks.map (fun k => w.countP (fun e => decide (e.Symbol = k) && P e))).sum = w.countP P := by
  induction w with
  | nil => simp
  | cons e t ih =>
    have hstep : ∀ k, (e :: t).countP (fun e => decide (e.Symbol = k) && P e) =
        t.countP (fun e => decide (e.Symbol = k) && P e) +
          (if e.Symbol = k then (if P e = true then 1 else 0) else 0) := by
      intro k
      by_cases hek : e.Symbol = k <;> by_cases hp : P e = true <;>
        simp [List.countP_cons, hek, hp]
    simp only [hstep, List.sum_map_add]
    rw [ih (fun x hx => hall x (List.mem_cons_of_mem _ hx)),
      sum_map_ite_eq_of_nodup ks e.Symbol _ hk (hall e (List.mem_cons_self _ _))]
    by_cases hp : P e = true <;> simp [List.countP_cons, hp]

/-- The per-symbol volumes, over a duplicate-free list of keys that holds
every symbol, add up to the total volume. -/
theorem sum_volume_by_symbol (w : List Execution) (ks : List String)
    (hk : ks.Nodup) (hall : ∀ e ∈ w, e.Symbol ∈ ks) :
    (ks.map (fun k =>
      ((w.filter (fun e => decide (e.Symbol = k))).map (fun e => e.TotalAmount)).sum)).sum =
      (w.map (fun e => e.TotalAmount)).sum := by
  induction w with
  | nil => simp
  | cons e t ih =>
    have hstep : ∀ k,
        (((e :: t).filter (fun e => decide (e.Symbol = k))).map (fun e => e.TotalAmount)).sum =
        ((t.filter (fun e => decide (e.Symbol = k))).map (fun e => e.TotalAmount)).sum +
          (if e.Symbol = k then e.TotalAmount else 0) := by
      intro k
      by_cases hek : e.Symbol = k
      · simp [List.filter_cons, hek, add_comm]
      · simp [List.filter_cons, hek]
    simp only [hstep, List.sum_map_add]
    rw [ih (fun x hx => hall x (List.mem_cons_of_mem _ hx)),
      sum_map_ite_eq_of_nodup ks e.Symbol _ hk (hall e (List.mem_cons_self _ _))]
    simp [add_comm]

/-- The buys and the sells of a symbol are among its executions. -/
theorem symbolStatOf_buy_sell_le (w : List Execution) (sym : String) :
    (symbolStatOf w sym).BuyCount + (symbolStatOf w sym).SellCount ≤
      (symbolStatOf w sym).Count := by
  simp only [symbolStatOf]
  induction w with
  | nil => simp
  | cons e t ih =>
    cases hs : decide (e.Symbol = sym)
    · simp only [List.countP_cons, hs, Bool.false_and]
      simpa using ih
    · cases hb : decide (e.ExecutionType = "buy")
      · cases hsell : decide (e.ExecutionType = "sell")
        · simp only [List.countP_cons, hs, hb, hsell, Bool.and_false, Bool.and_self]
          simp only [Bool.false_eq_true, if_false, if_true]
          omega
        · simp only [List.countP_cons, hs, hb, hsell, Bool.and_false, Bool.and_self]
          simp only [Bool.false_eq_true, if_false, if_true]
          omega
      · have hb' : e.ExecutionType = "buy" := of_decide_eq_true hb
        have hsell : decide (e.ExecutionType = "sell") = false := by
          rw [hb']
          decide
        simp only [List.countP_cons, hs, hb, hsell, Bool.and_false, Bool.and_self]
        simp only [Bool.false_eq_true, if_false, if_true]
        omega

/-- When the range over the map `symbolStats` visits each entry once, the
slice that is sorted holds, for a duplicate-free list of exactly the in-window
symbols, the statistics of each symbol counted directly. -/
theorem GetUserExecutionStats_top_entries {σ : Type} (svc : executionService σ)
    (now : Time) (order : RangeOrder) (s : σ) (userID : UUID) (timeRange : Duration)
    (executions : List Execution)
    (hget : svc.executionRepo.GetByUserID s userID 1000 0 = .ok executions)
    (hrange : ∀ m : GoMap String SymbolStat, (order.symbolStats m).Perm m) :
    ∃ (stats : ExecutionStats) (ks : List String) (top : List SymbolStat),
      GetUserExecutionStats svc now order s userID timeRange =
        ⟨s, [.GetByUserID userID 1000 0], .ok stats⟩ ∧
      ks.Nodup ∧
      (∀ k, k ∈ ks ↔ k ∈ (inWindow now timeRange executions).map (fun e => e.Symbol)) ∧
      stats.TopSymbols = top.take 5 ∧
      top.Perm (ks.map (symbolStatOf (inWindow now timeRange executions))) := by
  obtain ⟨stats, hret, htop, -⟩ :=
    GetUserExecutionStats_ok_lists svc now order s userID timeRange executions hget
  generalize hm : (executions.foldl (statsStep (startTime now timeRange))
    StatsLoop.init).symbolStats = m at htop
  have hw : inWindow now timeRange executions =
      executions.filter (fun e => e.ExecutionTime.After (startTime now timeRange)) := rfl
  have hnodup : (GoMap.keys m).Nodup := by
    rw [← hm]
    exact statsLoop_symbolStats_nodup _ _ _ List.nodup_nil
  have hkeys : ∀ sym, sym ∈ GoMap.keys m ↔
      sym ∈ (inWindow now timeRange executions).map (fun e => e.Symbol) := by
    intro sym
    rw [← hm, hw]
    exact statsLoop_symbolStats_mem_keys _ _ sym
  have hentry : ∀ p ∈ m, p.2 = symbolStatOf (inWindow now timeRange executions) p.1 := by
    intro p hp
    rw [← hm] at hp
    exact statsLoop_symbolStats_entry _ _ p.1 p.2 hp
  have hperm := hrange m
  have hvals : (order.symbolStats m).map Prod.snd =
      ((order.symbolStats m).map Prod.fst).map
        (symbolStatOf (inWindow now timeRange executions)) := by
    rw [List.map_map]
    apply List.map_congr_left
    intro p hp
    exact hentry p (hperm.subset hp)
  have hkperm : ((order.symbolStats m).map Prod.fst).Perm (GoMap.keys m) := hperm.map Prod.fst
  refine ⟨stats, (order.symbolStats m).map Prod.fst,
    bubbleSort ((order.symbolStats m).map Prod.snd), hret, hkperm.nodup_iff.mpr hnodup, ?_,
    htop, ?_⟩
  · intro k
    rw [hkperm.mem_iff]
    exact hkeys k
  · rw [← hvals]
    exact bubbleSort_perm _

/-- C30, amended: when the range over the map `symbolStats` visits each entry
once, every `TopSymbols` entry has a `Count` equal to the `SymbolBreakdown` of
its symbol and at least its `BuyCount` plus its `SellCount`; and when at most
5 distinct symbols are in the window, the `Count`, `BuyCount` and `SellCount`
of the entries add up to `TotalExecutions`, `BuyCount` and `SellCount` of the
result, and in exact arithmetic their `Volume` adds up to `TotalVolume`. -/
theorem GetUserExecutionStats_partition {σ : Type} (svc : executionService σ)
    (now : Time) (order : RangeOrder) (s : σ) (userID : UUID) (timeRange : Duration)
    (executions : List Execution)
    (hget : svc.executionRepo.GetByUserID s userID 1000 0 = .ok executions)
    (hrange : ∀ m : GoMap String SymbolStat, (order.symbolStats m).Perm m) :
    ∃ stats : ExecutionStats,
      (GetUserExecutionStats svc now order s userID timeRange).ret = .ok stats ∧
      (∀ t ∈ stats.TopSymbols,
        t.Count = GoMap.getD stats.SymbolBreakdown t.Symbol 0 ∧
        t.Count ≥ t.BuyCount + t.SellCount) ∧
      (((inWindow now timeRange executions).map (fun e => e.Symbol)).dedup.length ≤ 5 →
        (stats.TopSymbols.map (fun t => t.Count)).sum = stats.TotalExecutions ∧
        (stats.TopSymbols.map (fun t => t.Volume)).sum = stats.TotalVolume ∧
        (stats.TopSymbols.map (fun t => t.BuyCount)).sum = stats.BuyCount ∧
        (stats.TopSymbols.map (fun t => t.SellCount)).sum = stats.SellCount) := by
  obtain ⟨stats, ks, top, hret, hnodup, hks, htop, hperm⟩ :=
    GetUserExecutionStats_top_entries svc now order s userID timeRange executions hget hrange
  obtain ⟨stats', hret', htotal, hbuy, hsell, hvol, hsb, -, -⟩ :=
    GetUserExecutionStats_ok svc now order s userID timeRange executions hget
  have hsame : stats' = stats := Outcome_ok_inj hret' hret
  rw [hsame] at htotal hbuy hsell hvol hsb
  have hw : inWindow now timeRange executions =
      executions.filter (fun e => e.ExecutionTime.After (startTime now timeRange)) := rfl
  refine ⟨stats, by rw [hret], ?_, ?_⟩
  · intro t ht
    rw [htop] at ht
    obtain ⟨k, -, rfl⟩ := List.mem_map.mp (hperm.subset (List.mem_of_mem_take ht))
    refine ⟨?_, symbolStatOf_buy_sell_le _ k⟩
    rw [hsb, statsLoop_SymbolBreakdown]
    simp [symbolStatOf, StatsLoop.init, GoMap.getD, GoMap.get?, hw]
  · intro hfive
    have hall : ∀ e ∈ inWindow now timeRange executions, e.Symbol ∈ ks := by
      intro e he
      exact (hks e.Symbol).mpr (List.mem_map.mpr ⟨e, he, rfl⟩)
    have hlen : top.length ≤ 5 := by
      have h1 : ks.Perm ((inWindow now timeRange executions).map (fun e => e.Symbol)).dedup := by
        rw [List.perm_ext_iff_of_nodup hnodup (List.nodup_dedup _)]
        intro a
        rw [hks a, List.mem_dedup]
      rw [hperm.length_eq, List.length_map, h1.length_eq]
      exact hfive
    have hall_top : stats.TopSymbols = top := by
      rw [htop]
      exact List.take_of_length_le hlen
    have hsum : ∀ {M : Type} [AddCommMonoid M] (f : SymbolStat → M),
        (stats.TopSymbols.map f).sum =
          (ks.map (fun k => f (symbolStatOf (inWindow now timeRange executions) k))).sum := by
      intro M _ f
      rw [hall_top, (hperm.map f).sum_eq, List.map_map]
      rfl
    refine ⟨?_, ?_, ?_, ?_⟩
    · rw [hsum, htotal]
      have := sum_countP_by_symbol (inWindow now timeRange executions) ks (fun _ => true)
        hnodup hall
      simpa [symbolStatOf] using this
    · rw [hsum, hvol, statsLoop_TotalVolume]
      have := sum_volume_by_symbol (inWindow now timeRange executions) ks hnodup hall
      simpa [symbolStatOf, StatsLoop.init, hw] using this
    · rw [hsum, hbuy, statsLoop_BuyCount]
      have := sum_countP_by_symbol (inWindow now timeRange executions) ks
        (fun e => decide (e.ExecutionType = "buy")) hnodup hall
      simpa [symbolStatOf, StatsLoop.init, hw] using this
    · rw [hsum, hsell, statsLoop_SellCount]
      have := sum_countP_by_symbol (inWindow now timeRange executions) ks
        (fun e => decide (e.ExecutionType = "sell")) hnodup hall
      simpa [symbolStatOf, StatsLoop.init, hw] using this


/-- Witness of C30: in `demoBatch` two symbols are in the window; the entries
for AAPL and MSFT have counts that add up to the 6 executions, and buys and
sells that add up to 5 and 1. -/
theorem GetUserExecutionStats_partition_witness :
    sampleService.executionRepo.GetByUserID demoOldStatsStore 7 1000 0 =
      .ok (demoBatch ++ [demoTrade 10 "TSLA" "buy" 900 100]) ∧
    (∀ m : GoMap String SymbolStat, (RangeOrder.reversed.symbolStats m).Perm m) ∧
    ((inWindow demoNow 500000 (demoBatch ++ [demoTrade 10 "TSLA" "buy" 900 100])).map
      (fun e => e.Symbol)).dedup.length ≤ 5 ∧
    ∃ stats : ExecutionStats,
      (GetUserExecutionStats sampleService demoNow RangeOrder.reversed demoOldStatsStore 7
        500000).ret = .ok stats ∧
      (stats.TopSymbols.map (fun t => t.Count)).sum = stats.TotalExecutions ∧
      (stats.TopSymbols.map (fun t => t.Volume)).sum = stats.TotalVolume ∧
      (stats.TopSymbols.map (fun t => t.BuyCount)).sum = stats.BuyCount ∧
      (stats.TopSymbols.map (fun t => t.SellCount)).sum = stats.SellCount ∧
      stats.TopSymbols.map (fun t => (t.Symbol, t.Count, t.BuyCount, t.SellCount)) =
        [("AAPL", 4, 3, 1), ("MSFT", 2, 2, 0)] := by
  have hrange : ∀ m : GoMap String SymbolStat, (RangeOrder.reversed.symbolStats m).Perm m :=
    fun m => List.reverse_perm m
  have hfive : ((inWindow demoNow 500000 (demoBatch ++ [demoTrade 10 "TSLA" "buy" 900 100])).map
      (fun e => e.Symbol)).dedup.length ≤ 5 := by decide
  obtain ⟨stats, hret, -, hsums⟩ :=
    GetUserExecutionStats_partition sampleService demoNow RangeOrder.reversed
      demoOldStatsStore 7 500000 (demoBatch ++ [demoTrade 10 "TSLA" "buy" 900 100]) rfl hrange
  obtain ⟨h1, h2, h3, h4⟩ := hsums hfive
  have hval : (GetUserExecutionStats sampleService demoNow RangeOrder.reversed
      demoOldStatsStore 7 500000).ret.toOption.map
        (fun st => st.TopSymbols.map
          (fun (t : SymbolStat) => (t.Symbol, t.Count, t.BuyCount, t.SellCount))) =
      some [("AAPL", 4, 3, 1), ("MSFT", 2, 2, 0)] := by rfl
  rw [hret] at hval
  have hlist : stats.TopSymbols.map (fun t => (t.Symbol, t.Count, t.BuyCount, t.SellCount)) =
      [("AAPL", 4, 3, 1), ("MSFT", 2, 2, 0)] := Option.some.inj hval
  exact ⟨rfl, hrange, hfive, stats, hret, h1, h2, h3, h4, hlist⟩

/-! ## Rule status -/

/-- Reading the elements written from a list gives the list back when each
element reads back. -/
theorem readItems_map {α : Type} (read : Json → Except GoError α) (write : α → Json)
    (xs : List α) (h : ∀ x ∈ xs, read (write x) = .ok x) :
    readItems read (xs.map write) = .ok xs := by
  induction xs with
  | nil => rfl
  | cons x rest ih =>
    have hx := h x (List.mem_cons_self x rest)
    have hrest := ih (fun y hy => h y (List.mem_cons_of_mem x hy))
    simp only [List.map_cons, readItems, hx, hrest]

/-- A condition without `Params` reads back from its document. -/
theorem RuleCondition_fromJson_toJson (c : RuleCondition) (h : c.Params = none) :
    RuleCondition.fromJson c.toJson = .ok c := by
  obtain ⟨ty, sy, op, v, tf, pa⟩ := c
  simp only at h
  subst h
  by_cases htf : tf = ""
  · subst htf
    simp [RuleCondition.toJson, RuleCondition.fromJson, readFields, RuleCondition.setField,
      setString, setFloat, Except.map]
  · simp [RuleCondition.toJson, RuleCondition.fromJson, readFields, RuleCondition.setField,
      setString, setFloat, Except.map, htf]

/-- An action reads back from its document. -/
theorem RuleAction_fromJson_toJson (a : RuleAction) :
    RuleAction.fromJson a.toJson = .ok a := by
  obtain ⟨ty, sy, q, ot, li, st⟩ := a
  by_cases hli : li = 0 <;> by_cases hst : st = 0
  · subst hli
    subst hst
    simp [RuleAction.toJson, RuleAction.fromJson, readFields, RuleAction.setField,
      setString, setFloat, Except.map]
  · subst hli
    simp [RuleAction.toJson, RuleAction.fromJson, readFields, RuleAction.setField,
      setString, setFloat, Except.map, hst]
  · subst hst
    simp [RuleAction.toJson, RuleAction.fromJson, readFields, RuleAction.setField,
      setString, setFloat, Except.map, hli]
  · simp [RuleAction.toJson, RuleAction.fromJson, readFields, RuleAction.setField,
      setString, setFloat, Except.map, hli, hst]

/-! ## The rule evaluation loop -/

/-- One rule of a cycle adds exactly one evaluation, of that rule, after the
evaluations made so far. -/
theorem evaluateStep_evaluated {σ : Type} (eng : RuleEngine σ) (acc : σ × List EngineCall)
    (rule : TradingRule) :
    (evaluateStep eng acc rule).2.filterMap EngineCall.evaluated =
      acc.2.filterMap EngineCall.evaluated ++ [rule] := by
  unfold evaluateStep
  repeat' split
  all_goals simp [List.filterMap_append, List.filterMap_cons, EngineCall.evaluated]

/-- The rules of a cycle add their evaluations in order. -/
theorem foldl_evaluateStep_evaluated {σ : Type} (eng : RuleEngine σ) (rules : List TradingRule)
    (acc : σ × List EngineCall) :
    (rules.foldl (evaluateStep eng) acc).2.filterMap EngineCall.evaluated =
      acc.2.filterMap EngineCall.evaluated ++ rules := by
  induction rules generalizing acc with
  | nil => simp
  | cons rule rest ih =>
    rw [List.foldl_cons, ih, evaluateStep_evaluated]
    simp

/-- Claim C24: in one cycle over the fetched active rules, whatever the
evaluation, the price lookup, the execution and the recording of each rule
return, failure or not, the `EvaluateRule` calls of the cycle are made for
exactly the fetched rules, each one once and in the order fetched. -/
theorem evaluationCycle_evaluates_every_rule {σ : Type} (eng : RuleEngine σ) (s : σ)
    (rules : List TradingRule) (hrules : eng.ruleRepo.GetActiveRules s = .ok rules) :
    (evaluationCycle eng s).2.filterMap EngineCall.evaluated = rules := by
  unfold evaluationCycle
  simp only [hrules]
  rw [foldl_evaluateStep_evaluated]
  simp [EngineCall.evaluated]

set_option maxRecDepth 20000 in
/-- Witness for C24 on the sample engine: the evaluation of rule `44` fails,
the price lookup of rule `45` fails, the execution of rule `46` fails and
rule `47` is executed and recorded; all four are evaluated, in order. -/
theorem evaluationCycle_evaluates_every_rule_witness :
    sampleEngine.ruleRepo.GetActiveRules demoEngineStore = .ok demoEngineStore.rules ∧
    (sampleEngine.EvaluateRule demoEngineStore (demoEngineRule 44 "AAPL" [9])).2.2 =
      .error (.other "invalid conditions") ∧
    sampleEngine.GetPrice demoEngineStore "MSFT" = .error (.other "record not found") ∧
    (sampleEngine.ExecuteRule demoEngineStore (demoEngineRule 46 "AAPL" [1]) 149).2.2 =
      some (.other "execution failed") ∧
    (evaluationCycle sampleEngine demoEngineStore).2 =
      [.GetActiveRules,
        .EvaluateRule (demoEngineRule 44 "AAPL" [9]),
        .EvaluateRule (demoEngineRule 45 "MSFT" [1]), .GetPrice "MSFT",
        .EvaluateRule (demoEngineRule 46 "AAPL" [1]), .GetPrice "AAPL",
        .ExecuteRule (demoEngineRule 46 "AAPL" [1]) 149,
        .EvaluateRule (demoEngineRule 47 "AAPL" [1]), .GetPrice "AAPL",
        .ExecuteRule (demoEngineRule 47 "AAPL" [1]) 149,
        .CreateExecution
          { ID := 0, CreatedAt := Time.zero, UpdatedAt := Time.zero, DeletedAt := none,
            RuleID := 47, UserID := 7, Symbol := "AAPL", ExecutedAt := demoNow,
            TriggerPrice := 149, Quantity := 0, OrderType := "", Direction := "",
            Status := "executed", Notes := "Automated execution by rule engine" }] ∧
    (evaluationCycle sampleEngine demoEngineStore).2.filterMap EngineCall.evaluated =
      [demoEngineRule 44 "AAPL" [9], demoEngineRule 45 "MSFT" [1],
        demoEngineRule 46 "AAPL" [1], demoEngineRule 47 "AAPL" [1]] :=
  ⟨rfl, rfl, rfl, rfl, by rfl,
    evaluationCycle_evaluates_every_rule sampleEngine demoEngineStore demoEngineStore.rules rfl⟩


/-! ## Rule evaluation -/

/-- The example of the specification: the one condition "AAPL below 150"
triggers at 149 and triggers neither at 150 nor at 151, and with no observed
value for AAPL it does not trigger. -/
theorem triggerVerdict_price_below (observed : String → String → Option ℚ) :
    (observed "AAPL" "" = some 149 →
      triggerVerdict observed [⟨"price_below", "AAPL", .lessThan, 150, "", none⟩] = true) ∧
    (observed "AAPL" "" = some 150 →
      triggerVerdict observed [⟨"price_below", "AAPL", .lessThan, 150, "", none⟩] = false) ∧
    (observed "AAPL" "" = some 151 →
      triggerVerdict observed [⟨"price_below", "AAPL", .lessThan, 150, "", none⟩] = false) ∧
    (observed "AAPL" "" = none →
      triggerVerdict observed [⟨"price_below", "AAPL", .lessThan, 150, "", none⟩] = false) := by
  refine ⟨?_, ?_, ?_, ?_⟩ <;> intro h <;>
    simp only [triggerVerdict, combineVerdict, Condition.holds, h, Comparison.test] <;>
    norm_num

/-- Claim C25: for every rule whose conditions blob deserializes to the empty
condition sequence, and for all observed values, `EvaluateRule` returns false
without an error; and when the rule engine of the loop evaluates the rule by
`EvaluateRule`, the cycle makes the evaluation call for it and no price
lookup, execution or recording. -/
theorem EvaluateRule_empty_conditions {σ : Type}
    (parse : List UInt8 → Except GoError (List Condition))
    (observed : String → String → Option ℚ) (rule : TradingRule)
    (eng : RuleEngine σ) (acc : σ × List EngineCall)
    (hempty : parse rule.Conditions = .ok []) :
    EvaluateRule parse observed rule = .ok false ∧
    ((eng.EvaluateRule acc.1 rule).2.2 = EvaluateRule parse observed rule →
      evaluateStep eng acc rule =
        ((eng.EvaluateRule acc.1 rule).1, acc.2 ++ [.EvaluateRule rule])) := by
  have hfalse : EvaluateRule parse observed rule = .ok false := by
    unfold EvaluateRule
    rw [hempty]
    rfl
  refine ⟨hfalse, ?_⟩
  intro heval
  rw [hfalse] at heval
  unfold evaluateStep
  rcases hres : eng.EvaluateRule acc.1 rule with ⟨s1, rule1, res⟩
  rw [hres] at heval
  simp only at heval
  subst heval
  simp

/-- Witness for C25: `demoRule` has the empty conditions blob, which the
sample reader takes as the empty sequence; with AAPL observed at 149, where
the condition "AAPL below 150" would trigger, its evaluation is false and the
sample engine makes no call for it after the evaluation. -/
theorem EvaluateRule_empty_conditions_witness :
    sampleParse demoRule.Conditions = .ok [] ∧
    EvaluateRule sampleParse (sampleObserved 149) demoRule = .ok false ∧
    EvaluateRule sampleParse (sampleObserved 149) (demoEngineRule 47 "AAPL" [1]) = .ok true ∧
    evaluateStep sampleEngine (demoStore, [.GetActiveRules]) demoRule =
      (demoStore, [.GetActiveRules, .EvaluateRule demoRule]) :=
  ⟨rfl,
    (EvaluateRule_empty_conditions sampleParse (sampleObserved 149) demoRule sampleEngine
      (demoStore, [.GetActiveRules]) rfl).1,
    by rfl,
    (EvaluateRule_empty_conditions sampleParse (sampleObserved 149) demoRule sampleEngine
      (demoStore, [.GetActiveRules]) rfl).2 rfl⟩

/-! ## `float64` rounding in the services -/

/-- Values of `float64.round`: the numbers of `float64` nearest to 0.1, 0.2
and 0.3, the sum of the first two, which is the number after the third, and
the quotient of that sum by 3, which is the number after the first, as is the
product of 0.1 by 3 divided by 3; a number of `float64` is left as it is. -/
theorem float64_round_values :
    float64.round (1 / 10) = 3602879701896397 / 36028797018963968 ∧
    float64.round (2 / 10) = 3602879701896397 / 18014398509481984 ∧
    float64.round (3 / 10) = 5404319552844595 / 18014398509481984 ∧
    float64.round (float64.round (1 / 10) + float64.round (2 / 10)) =
      5404319552844596 / 18014398509481984 ∧
    float64.round (float64.round (float64.round (1 / 10) + float64.round (2 / 10)) / 3) =
      7205759403792795 / 72057594037927936 ∧
    float64.round (float64.round (float64.round (1 / 10) * 3) / 3) =
      7205759403792795 / 72057594037927936 ∧
    float64.round (float64.round (1 / 10)) = float64.round (1 / 10) ∧
    float64.round 150 = 150 ∧ float64.round (-5) = -5 ∧ float64.round 0 = 0 := by
  decide!

/-- With the identity for the rounding, the rounded `AddOrUpdateHolding` is
`AddOrUpdateHolding`. -/
theorem AddOrUpdateHoldingRounded_id {σ : Type} (repo : PortfolioRepository σ) (now : Time)
    (s : σ) (userID : UUID) (symbol : String) (quantity price : ℚ) :
    AddOrUpdateHoldingRounded id repo now s userID symbol quantity price =
      AddOrUpdateHolding repo now s userID symbol quantity price := rfl

/-- With the identity for the rounding, the rounded `GetUserExecutionStats` is
`GetUserExecutionStats`. -/
theorem GetUserExecutionStatsRounded_id {σ : Type} (svc : executionService σ) (now : Time)
    (order : RangeOrder) (s : σ) (userID : UUID) (timeRange : Duration) :
    GetUserExecutionStatsRounded id svc now order s userID timeRange =
      GetUserExecutionStats svc now order s userID timeRange := rfl

/-- C28 fails in `float64`: with 1 AAPL held at an average cost of 0.1, a buy
of 2 at 0.1 makes the code pass the average cost 0.10000000000000002 to
`UpdateHolding`, which is above both the old cost and the trade price. -/
theorem AddOrUpdateHoldingRounded_cost_above_max :
    (AddOrUpdateHoldingRounded float64.round portfolioRepository demoNow demoDimeTables 7
        "AAPL" 2 (float64.round (1 / 10))).calls =
      [.GetPortfolioByUserID 7, .GetHolding 1 "AAPL",
       .UpdateHolding ⟨3, 1, "AAPL", 3, 7205759403792795 / 72057594037927936,
          float64.round (1 / 10), demoNow, Time.zero, Time.zero⟩] ∧
    max (float64.round (1 / 10)) (float64.round (1 / 10)) <
      (7205759403792795 / 72057594037927936 : ℚ) := by
  decide!

/-- C22 fails in `float64`: starting from no holding, two buys of 3 at 0.1
both return nil and leave 6 AAPL at the average cost 0.10000000000000002,
which is not the price. -/
theorem AddOrUpdateHoldingRounded_twice_not_price :
    (AddOrUpdateHoldingRounded float64.round portfolioRepository demoNow demoTablesNoHolding 7
        "AAPL" 3 (float64.round (1 / 10))).ret = none ∧
    (AddOrUpdateHoldingRounded float64.round portfolioRepository demoNow
        (AddOrUpdateHoldingRounded float64.round portfolioRepository demoNow
          demoTablesNoHolding 7 "AAPL" 3 (float64.round (1 / 10))).store
        7 "AAPL" 3 (float64.round (1 / 10))).ret = none ∧
    (AddOrUpdateHoldingRounded float64.round portfolioRepository demoNow
        (AddOrUpdateHoldingRounded float64.round portfolioRepository demoNow
          demoTablesNoHolding 7 "AAPL" 3 (float64.round (1 / 10))).store
        7 "AAPL" 3 (float64.round (1 / 10))).store.holdings =
      [⟨100, 1, "AAPL", 6, 7205759403792795 / 72057594037927936, float64.round (1 / 10),
        demoNow, Time.zero, Time.zero⟩] ∧
    (7205759403792795 / 72057594037927936 : ℚ) ≠ float64.round (1 / 10) := by
  decide!

/-- C30 fails in `float64`: for the amounts 0.7 (AAPL), 0.1 (MSFT) and 0.5
(AAPL) the code returns the total volume 1.2999999999999998 and the
per-symbol volumes 1.2 and 0.1, whose sum is not the total volume, neither
exactly nor when it is rounded, which gives 1.3. -/
theorem GetUserExecutionStatsRounded_volumes_differ :
    (GetUserExecutionStatsRounded float64.round sampleService demoNow RangeOrder.insertion
        demoDimeStore 7 500000).ret.toOption.map
      (fun st => (st.TotalExecutions, st.TotalVolume,
        st.TopSymbols.map (fun t => (t.Symbol, t.Count, t.Volume)))) =
      some (3, 1463669878895411 / 1125899906842624,
        [("AAPL", 2, 5404319552844595 / 4503599627370496),
         ("MSFT", 1, 3602879701896397 / 36028797018963968)]) ∧
    (5404319552844595 / 4503599627370496 + 3602879701896397 / 36028797018963968 : ℚ) ≠
      1463669878895411 / 1125899906842624 ∧
    float64.round
        (5404319552844595 / 4503599627370496 + 3602879701896397 / 36028797018963968) =
      5854679515581645 / 4503599627370496 ∧
    (5854679515581645 / 4503599627370496 : ℚ) ≠ 1463669878895411 / 1125899906842624 := by
  decide!

end Sentinel
